import Mathlib

/-!
The orchestration core of package `agent` of minimalprompt.

A shallow embedding of `agent/llmwrapper.go` and of `agent/filewriter.go`, and theorems
about them.

* Go strings are modelled by `String`, Go slices by `List`, Go pointers by `Option`
  (`none` is the nil pointer).
* The receiver `*LLMWrapper` is split in two: the fields fixed by `NewLLMWrapper`
  (`LLMWrapper`) and the mutable part (`State`): the `history` field together with the
  trace of every call the core has made on a collaborator, oldest first.
* The four collaborator interfaces are deterministic oracles.  Each one sees the trace of
  all earlier calls, so that a stateful collaborator (for instance a fake that answers
  differently on its second call) is an instance.
* A nil-pointer dereference is the outcome `Result.fault`.
* The unbounded `for` loop of `Run` takes a fuel argument that bounds the number of cycles.
-/

namespace Agent

/-! ## Go values -/

/-- Go `error` values: `errorString` is what `errors.New` and `fmt.Errorf` without a `%w`
verb build, `wrapError` is what `fmt.Errorf` with one `%w` verb builds. -/
inductive GoError where
  | errorString (s : String)
  | wrapError (msg : String) (err : GoError)
  deriving DecidableEq, Repr

/-- Method `Error()` of a Go error: its message. -/
def GoError.Error : GoError → String
  | .errorString s => s
  | .wrapError msg _ => msg

/-- Method `Unwrap()` of a Go error: the error it wraps, if any. -/
def GoError.Unwrap : GoError → Option GoError
  | .errorString _ => none
  | .wrapError _ err => some err

/-- Outcome of a function of the core that returns a Go `error`: `nil`, a non-nil error, or
a run-time fault (nil-pointer dereference) that never returns. -/
inductive Result where
  | nil
  | err (e : GoError)
  | fault
  deriving DecidableEq, Repr

/-! ## Types of `github.com/tmc/langchaingo/llms` used by the core -/

/-- Role of a message: `llms.ChatMessageType`. -/
inductive ChatMessageType where
  | AI
  | Human
  | System
  | Generic
  | Function
  | Tool
  deriving DecidableEq, Repr

/-- The struct `llms.FunctionCall`. -/
structure FunctionCall where
  Name : String
  Arguments : String
  deriving DecidableEq, Repr

/-- The struct `llms.ToolCall`; `Typ` is its field `Type`, `FunctionCall` is a pointer. -/
structure ToolCall where
  ID : String
  Typ : String
  FunctionCall : Option FunctionCall
  deriving DecidableEq, Repr

/-- The struct `llms.ToolCallResponse`. -/
structure ToolCallResponse where
  ToolCallID : String
  Name : String
  Content : String
  deriving DecidableEq, Repr

/-- The interface `llms.ContentPart`, restricted to the three implementations the core
builds. -/
inductive ContentPart where
  | TextContent (Text : String)
  | ToolCall (tc : Agent.ToolCall)
  | ToolCallResponse (r : Agent.ToolCallResponse)
  deriving DecidableEq, Repr

/-- The constructor function `llms.TextPart`. -/
def TextPart (s : String) : ContentPart := .TextContent s

/-- The struct `llms.MessageContent`: one turn of the conversation. -/
structure MessageContent where
  Role : ChatMessageType
  Parts : List ContentPart
  deriving DecidableEq, Repr

/-- The struct `llms.ContentChoice`, restricted to the fields the core reads. -/
structure ContentChoice where
  Content : String := ""
  StopReason : String := ""
  ToolCalls : List ToolCall := []
  deriving DecidableEq, Repr

/-- The struct `llms.ContentResponse`; `Choices` is a slice of pointers. -/
structure ContentResponse where
  Choices : List (Option ContentChoice) := []
  deriving DecidableEq, Repr

/-- Values of the `map[string]any` literals of the two tool definitions.  A map is listed in
the order of the source text. -/
inductive Any where
  | string (s : String)
  | strings (ss : List String)
  | map (entries : List (String × Any))

/-- The struct `llms.FunctionDefinition`. -/
structure FunctionDefinition where
  Name : String
  Description : String
  Parameters : Any

/-- The struct `llms.Tool`; `Typ` is its field `Type`, `Function` is a pointer. -/
structure Tool where
  Typ : String
  Function : Option FunctionDefinition

/-! ## Collaborators and the trace of calls made on them -/

/-- One call made by the core on a collaborator (or on the logger, or `time.Sleep`). -/
inductive Event where
  | GenerateContent (messages : List MessageContent) (tools : List Tool)
  | Execute (command : String)
  | WriteFile (path content : String)
  | Prompt (input : String)
  | Info (msg key value : String)
  | Sleep (milliseconds : Nat)

/-- The interface `CommandExecutor`; the first argument is the trace before the call. -/
structure CommandExecutor where
  Execute : List Event → String → String × Option GoError

/-- The interface `FileWriter`; the first argument is the trace before the call. -/
structure FileWriter where
  WriteFile : List Event → String → String → Option GoError

/-- The interface `Model`; the first argument is the trace before the call, the second the
messages and the third the tools of `llms.WithTools`. -/
structure Model where
  GenerateContent :
    List Event → List MessageContent → List Tool → Option ContentResponse × Option GoError

/-- The interface `Prompter`; the first argument is the trace before the call. -/
structure Prompter where
  Prompt : List Event → String → String × Option GoError

/-- The `context.Context` given to `Run`: `Done tr` tells whether the context is already
cancelled when the loop polls it after the calls in `tr`. -/
structure Context where
  Done : List Event → Bool

/-- Target of `json.Unmarshal` in the `executeCommand` case. -/
structure ExecuteCommandArgs where
  Command : String
  deriving DecidableEq, Repr

/-- Target of `json.Unmarshal` in the `writeFile` case. -/
structure WriteFileArgs where
  Path : String
  Content : String
  deriving DecidableEq, Repr

/-- The parts of the Go standard library the core relies on and that are not modelled here:
`json.Unmarshal` at the two argument structs, and the table of printable runes above
U+00FF used by `strconv.IsPrint`. -/
structure GoLib where
  UnmarshalExecuteCommand : String → Except GoError ExecuteCommandArgs
  UnmarshalWriteFile : String → Except GoError WriteFileArgs
  isPrintWide : Char → Bool

/-! ## The verb `%q` of `fmt` (`strconv.Quote`) -/

/-- The double quote character. -/
def dquote : Char := Char.ofNat 34

/-- The backslash character. -/
def bslash : Char := Char.ofNat 92

/-- The digit table `lowerhex` of `strconv`, at index `n % 16`. -/
def lowerhex (n : Nat) : Char :=
  "0123456789abcdef".toList.getD (n % 16) '0'

/-- The function `strconv.IsPrint`: Latin-1 is decided directly, the rest by the tables. -/
def IsPrint (go : GoLib) (r : Char) : Bool :=
  if r.toNat ≤ 0xFF then
    if 0x20 ≤ r.toNat ∧ r.toNat ≤ 0x7E then true
    else if 0xA1 ≤ r.toNat ∧ r.toNat ≤ 0xFF then r.toNat != 0xAD
    else false
  else go.isPrintWide r

/-- The function `appendEscapedRune` of `strconv` for the quote `"`, neither ASCII-only nor
graphic-only. -/
def appendEscapedRune (go : GoLib) (r : Char) : List Char :=
  if r = dquote ∨ r = bslash then [bslash, r]
  else if IsPrint go r then [r]
  else if r.toNat = 7 then [bslash, 'a']
  else if r.toNat = 8 then [bslash, 'b']
  else if r.toNat = 12 then [bslash, 'f']
  else if r.toNat = 10 then [bslash, 'n']
  else if r.toNat = 13 then [bslash, 'r']
  else if r.toNat = 9 then [bslash, 't']
  else if r.toNat = 11 then [bslash, 'v']
  else if r.toNat < 0x20 ∨ r.toNat = 0x7F then
    [bslash, 'x', lowerhex (r.toNat / 16), lowerhex r.toNat]
  else if r.toNat < 0x10000 then
    bslash :: 'u' :: [12, 8, 4, 0].map (fun s => lowerhex (r.toNat >>> s))
  else
    bslash :: 'U' :: [28, 24, 20, 16, 12, 8, 4, 0].map (fun s => lowerhex (r.toNat >>> s))

/-- The function `strconv.Quote`, which formats the verb `%q`. -/
def Quote (go : GoLib) (s : String) : String :=
  String.mk (dquote :: (s.toList.flatMap (appendEscapedRune go) ++ [dquote]))

/-! ## `agent/llmwrapper.go` -/

/-- The fields of the struct `LLMWrapper` that `NewLLMWrapper` sets (the logger is part of
the trace). -/
structure LLMWrapper where
  persona : String
  prompt : String
  model : Model
  commandExecutor : CommandExecutor
  fileWriter : FileWriter
  prompter : Prompter

/-- The mutable part of a run: the field `history` of `LLMWrapper` and the trace of calls
made so far. -/
structure State where
  history : List MessageContent := []
  trace : List Event := []

/-- The function `NewLLMWrapper`. -/
def NewLLMWrapper (persona prompt : String) (m : Model) (ce : CommandExecutor)
    (fw : FileWriter) (p : Prompter) : LLMWrapper :=
  { persona := persona, prompt := prompt, model := m, commandExecutor := ce,
    fileWriter := fw, prompter := p }

/-- The variable `executeCommandTool`. -/
def executeCommandTool : Tool :=
  { Typ := "function",
    Function := some
      { Name := "executeCommand",
        Description := "Execute an operating system bash command",
        Parameters := .map
          [("type", .string "object"),
           ("properties", .map
             [("command", .map
               [("type", .string "string"),
                ("description", .string "The command to execute")])]),
           ("required", .strings ["command"])] } }

/-- The variable `writeFileTool`. -/
def writeFileTool : Tool :=
  { Typ := "function",
    Function := some
      { Name := "writeFile",
        Description := "Write a file to the filesystem",
        Parameters := .map
          [("type", .string "object"),
           ("properties", .map
             [("content", .map
               [("type", .string "string"),
                ("description", .string "The content of the file as a string")]),
              ("path", .map
               [("type", .string "string"),
                ("description", .string "The relative path of the file within the project")])]),
           ("required", .strings ["content", "path"])] } }

/-- The slice of tools given to `llms.WithTools` in `Run`. -/
def advertisedTools : List Tool := [executeCommandTool, writeFileTool]

/-- The method `recordText`. -/
def recordText (role : ChatMessageType) (text : String) (s : State) : State :=
  { s with history := s.history ++ [{ Role := role, Parts := [TextPart text] }] }

/-- The method `recordToolCall`; `none` when `tc.FunctionCall` is nil, which the method
dereferences while it builds the message. -/
def recordToolCall (tc : ToolCall) (s : State) : Option State :=
  match tc.FunctionCall with
  | none => none
  | some fc =>
    some { s with history := s.history ++
      [{ Role := .AI,
         Parts := [.ToolCall
           { ID := tc.ID, Typ := tc.Typ,
             FunctionCall := some { Name := fc.Name, Arguments := fc.Arguments } }] }] }

/-- The method `recordToolResponse`; `none` when `tc.FunctionCall` is nil. -/
def recordToolResponse (tc : ToolCall) (content : String) (s : State) : Option State :=
  match tc.FunctionCall with
  | none => none
  | some fc =>
    some { s with history := s.history ++
      [{ Role := .Tool,
         Parts := [.ToolCallResponse
           { ToolCallID := tc.ID, Name := fc.Name, Content := content }] }] }

/-- A call made on a collaborator is added at the end of the trace. -/
def emit (e : Event) (s : State) : State :=
  { s with trace := s.trace ++ [e] }

/-- The method `performToolCalls`. -/
def performToolCalls (go : GoLib) (l : LLMWrapper) : List ToolCall → State → Result × State
  | [], s => (.nil, s)
  | tc :: calls, s =>
    match recordToolCall tc s, tc.FunctionCall with
    | some s1, some fc =>
      if fc.Name = "executeCommand" then
        match go.UnmarshalExecuteCommand fc.Arguments with
        | .error err =>
          (.err (.wrapError
            ("could not parse tool call arguments: " ++ Quote go fc.Name ++ ": " ++ err.Error)
            err), s1)
        | .ok args =>
          let out := l.commandExecutor.Execute s1.trace args.Command
          let s2 := emit (.Execute args.Command) s1
          let pfx :=
            if out.2.isSome then "The command failed with the output"
            else "The command ran successfully with the output"
          match recordToolResponse tc (pfx ++ ":\n" ++ out.1) s2 with
          | some s3 => performToolCalls go l calls s3
          | none => (.fault, s2)
      else if fc.Name = "writeFile" then
        match go.UnmarshalWriteFile fc.Arguments with
        | .error err =>
          (.err (.wrapError
            ("could not parse tool call arguments: " ++ Quote go fc.Name ++ ": " ++ err.Error)
            err), s1)
        | .ok args =>
          match l.fileWriter.WriteFile s1.trace args.Path args.Content with
          | some err =>
            (.err (.wrapError
              ("tool call failed: " ++ Quote go fc.Name ++ ": " ++ err.Error) err),
             emit (.WriteFile args.Path args.Content) s1)
          | none =>
            match recordToolResponse tc "ok" (emit (.WriteFile args.Path args.Content) s1) with
            | some s3 => performToolCalls go l calls s3
            | none => (.fault, emit (.WriteFile args.Path args.Content) s1)
      else
        (.err (.errorString ("unrecognised tool call from model: " ++ Quote go fc.Name)), s1)
    | _, _ => (.fault, s)

/-- The method `promptUser`. -/
def promptUser (l : LLMWrapper) (q : String) (s : State) : Result × State :=
  let s1 := recordText .AI q s
  let reply := l.prompter.Prompt s1.trace q
  let s2 := emit (.Prompt q) s1
  match reply.2 with
  | some err => (.err err, s2)
  | none => (.nil, recordText .Human reply.1 s2)

/-- The statement `if len(c.Content) > 0 { l.logger.Info("AI says", "content", c.Content) }`
of `processResponse`. -/
def logContent (content : String) (s : State) : State :=
  if content.utf8ByteSize > 0 then emit (.Info "AI says" "content" content) s else s

/-- The `for` loop of the method `processResponse` over the remaining choices. -/
def processChoices (go : GoLib) (l : LLMWrapper) :
    List (Option ContentChoice) → State → Result × State
  | [], s => (.nil, s)
  | none :: _, s => (.fault, s)
  | some c :: choices, s =>
    match performToolCalls go l c.ToolCalls (logContent c.Content s) with
    | (.nil, s2) =>
      if c.ToolCalls.length > 0 then (.nil, s2)
      else if c.StopReason = "end_turn" then
        match promptUser l c.Content s2 with
        | (.nil, s3) => processChoices go l choices s3
        | (res, s3) => (res, s3)
      else processChoices go l choices s2
    | (res, s2) => (res, s2)

/-- The method `processResponse`. -/
def processResponse (go : GoLib) (l : LLMWrapper) (r : Option ContentResponse) (s : State) :
    Result × State :=
  match r with
  | none => (.fault, s)
  | some r =>
    if r.Choices.length = 0 then (.nil, s)
    else processChoices go l r.Choices s

/-- The `for` loop of the method `Run`, for at most `fuel` cycles.  The outcome `none` means
that the loop is still running after `fuel` cycles. -/
def runLoop (go : GoLib) (l : LLMWrapper) (ctx : Context) :
    Nat → State → Option Result × State
  | 0, s => (none, s)
  | fuel + 1, s =>
    if ctx.Done s.trace then (some .nil, s)
    else
      let r := l.model.GenerateContent s.trace s.history advertisedTools
      let s1 := emit (.GenerateContent s.history advertisedTools) s
      match r.2 with
      | some err => (some (.err err), s1)
      | none =>
        match processResponse go l r.1 s1 with
        | (.nil, s2) => runLoop go l ctx fuel (emit (.Sleep 5) s2)
        | (res, s2) => (some res, s2)

/-- The method `Run`: the history is seeded and the loop entered. -/
def Run (go : GoLib) (l : LLMWrapper) (ctx : Context) (fuel : Nat) (s : State) :
    Option Result × State :=
  runLoop go l ctx fuel
    { s with history :=
        [{ Role := .System, Parts := [TextPart l.persona] },
         { Role := .Human, Parts := [TextPart l.prompt] }] }

/-! ## Specification vocabulary -/

/-- The log events of one candidate: one `Info` record when its text is non-empty. -/
def logEvents (content : String) : List Event :=
  if content.utf8ByteSize > 0 then [.Info "AI says" "content" content] else []

/-- The turn that `recordToolCall` appends for a tool call with a function call. -/
def requestTurn (id typ name args : String) : MessageContent :=
  { Role := .AI, Parts := [.ToolCall { ID := id, Typ := typ, FunctionCall := some ⟨name, args⟩ }] }

/-- The turn that `recordToolResponse` appends. -/
def resultTurn (id name content : String) : MessageContent :=
  { Role := .Tool, Parts := [.ToolCallResponse { ToolCallID := id, Name := name, Content := content }] }

/-- The turn that `recordText` appends. -/
def textTurn (role : ChatMessageType) (text : String) : MessageContent :=
  { Role := role, Parts := [.TextContent text] }

/-- A cycle of `Run` that starts in state `st` reaches the tool calls of candidate `c` in
state `s`: the context is not cancelled, the model returns without error a response in
which `c` comes after candidates `before` that have no tool calls and whose processing
returned nil in state `mid`, and `s` is `mid` after the text of `c` was logged. -/
def CycleReaches (go : GoLib) (l : LLMWrapper) (ctx : Context) (st : State)
    (c : ContentChoice) (s : State) : Prop :=
  ctx.Done st.trace = false ∧
  ∃ (before after : List (Option ContentChoice)) (mid : State),
    l.model.GenerateContent st.trace st.history advertisedTools =
      (some ⟨before ++ some c :: after⟩, none) ∧
    (∀ x ∈ before, ∃ c1 : ContentChoice, x = some c1 ∧ c1.ToolCalls = []) ∧
    processChoices go l before (emit (.GenerateContent st.history advertisedTools) st) =
      (.nil, mid) ∧
    s = logContent c.Content mid

/-- State `s2` extends state `s1`: its history and its trace start with those of `s1`. -/
def Extends (s1 s2 : State) : Prop :=
  (∃ h, s2.history = s1.history ++ h) ∧ (∃ t, s2.trace = s1.trace ++ t)

/-! ## Test doubles, after `agent/llmwrapper_test.go` -/

/-- The argument string of the `writeFile` calls of the tests. -/
def writeFileArguments : String :=
  "\x7b\"path\":\"/path/to/some/file\",\"content\":\"content for the file\"\x7d"

/-- The argument string of the `executeCommand` calls of the tests. -/
def whoamiArguments : String := "\x7b\"command\":\"whoami\"\x7d"

/-- A stand-in for the Go library that decodes the two argument strings of the tests and
rejects every other string the way `json.Unmarshal` rejects a truncated document. -/
def fakeGo : GoLib :=
  { UnmarshalExecuteCommand := fun a =>
      if a = whoamiArguments then .ok ⟨"whoami"⟩
      else .error (.errorString "unexpected end of JSON input"),
    UnmarshalWriteFile := fun a =>
      if a = writeFileArguments then .ok ⟨"/path/to/some/file", "content for the file"⟩
      else .error (.errorString "unexpected end of JSON input"),
    isPrintWide := fun _ => false }

/-- Whether an event is a generation request. -/
def Event.isGenerateContent : Event → Bool
  | .GenerateContent _ _ => true
  | _ => false

/-- The fake model of the tests: `r` on the first call, an empty response afterwards. -/
def fakeModel (r : ContentResponse) : Model :=
  ⟨fun tr _ _ => if tr.any Event.isGenerateContent then (some {}, none) else (some r, none)⟩

/-- The wrapper of the tests: the model answers `r` first, the executor returns `exec`, the
file writer returns `write` and the prompter returns `reply`. -/
def fakeWrapper (r : ContentResponse) (exec : String × Option GoError)
    (write : Option GoError) (reply : String × Option GoError) : LLMWrapper :=
  NewLLMWrapper "You are a Software Engineer" "Please develop a simple calculator"
    (fakeModel r) ⟨fun _ _ => exec⟩ ⟨fun _ _ _ => write⟩ ⟨fun _ _ => reply⟩

/-- A context that is never cancelled. -/
def neverDone : Context := ⟨fun _ => false⟩

/-- The `writeFile` tool call of the tests. -/
def writeFileCall : ToolCall :=
  ⟨"abc123", "function", some ⟨"writeFile", writeFileArguments⟩⟩

/-- The second `writeFile` tool call of the test with two tool-bearing choices. -/
def otherWriteFileCall : ToolCall :=
  ⟨"def234", "function", some ⟨"writeFile",
    "\x7b\"path\":\"/path/to/other/file\",\"content\":\"content for the other file\"\x7d"⟩⟩

/-- The response of the test where the model invokes a tool that does not exist. -/
def accelerateResponse : ContentResponse :=
  ⟨[some { ToolCalls := [⟨"", "function", some ⟨"accelerate", "\x7b\"warp_factor\":5\x7d"⟩⟩] }]⟩

/-- The malformed argument string of the tests. -/
def notJSON : String := "\x7b\"not json\""

/-! ## Vocabulary of the history invariants -/

/-- A tool-request turn: a turn with a tool-call part. -/
def isToolRequest (m : MessageContent) : Bool :=
  m.Parts.any fun p =>
    match p with
    | .ToolCall _ => true
    | _ => false

/-- A ToolResult turn: a turn of role Tool, or a turn with a tool-call-response part. -/
def isToolResult (m : MessageContent) : Bool :=
  decide (m.Role = .Tool) || m.Parts.any fun p =>
    match p with
    | .ToolCallResponse _ => true
    | _ => false

/-- Turn `res` is the result of request `req`: `req` is an Assistant turn whose single part
is a tool call, `res` is a turn of role Tool whose single part is a tool-call response, and
the response carries the call id and the tool name of the call. -/
def answers (req res : MessageContent) : Bool :=
  match req, res with
  | ⟨.AI, [.ToolCall ⟨id, _, some fc⟩]⟩, ⟨.Tool, [.ToolCallResponse r]⟩ =>
    r.ToolCallID == id && r.Name == fc.Name
  | _, _ => false

/-- Every tool-request turn of the history is immediately followed by its result. -/
def RequestsAnswered : List MessageContent → Bool
  | [] => true
  | m :: rest =>
    (!isToolRequest m ||
      (match rest.head? with
       | some r => answers m r
       | none => false)) && RequestsAnswered rest

/-- Every ToolResult turn of the list is immediately preceded by its request, where `prev` is
the turn before the list, if any. -/
def ResultsPrecededFrom (prev : Option MessageContent) : List MessageContent → Bool
  | [] => true
  | m :: rest =>
    (!isToolResult m ||
      (match prev with
       | some p => answers p m
       | none => false)) && ResultsPrecededFrom (some m) rest

/-- Every ToolResult turn of the history is immediately preceded by its request. -/
def ResultsPreceded (h : List MessageContent) : Bool := ResultsPrecededFrom none h

/-- Turns appended by steps that ran to their end: text turns of role Assistant or Human, and
requests each followed by its result. -/
inductive Complete : List MessageContent → Prop where
  | nil : Complete []
  | text (role : ChatMessageType) (text : String) (rest : List MessageContent) :
      role = .AI ∨ role = .Human → Complete rest → Complete (textTurn role text :: rest)
  | pair (id typ name args content : String) (rest : List MessageContent) :
      Complete rest →
      Complete (requestTurn id typ name args :: resultTurn id name content :: rest)

/-- Turns appended by steps that may have stopped on a fatal error: complete turns, followed
or not by one request without result. -/
def Appended (t : List MessageContent) : Prop :=
  Complete t ∨
  ∃ (a : List MessageContent) (id typ name args : String),
    Complete a ∧ t = a ++ [requestTurn id typ name args]

/-- The history of `s2` is the history of `s1` followed by appended turns `t`, complete when
`done` holds. -/
def Grows (done : Prop) (s1 s2 : State) : Prop :=
  ∃ t, s2.history = s1.history ++ t ∧ Appended t ∧ (done → Complete t)

/-- Whether an event is a call on the prompter. -/
def Event.isPrompt : Event → Bool
  | .Prompt _ => true
  | _ => false

/-- A model that answers every request with the text of the test where the model describes
what it is doing: one candidate, no tool call, no stop reason. -/
def chattyModel : Model :=
  ⟨fun _ _ _ => (some ⟨[some { Content := "Checking wheel alignment" }]⟩, none)⟩

/-- The wrapper of the tests around `chattyModel`. -/
def chattyWrapper : LLMWrapper :=
  NewLLMWrapper "You are a Software Engineer" "Please develop a simple calculator"
    chattyModel ⟨fun _ _ => ("", none)⟩ ⟨fun _ _ _ => none⟩ ⟨fun _ _ => ("", none)⟩

/-! ## Vocabulary of dispatch -/

/-- Whether an event is a call on the command executor or on the file writer. -/
def Event.isDispatch : Event → Bool
  | .Execute _ => true
  | .WriteFile _ _ => true
  | _ => false

/-- The call on a collaborator that the dispatch of tool call `tc` makes: none when the
function call is nil, the tool is unknown or the arguments do not decode. -/
def dispatchOf (go : GoLib) (tc : ToolCall) : Option Event :=
  match tc.FunctionCall with
  | none => none
  | some fc =>
    if fc.Name = "executeCommand" then
      match go.UnmarshalExecuteCommand fc.Arguments with
      | .ok a => some (.Execute a.Command)
      | .error _ => none
    else if fc.Name = "writeFile" then
      match go.UnmarshalWriteFile fc.Arguments with
      | .ok a => some (.WriteFile a.Path a.Content)
      | .error _ => none
    else none

/-- The tool name of a tool call (empty when the function call is nil). -/
def toolName (tc : ToolCall) : String :=
  match tc.FunctionCall with
  | some fc => fc.Name
  | none => ""

/-- The Assistant turn whose single part is the tool call `tc` as the model gave it. -/
def requestOf (tc : ToolCall) : MessageContent :=
  { Role := .AI, Parts := [.ToolCall tc] }

/-- The turn of role Tool that answers tool call `tc` with `content`. -/
def resultOf (tc : ToolCall) (content : String) : MessageContent :=
  { Role := .Tool,
    Parts := [.ToolCallResponse { ToolCallID := tc.ID, Name := toolName tc, Content := content }] }

/-- The turns of tool calls dispatched one after the other with result contents
`contents`: request, result, request, result and so on. -/
def exchanges (calls : List ToolCall) (contents : List String) : List MessageContent :=
  (calls.zip contents).flatMap fun p => [requestOf p.1, resultOf p.1 p.2]

/-- The three fatal errors of `performToolCalls`: unknown tool, arguments that do not
decode, and failure of the file writer. -/
def IsFatalDispatchError (go : GoLib) (e : GoError) : Prop :=
  (∃ name : String,
    e = .errorString ("unrecognised tool call from model: " ++ Quote go name)) ∨
  (∃ (name : String) (cause : GoError),
    e = .wrapError
      ("could not parse tool call arguments: " ++ Quote go name ++ ": " ++ cause.Error)
      cause) ∨
  (∃ (name : String) (cause : GoError),
    e = .wrapError ("tool call failed: " ++ Quote go name ++ ": " ++ cause.Error) cause)

/-- The trace of `s2` is the trace of `s1` followed by events that all satisfy `P`. -/
def TraceGrows (P : Event → Prop) (s1 s2 : State) : Prop :=
  ∃ t, s2.trace = s1.trace ++ t ∧ ∀ e ∈ t, P e

/-- The first turn of the history has role System and no other turn has. -/
def SystemFirstOnly : List MessageContent → Bool
  | [] => false
  | m :: rest => decide (m.Role = .System) && rest.all fun x => decide (x.Role ≠ .System)

/-! ## `agent/filewriter.go` -/

/-- One call made by `SimpleFileWriter.WriteFile` on the logger or on the operating
system. -/
inductive FileCall where
  | Info (msg key value : String)
  | MkdirAll (path : String) (perm : Nat)
  | WriteFile (name data : String) (perm : Nat)
  deriving DecidableEq, Repr

/-- The functions of `path/filepath` and `os` that `SimpleFileWriter.WriteFile` calls, which
are not modelled here.  `MkdirAll` and `WriteFile` see the calls made before. -/
structure FileSystem where
  IsLocal : String → Bool
  Join : String → String → String
  Dir : String → String
  MkdirAll : List FileCall → String → Nat → Option GoError
  WriteFile : List FileCall → String → String → Nat → Option GoError

/-- The struct `SimpleFileWriter` (the logger is part of the list of calls). -/
structure SimpleFileWriter where
  dir : String

/-- The function `NewSimpleFileWriter`. -/
def NewSimpleFileWriter (dir : String) : SimpleFileWriter := { dir := dir }

/-- The method `SimpleFileWriter.WriteFile`: the error returned and the calls made, after the
calls `calls` made before. -/
def SimpleFileWriter.WriteFile (go : GoLib) (fs : FileSystem) (fw : SimpleFileWriter)
    (path content : String) (calls : List FileCall) : Option GoError × List FileCall :=
  let calls1 := calls ++ [.Info "writing file" "path" path]
  if !fs.IsLocal path then
    (some (.errorString ("path is not a local path: " ++ Quote go path)), calls1)
  else
    let f := fs.Join fw.dir path
    match fs.MkdirAll calls1 (fs.Dir f) 0o700 with
    | some err => (some err, calls1 ++ [.MkdirAll (fs.Dir f) 0o700])
    | none =>
      match fs.WriteFile (calls1 ++ [.MkdirAll (fs.Dir f) 0o700]) f content 0o600 with
      | some err =>
        (some err, calls1 ++ [.MkdirAll (fs.Dir f) 0o700, .WriteFile f content 0o600])
      | none => (none, calls1 ++ [.MkdirAll (fs.Dir f) 0o700, .WriteFile f content 0o600])

/-- Whether a call is a call on the operating system (directory creation or file write). -/
def FileCall.isSystemCall : FileCall → Bool
  | .Info _ _ _ => false
  | _ => true

/-! ## Test doubles, after `agent/filewriter_test.go` -/

/-- The elements of a slash-separated path: `splitSlash cur cs` are the elements of `cs`,
the first one after the characters `cur` already read. -/
def splitSlash : List Char → List Char → List (List Char)
  | cur, [] => [cur]
  | cur, c :: cs => if c = '/' then cur :: splitSlash [] cs else splitSlash (cur ++ [c]) cs

/-- The elements of a slash-separated path. -/
def pathElements (path : String) : List String :=
  (splitSlash [] path.toList).map String.mk

/-- A stand-in for the operating system in which every call succeeds.  Its `IsLocal`
rejects the empty path, the paths that start with a slash and the paths with a `..`
element, as `filepath.IsLocal` does on Unix (which accepts some more paths with `..`
elements, not used by the tests). -/
def fakeFileSystem : FileSystem :=
  { IsLocal := fun p =>
      decide (p ≠ "") && !(p.toList.head? == some '/') && !((pathElements p).contains ".."),
    Join := fun d p => d ++ "/" ++ p,
    Dir := fun f => "/".intercalate ((pathElements f).dropLast),
    MkdirAll := fun _ _ _ => none,
    WriteFile := fun _ _ _ _ => none }

/-! ## `encoding/json` at the two argument structs

The decoder is part of the Go standard library.  It is a parameter of the embedding
(`GoLib`); the model below, written after the documentation of `encoding/json`, is one
instance of the parameter, used where a claim depends on what the decoder returns. -/

/-- A JSON value, as `json.Unmarshal` reads it; a number keeps its literal. -/
inductive JSON where
  | null
  | bool (b : Bool)
  | number (literal : String)
  | string (s : String)
  | array (elements : List JSON)
  | object (members : List (String × JSON))

/-- The white space of JSON: space, tab, carriage return, line feed. -/
def isJSONSpace (c : Char) : Bool :=
  c.toNat = 32 || c.toNat = 9 || c.toNat = 13 || c.toNat = 10

/-- The input after its leading white space. -/
def skipSpace : List Char → List Char
  | [] => []
  | c :: cs => if isJSONSpace c then skipSpace cs else c :: cs

/-- The value of a hexadecimal digit. -/
def hexValue (c : Char) : Option Nat :=
  if 48 ≤ c.toNat ∧ c.toNat ≤ 57 then some (c.toNat - 48)
  else if 97 ≤ c.toNat ∧ c.toNat ≤ 102 then some (c.toNat - 87)
  else if 65 ≤ c.toNat ∧ c.toNat ≤ 70 then some (c.toNat - 55)
  else none

/-- The function `getu4` of `encoding/json` on the four digits after a `\u`. -/
def getu4 (a b c d : Char) : Option Nat :=
  match hexValue a, hexValue b, hexValue c, hexValue d with
  | some x, some y, some z, some w => some (((x * 16 + y) * 16 + z) * 16 + w)
  | _, _, _, _ => none

/-- The character that a one-letter escape stands for. -/
def unescape (e : Char) : Option Char :=
  if e = dquote then some dquote
  else if e = bslash then some bslash
  else if e = '/' then some '/'
  else if e = 'b' then some (Char.ofNat 8)
  else if e = 'f' then some (Char.ofNat 12)
  else if e = 'n' then some (Char.ofNat 10)
  else if e = 'r' then some (Char.ofNat 13)
  else if e = 't' then some (Char.ofNat 9)
  else none

/-- The low surrogate written `\uXXXX` at the head of the input, if there is one that
pairs with the high surrogate `hi`, with the decoded rune and the input after it. -/
def lowSurrogate (hi : Nat) (cs : List Char) : Option (Char × List Char) :=
  match cs with
  | b :: u :: a1 :: a2 :: a3 :: a4 :: rest =>
    if b = bslash ∧ u = 'u' then
      match getu4 a1 a2 a3 a4 with
      | some lo =>
        if 0xD800 ≤ hi ∧ hi < 0xDC00 ∧ 0xDC00 ≤ lo ∧ lo < 0xE000 then
          some (Char.ofNat ((hi - 0xD800) * 0x400 + (lo - 0xDC00) + 0x10000), rest)
        else none
      | none => none
    else none
  | _ => none

/-- The body of a JSON string after its opening quote: the decoded text and the input after
the closing quote; `none` on a syntax error.  The first argument bounds the number of
steps. -/
def parseStringBody : Nat → List Char → Option (List Char × List Char)
  | 0, _ => none
  | _ + 1, [] => none
  | fuel + 1, c :: cs =>
    if c = dquote then some ([], cs)
    else if c = bslash then
      match cs with
      | [] => none
      | e :: rest =>
        if e = 'u' then
          match rest with
          | a1 :: a2 :: a3 :: a4 :: rest2 =>
            match getu4 a1 a2 a3 a4 with
            | none => none
            | some n =>
              if 0xD800 ≤ n ∧ n < 0xE000 then
                match lowSurrogate n rest2 with
                | some (r, rest3) =>
                  (parseStringBody fuel rest3).map fun p => (r :: p.1, p.2)
                | none =>
                  (parseStringBody fuel rest2).map fun p => (Char.ofNat 0xFFFD :: p.1, p.2)
              else (parseStringBody fuel rest2).map fun p => (Char.ofNat n :: p.1, p.2)
          | _ => none
        else
          match unescape e with
          | none => none
          | some r => (parseStringBody fuel rest).map fun p => (r :: p.1, p.2)
    else if c.toNat < 0x20 then none
    else (parseStringBody fuel cs).map fun p => (c :: p.1, p.2)

/-- Whether a character is a decimal digit. -/
def isDigit (c : Char) : Bool := 48 ≤ c.toNat && c.toNat ≤ 57

/-- The leading decimal digits of the input, and the input after them. -/
def spanDigits : List Char → List Char × List Char
  | [] => ([], [])
  | c :: cs =>
    if isDigit c then ((spanDigits cs).1.cons c, (spanDigits cs).2) else ([], c :: cs)

/-- The exponent part of a number, if the input starts with one. -/
def parseExponent (cs : List Char) : Option (List Char × List Char) :=
  match cs with
  | e :: rest =>
    if e = 'e' ∨ e = 'E' then
      match rest with
      | s :: rest2 =>
        if s = '+' ∨ s = '-' then
          match spanDigits rest2 with
          | ([], _) => none
          | (ds, rest3) => some (e :: s :: ds, rest3)
        else
          match spanDigits rest with
          | ([], _) => none
          | (ds, rest3) => some (e :: ds, rest3)
      | [] => none
    else some ([], cs)
  | [] => some ([], [])

/-- The fraction part of a number, if the input starts with one. -/
def parseFraction (cs : List Char) : Option (List Char × List Char) :=
  match cs with
  | d :: rest =>
    if d = '.' then
      match spanDigits rest with
      | ([], _) => none
      | (ds, rest2) => some (d :: ds, rest2)
    else some ([], cs)
  | [] => some ([], [])

/-- The integer part of a number, without sign: `0`, or a non-zero digit and digits. -/
def parseInteger (cs : List Char) : Option (List Char × List Char) :=
  match cs with
  | d :: rest =>
    if d = '0' then some ([d], rest)
    else if isDigit d then some (d :: (spanDigits rest).1, (spanDigits rest).2)
    else none
  | [] => none

/-- A JSON number at the head of the input: its literal and the input after it. -/
def parseNumber (cs : List Char) : Option (List Char × List Char) :=
  let signed : List Char × List Char :=
    match cs with
    | m :: rest => if m = '-' then ([m], rest) else ([], cs)
    | [] => ([], [])
  match parseInteger signed.2 with
  | none => none
  | some (i, r1) =>
    match parseFraction r1 with
    | none => none
    | some (f, r2) =>
      match parseExponent r2 with
      | none => none
      | some (e, r3) => some (signed.1 ++ i ++ f ++ e, r3)

/-- The input after the word `w`, if the input starts with it. -/
def dropWord : List Char → List Char → Option (List Char)
  | [], cs => some cs
  | _ :: _, [] => none
  | w :: ws, c :: cs => if w = c then dropWord ws cs else none

/-- The limit `maxNestingDepth` of the scanner of `encoding/json`. -/
def maxNestingDepth : Nat := 10000

mutual

/-- A JSON value at the head of the input, after white space: the value and the input
after it; `none` on a syntax error.  The first argument bounds the number of steps, the
second is the number of arrays and objects around the value. -/
def parseValue : Nat → Nat → List Char → Option (JSON × List Char)
  | 0, _, _ => none
  | fuel + 1, depth, cs =>
    match skipSpace cs with
    | [] => none
    | c :: rest =>
      if c.toNat = 123 then
        if depth + 1 > maxNestingDepth then none
        else
          match skipSpace rest with
          | d :: rest2 =>
            if d.toNat = 125 then some (.object [], rest2)
            else (parseMembers fuel (depth + 1) (d :: rest2)).map fun p => (.object p.1, p.2)
          | [] => none
      else if c.toNat = 91 then
        if depth + 1 > maxNestingDepth then none
        else
          match skipSpace rest with
          | d :: rest2 =>
            if d.toNat = 93 then some (.array [], rest2)
            else (parseElements fuel (depth + 1) (d :: rest2)).map fun p => (.array p.1, p.2)
          | [] => none
      else if c = dquote then
        (parseStringBody (rest.length + 1) rest).map fun p => (.string (String.mk p.1), p.2)
      else if c = 't' then (dropWord "true".toList (c :: rest)).map fun r => (.bool true, r)
      else if c = 'f' then (dropWord "false".toList (c :: rest)).map fun r => (.bool false, r)
      else if c = 'n' then (dropWord "null".toList (c :: rest)).map fun r => (.null, r)
      else (parseNumber (c :: rest)).map fun p => (.number (String.mk p.1), p.2)

/-- The members of an object from the first key on: the input starts, after white space,
with the quote of a key. -/
def parseMembers : Nat → Nat → List Char → Option (List (String × JSON) × List Char)
  | 0, _, _ => none
  | fuel + 1, depth, cs =>
    match skipSpace cs with
    | q :: rest =>
      if q = dquote then
        match parseStringBody (rest.length + 1) rest with
        | none => none
        | some (key, rest2) =>
          match skipSpace rest2 with
          | colon :: rest3 =>
            if colon.toNat = 58 then
              match parseValue fuel depth rest3 with
              | none => none
              | some (v, rest4) =>
                match skipSpace rest4 with
                | d :: rest5 =>
                  if d.toNat = 125 then some ([(String.mk key, v)], rest5)
                  else if d.toNat = 44 then
                    (parseMembers fuel depth rest5).map fun p =>
                      ((String.mk key, v) :: p.1, p.2)
                  else none
                | [] => none
            else none
          | [] => none
      else none
    | [] => none

/-- The elements of an array from the first element on. -/
def parseElements : Nat → Nat → List Char → Option (List JSON × List Char)
  | 0, _, _ => none
  | fuel + 1, depth, cs =>
    match parseValue fuel depth cs with
    | none => none
    | some (v, rest) =>
      match skipSpace rest with
      | d :: rest2 =>
        if d.toNat = 93 then some ([v], rest2)
        else if d.toNat = 44 then
          (parseElements fuel depth rest2).map fun p => (v :: p.1, p.2)
        else none
      | [] => none

end

/-- The whole input as one JSON value with white space around it; `none` on a syntax
error. -/
def parseJSON (data : String) : Option JSON :=
  match parseValue (2 * data.length + 2) 0 data.toList with
  | some (v, rest) => if skipSpace rest = [] then some v else none
  | none => none

/-- A name in lower case, ASCII letters only.  For the field names `Command`, `Path` and
`Content` two names are equal under `bytes.EqualFold` exactly when they are equal in
lower case: none of their letters has a third case variant. -/
def lowerASCII (s : String) : String :=
  String.mk (s.toList.map fun c => if 65 ≤ c.toNat ∧ c.toNat ≤ 90 then Char.ofNat (c.toNat + 32) else c)

/-- A key of a JSON object selects the struct field `field`: same name up to case. -/
def matchesField (field key : String) : Bool :=
  lowerASCII key = lowerASCII field

/-- What storing a JSON value in a string field does: a string is stored, `null` leaves the
field as it is, and any other value leaves the field as it is and is a type error. -/
def storeString (v : JSON) (old : String) : String × Bool :=
  match v with
  | .string s => (s, false)
  | .null => (old, false)
  | _ => (old, true)

/-- The error `*json.SyntaxError`; its text is not modelled. -/
def jsonSyntaxError : GoError := .errorString "json: syntax error"

/-- The error `*json.UnmarshalTypeError`; its text is not modelled. -/
def jsonTypeError : GoError := .errorString "json: cannot unmarshal value into Go value"

/-- The members of an object stored one after the other in `struct { Command string }`; the
flag records a type error met on the way (the first one is the error returned at the
end). -/
def decodeExecuteCommandMembers :
    List (String × JSON) → ExecuteCommandArgs × Bool → ExecuteCommandArgs × Bool
  | [], acc => acc
  | (k, v) :: rest, (args, bad) =>
    if matchesField "Command" k then
      decodeExecuteCommandMembers rest
        ({ Command := (storeString v args.Command).1 }, bad || (storeString v args.Command).2)
    else decodeExecuteCommandMembers rest (args, bad)

/-- A JSON value decoded in a zero `struct { Command string }`. -/
def decodeExecuteCommand : JSON → Except GoError ExecuteCommandArgs
  | .object members =>
    if (decodeExecuteCommandMembers members ({ Command := "" }, false)).2 then
      .error jsonTypeError
    else .ok (decodeExecuteCommandMembers members ({ Command := "" }, false)).1
  | .null => .ok { Command := "" }
  | _ => .error jsonTypeError

/-- The members of an object stored one after the other in
`struct { Path string; Content string }`. -/
def decodeWriteFileMembers :
    List (String × JSON) → WriteFileArgs × Bool → WriteFileArgs × Bool
  | [], acc => acc
  | (k, v) :: rest, (args, bad) =>
    if matchesField "Path" k then
      decodeWriteFileMembers rest
        ({ args with Path := (storeString v args.Path).1 }, bad || (storeString v args.Path).2)
    else if matchesField "Content" k then
      decodeWriteFileMembers rest
        ({ args with Content := (storeString v args.Content).1 },
          bad || (storeString v args.Content).2)
    else decodeWriteFileMembers rest (args, bad)

/-- A JSON value decoded in a zero `struct { Path string; Content string }`. -/
def decodeWriteFile : JSON → Except GoError WriteFileArgs
  | .object members =>
    if (decodeWriteFileMembers members ({ Path := "", Content := "" }, false)).2 then
      .error jsonTypeError
    else .ok (decodeWriteFileMembers members ({ Path := "", Content := "" }, false)).1
  | .null => .ok { Path := "", Content := "" }
  | _ => .error jsonTypeError

/-- Modelled from the spec: `json.Unmarshal` belongs to the Go standard library and is not
under src/.  The spec says that the raw arguments are decoded against the expected shape of
the handler and that malformed input is an argument decode error; the decoding itself
follows the documentation of `encoding/json`: the input is one JSON value, the keys of an
object are matched to the fields of the struct without regard to case, a key that matches
no field is ignored, a field without key keeps its zero value, and a value that is neither
a string nor `null` is a type error for a string field.  This is `json.Unmarshal` at
`struct { Command string }`. -/
def jsonUnmarshalExecuteCommand (data : String) : Except GoError ExecuteCommandArgs :=
  match parseJSON data with
  | none => .error jsonSyntaxError
  | some v => decodeExecuteCommand v

/-- Modelled from the spec: `json.Unmarshal` at `struct { Path string; Content string }`,
under the same reading as `jsonUnmarshalExecuteCommand`. -/
def jsonUnmarshalWriteFile (data : String) : Except GoError WriteFileArgs :=
  match parseJSON data with
  | none => .error jsonSyntaxError
  | some v => decodeWriteFile v

/-- The Go library `go` with `json.Unmarshal` given by the model above. -/
def withJSON (go : GoLib) : GoLib :=
  { go with
    UnmarshalExecuteCommand := jsonUnmarshalExecuteCommand,
    UnmarshalWriteFile := jsonUnmarshalWriteFile }

/-! ## Step lemmas -/

section Steps

variable (go : GoLib) (l : LLMWrapper)

theorem Quote_executeCommand : Quote go "executeCommand" = "\"executeCommand\"" := rfl

theorem Quote_writeFile : Quote go "writeFile" = "\"writeFile\"" := rfl

theorem logContent_eq (content : String) (s : State) :
    logContent content s = { history := s.history, trace := s.trace ++ logEvents content } := by
  unfold logContent logEvents emit
  split <;> simp

theorem performToolCalls_nil (s : State) : performToolCalls go l [] s = (.nil, s) := by
  simp [performToolCalls]

theorem performToolCalls_nilFunctionCall (id typ : String) (calls : List ToolCall) (s : State) :
    performToolCalls go l (⟨id, typ, none⟩ :: calls) s = (.fault, s) := by
  simp [performToolCalls, recordToolCall]

theorem performToolCalls_unknown (id typ name args : String) (calls : List ToolCall)
    (s : State) (h1 : name ≠ "executeCommand") (h2 : name ≠ "writeFile") :
    performToolCalls go l (⟨id, typ, some ⟨name, args⟩⟩ :: calls) s =
      (.err (.errorString ("unrecognised tool call from model: " ++ Quote go name)),
       { history := s.history ++ [requestTurn id typ name args], trace := s.trace }) := by
  simp [performToolCalls, recordToolCall, requestTurn, h1, h2]

theorem performToolCalls_execute_decodeError (id typ args : String) (calls : List ToolCall)
    (s : State) (cause : GoError) (h : go.UnmarshalExecuteCommand args = .error cause) :
    performToolCalls go l (⟨id, typ, some ⟨"executeCommand", args⟩⟩ :: calls) s =
      (.err (.wrapError
        ("could not parse tool call arguments: \"executeCommand\": " ++ cause.Error) cause),
       { history := s.history ++ [requestTurn id typ "executeCommand" args],
         trace := s.trace }) := by
  simp [performToolCalls, recordToolCall, requestTurn, h, Quote_executeCommand]

theorem performToolCalls_writeFile_decodeError (id typ args : String) (calls : List ToolCall)
    (s : State) (cause : GoError) (h : go.UnmarshalWriteFile args = .error cause) :
    performToolCalls go l (⟨id, typ, some ⟨"writeFile", args⟩⟩ :: calls) s =
      (.err (.wrapError
        ("could not parse tool call arguments: \"writeFile\": " ++ cause.Error) cause),
       { history := s.history ++ [requestTurn id typ "writeFile" args],
         trace := s.trace }) := by
  simp [performToolCalls, recordToolCall, requestTurn, h, Quote_writeFile]

theorem performToolCalls_execute (id typ args : String) (calls : List ToolCall)
    (s : State) (a : ExecuteCommandArgs) (h : go.UnmarshalExecuteCommand args = .ok a) :
    performToolCalls go l (⟨id, typ, some ⟨"executeCommand", args⟩⟩ :: calls) s =
      performToolCalls go l calls
        { history := s.history ++
            [requestTurn id typ "executeCommand" args,
             resultTurn id "executeCommand"
               ((if (l.commandExecutor.Execute s.trace a.Command).2.isSome
                   then "The command failed with the output"
                   else "The command ran successfully with the output")
                 ++ ":\n" ++ (l.commandExecutor.Execute s.trace a.Command).1)],
          trace := s.trace ++ [.Execute a.Command] } := by
  simp [performToolCalls, recordToolCall, recordToolResponse, requestTurn, resultTurn, emit, h]

theorem performToolCalls_writeFile_fails (id typ args : String) (calls : List ToolCall)
    (s : State) (a : WriteFileArgs) (cause : GoError)
    (h : go.UnmarshalWriteFile args = .ok a)
    (hw : l.fileWriter.WriteFile s.trace a.Path a.Content = some cause) :
    performToolCalls go l (⟨id, typ, some ⟨"writeFile", args⟩⟩ :: calls) s =
      (.err (.wrapError ("tool call failed: \"writeFile\": " ++ cause.Error) cause),
       { history := s.history ++ [requestTurn id typ "writeFile" args],
         trace := s.trace ++ [.WriteFile a.Path a.Content] }) := by
  simp [performToolCalls, recordToolCall, requestTurn, emit, h, hw, Quote_writeFile]

theorem performToolCalls_writeFile (id typ args : String) (calls : List ToolCall)
    (s : State) (a : WriteFileArgs)
    (h : go.UnmarshalWriteFile args = .ok a)
    (hw : l.fileWriter.WriteFile s.trace a.Path a.Content = none) :
    performToolCalls go l (⟨id, typ, some ⟨"writeFile", args⟩⟩ :: calls) s =
      performToolCalls go l calls
        { history := s.history ++
            [requestTurn id typ "writeFile" args, resultTurn id "writeFile" "ok"],
          trace := s.trace ++ [.WriteFile a.Path a.Content] } := by
  simp [performToolCalls, recordToolCall, recordToolResponse, requestTurn, resultTurn, emit,
    h, hw]

theorem performToolCalls_cons (tc : ToolCall) (calls : List ToolCall) (s : State) :
    performToolCalls go l (tc :: calls) s =
      match performToolCalls go l [tc] s with
      | (.nil, s1) => performToolCalls go l calls s1
      | r => r := by
  rcases tc with ⟨id, typ, _ | ⟨name, args⟩⟩
  · simp [performToolCalls_nilFunctionCall]
  · by_cases h1 : name = "executeCommand"
    · subst h1
      cases h : go.UnmarshalExecuteCommand args with
      | error e => simp [performToolCalls_execute_decodeError go l _ _ _ _ _ e h]
      | ok a =>
        rw [performToolCalls_execute go l id typ args calls s a h,
          performToolCalls_execute go l id typ args [] s a h, performToolCalls_nil]
    · by_cases h2 : name = "writeFile"
      · subst h2
        cases h : go.UnmarshalWriteFile args with
        | error e => simp [performToolCalls_writeFile_decodeError go l _ _ _ _ _ e h]
        | ok a =>
          cases hw : l.fileWriter.WriteFile s.trace a.Path a.Content with
          | some e => simp [performToolCalls_writeFile_fails go l _ _ _ _ _ a e h hw]
          | none =>
            rw [performToolCalls_writeFile go l id typ args calls s a h hw,
              performToolCalls_writeFile go l id typ args [] s a h hw, performToolCalls_nil]
      · simp [performToolCalls_unknown go l _ _ _ _ _ _ h1 h2]

theorem performToolCalls_append (pre calls : List ToolCall) (s s1 : State)
    (h : performToolCalls go l pre s = (.nil, s1)) :
    performToolCalls go l (pre ++ calls) s = performToolCalls go l calls s1 := by
  induction pre generalizing s with
  | nil => simp [performToolCalls] at h; simp [h]
  | cons tc pre ih =>
    rw [List.cons_append, performToolCalls_cons]
    rw [performToolCalls_cons] at h
    rcases hr : performToolCalls go l [tc] s with ⟨r, s2⟩
    rw [hr] at h
    cases r with
    | nil => simpa using ih s2 (by simpa using h)
    | err e => simp at h
    | fault => simp at h

theorem processChoices_toolBearing (c : ContentChoice) (choices : List (Option ContentChoice))
    (s : State) (h : c.ToolCalls ≠ []) :
    processChoices go l (some c :: choices) s =
      performToolCalls go l c.ToolCalls (logContent c.Content s) := by
  have hlen : c.ToolCalls.length > 0 := List.length_pos.mpr h
  rcases hr : performToolCalls go l c.ToolCalls (logContent c.Content s) with ⟨r, s2⟩
  cases r <;> simp [processChoices, hr, hlen]

theorem processChoices_skip (c : ContentChoice) (choices : List (Option ContentChoice))
    (s : State) (h : c.ToolCalls = []) (hsr : c.StopReason ≠ "end_turn") :
    processChoices go l (some c :: choices) s =
      processChoices go l choices (logContent c.Content s) := by
  simp [processChoices, h, hsr, performToolCalls]

theorem promptUser_ok (q reply : String) (s : State)
    (hp : l.prompter.Prompt s.trace q = (reply, none)) :
    promptUser l q s =
      (.nil, { history := s.history ++ [textTurn .AI q, textTurn .Human reply],
               trace := s.trace ++ [.Prompt q] }) := by
  simp [promptUser, recordText, emit, textTurn, TextPart, hp]

theorem promptUser_fails (q reply : String) (e : GoError) (s : State)
    (hp : l.prompter.Prompt s.trace q = (reply, some e)) :
    promptUser l q s =
      (.err e, { history := s.history ++ [textTurn .AI q], trace := s.trace ++ [.Prompt q] }) := by
  simp [promptUser, recordText, emit, textTurn, TextPart, hp]

theorem processChoices_escalate (c : ContentChoice) (choices : List (Option ContentChoice))
    (s : State) (reply : String) (h : c.ToolCalls = []) (hsr : c.StopReason = "end_turn")
    (hp : l.prompter.Prompt (s.trace ++ logEvents c.Content) c.Content = (reply, none)) :
    processChoices go l (some c :: choices) s =
      processChoices go l choices
        { history := s.history ++ [textTurn .AI c.Content, textTurn .Human reply],
          trace := s.trace ++ logEvents c.Content ++ [.Prompt c.Content] } := by
  have hp2 := promptUser_ok l c.Content reply
    { history := s.history, trace := s.trace ++ logEvents c.Content } hp
  simp [processChoices, h, hsr, performToolCalls, logContent_eq, hp2]

theorem processResponse_cons (x : Option ContentChoice) (xs : List (Option ContentChoice))
    (s : State) :
    processResponse go l (some ⟨x :: xs⟩) s = processChoices go l (x :: xs) s := by
  simp [processResponse]

theorem runLoop_error (ctx : Context) (fuel : Nat) (st s2 : State) (r : Option ContentResponse)
    (e : GoError) (hctx : ctx.Done st.trace = false)
    (hm : l.model.GenerateContent st.trace st.history advertisedTools = (r, none))
    (hp : processResponse go l r (emit (.GenerateContent st.history advertisedTools) st) =
      (.err e, s2)) :
    runLoop go l ctx (fuel + 1) st = (some (.err e), s2) := by
  simp [runLoop, hctx, hm, hp]

theorem runLoop_continue (ctx : Context) (fuel : Nat) (st s2 : State)
    (r : Option ContentResponse) (hctx : ctx.Done st.trace = false)
    (hm : l.model.GenerateContent st.trace st.history advertisedTools = (r, none))
    (hp : processResponse go l r (emit (.GenerateContent st.history advertisedTools) st) =
      (.nil, s2)) :
    runLoop go l ctx (fuel + 1) st = runLoop go l ctx fuel (emit (.Sleep 5) s2) := by
  simp [runLoop, hctx, hm, hp]

theorem processChoices_append (before rest : List (Option ContentChoice)) (s mid : State)
    (hno : ∀ x ∈ before, ∃ c1 : ContentChoice, x = some c1 ∧ c1.ToolCalls = [])
    (h : processChoices go l before s = (.nil, mid)) :
    processChoices go l (before ++ rest) s = processChoices go l rest mid := by
  induction before generalizing s with
  | nil =>
    simp only [processChoices, Prod.mk.injEq, true_and] at h
    simp [h]
  | cons x before ih =>
    obtain ⟨c1, rfl, hc1⟩ := hno x (List.mem_cons_self _ _)
    have hno2 : ∀ y ∈ before, ∃ c2 : ContentChoice, y = some c2 ∧ c2.ToolCalls = [] :=
      fun y hy => hno y (List.mem_cons_of_mem _ hy)
    simp only [List.cons_append, processChoices, hc1, performToolCalls, List.length_nil,
      gt_iff_lt, Nat.lt_irrefl, if_false, List.append_eq] at h ⊢
    by_cases hsr : c1.StopReason = "end_turn"
    · simp only [hsr, if_true] at h ⊢
      rcases hq : promptUser l c1.Content (logContent c1.Content s) with ⟨r2, s3⟩
      rw [hq] at h
      cases r2 with
      | nil => simpa using ih s3 hno2 (by simpa using h)
      | err e => simp at h
      | fault => simp at h
    · simp only [hsr, if_false] at h ⊢
      exact ih _ hno2 h

theorem processResponse_reaches (ctx : Context) (st s : State) (c : ContentChoice)
    (hc : CycleReaches go l ctx st c s) (hne : c.ToolCalls ≠ []) :
    ∃ r, ctx.Done st.trace = false ∧
      l.model.GenerateContent st.trace st.history advertisedTools = (r, none) ∧
      processResponse go l r (emit (.GenerateContent st.history advertisedTools) st) =
        performToolCalls go l c.ToolCalls s := by
  obtain ⟨hctx, before, after, mid, hm, hno, hb, rfl⟩ := hc
  refine ⟨_, hctx, hm, ?_⟩
  have e1 : processResponse go l (some ⟨before ++ some c :: after⟩)
      (emit (.GenerateContent st.history advertisedTools) st) =
      processChoices go l (before ++ some c :: after)
        (emit (.GenerateContent st.history advertisedTools) st) := by
    cases before <;> simp [processResponse]
  rw [e1, processChoices_append go l before _ _ mid hno hb,
    processChoices_toolBearing go l c after mid hne]

theorem runLoop_toolError (ctx : Context) (fuel : Nat) (st s s2 : State) (c : ContentChoice)
    (e : GoError) (hc : CycleReaches go l ctx st c s)
    (hp : performToolCalls go l c.ToolCalls s = (.err e, s2)) :
    runLoop go l ctx (fuel + 1) st = (some (.err e), s2) := by
  have hne : c.ToolCalls ≠ [] := by
    intro h0
    rw [h0, performToolCalls_nil] at hp
    simp at hp
  obtain ⟨r, hctx, hm, hr⟩ := processResponse_reaches go l ctx st s c hc hne
  exact runLoop_error go l ctx fuel st s2 r e hctx hm (hr.trans hp)

theorem runLoop_toolsDone (ctx : Context) (fuel : Nat) (st s s2 : State) (c : ContentChoice)
    (hc : CycleReaches go l ctx st c s) (hne : c.ToolCalls ≠ [])
    (hp : performToolCalls go l c.ToolCalls s = (.nil, s2)) :
    runLoop go l ctx (fuel + 1) st = runLoop go l ctx fuel (emit (.Sleep 5) s2) := by
  obtain ⟨r, hctx, hm, hr⟩ := processResponse_reaches go l ctx st s c hc hne
  exact runLoop_continue go l ctx fuel st s2 r hctx hm (hr.trans hp)

/-! ## The state only grows -/

theorem Extends.refl (s : State) : Extends s s := ⟨⟨[], by simp⟩, ⟨[], by simp⟩⟩

theorem Extends.trans {s1 s2 s3 : State} (h12 : Extends s1 s2) (h23 : Extends s2 s3) :
    Extends s1 s3 := by
  obtain ⟨⟨h, hh⟩, ⟨t, ht⟩⟩ := h12
  obtain ⟨⟨h2, hh2⟩, ⟨t2, ht2⟩⟩ := h23
  exact ⟨⟨h ++ h2, by rw [hh2, hh, List.append_assoc]⟩, ⟨t ++ t2, by rw [ht2, ht, List.append_assoc]⟩⟩

theorem Extends.mk_append (s : State) (h : List MessageContent) (t : List Event) :
    Extends s { history := s.history ++ h, trace := s.trace ++ t } := ⟨⟨h, rfl⟩, ⟨t, rfl⟩⟩

theorem Extends.mk_history (s : State) (h : List MessageContent) :
    Extends s { history := s.history ++ h, trace := s.trace } := ⟨⟨h, rfl⟩, ⟨[], by simp⟩⟩

theorem logContent_extends (content : String) (s : State) : Extends s (logContent content s) := by
  rw [logContent_eq]
  exact ⟨⟨[], by simp⟩, ⟨_, rfl⟩⟩

theorem performToolCalls_single_extends (tc : ToolCall) (s : State) :
    Extends s (performToolCalls go l [tc] s).2 := by
  rcases tc with ⟨id, typ, _ | ⟨name, args⟩⟩
  · rw [performToolCalls_nilFunctionCall]; exact Extends.refl s
  · by_cases h1 : name = "executeCommand"
    · subst h1
      cases h : go.UnmarshalExecuteCommand args with
      | error e =>
        rw [performToolCalls_execute_decodeError go l _ _ _ _ _ e h]
        exact Extends.mk_history _ _
      | ok a =>
        rw [performToolCalls_execute go l id typ args [] s a h, performToolCalls_nil]
        exact Extends.mk_append _ _ _
    · by_cases h2 : name = "writeFile"
      · subst h2
        cases h : go.UnmarshalWriteFile args with
        | error e =>
          rw [performToolCalls_writeFile_decodeError go l _ _ _ _ _ e h]
          exact Extends.mk_history _ _
        | ok a =>
          cases hw : l.fileWriter.WriteFile s.trace a.Path a.Content with
          | some e =>
            rw [performToolCalls_writeFile_fails go l _ _ _ _ _ a e h hw]
            exact Extends.mk_append _ _ _
          | none =>
            rw [performToolCalls_writeFile go l id typ args [] s a h hw, performToolCalls_nil]
            exact Extends.mk_append _ _ _
      · rw [performToolCalls_unknown go l _ _ _ _ _ _ h1 h2]
        exact Extends.mk_history _ _

theorem performToolCalls_extends (calls : List ToolCall) (s : State) :
    Extends s (performToolCalls go l calls s).2 := by
  induction calls generalizing s with
  | nil => rw [performToolCalls_nil]; exact Extends.refl s
  | cons tc calls ih =>
    rw [performToolCalls_cons]
    have h1 := performToolCalls_single_extends go l tc s
    rcases hr : performToolCalls go l [tc] s with ⟨r, s2⟩
    rw [hr] at h1
    cases r with
    | nil => exact Extends.trans h1 (ih s2)
    | err e => exact h1
    | fault => exact h1

theorem promptUser_extends (q : String) (s : State) : Extends s (promptUser l q s).2 := by
  rcases hp : l.prompter.Prompt s.trace q with ⟨reply, _ | e⟩
  · rw [promptUser_ok l q reply s hp]; exact Extends.mk_append _ _ _
  · rw [promptUser_fails l q reply e s hp]; exact Extends.mk_append _ _ _

theorem processChoices_extends (choices : List (Option ContentChoice)) (s : State) :
    Extends s (processChoices go l choices s).2 := by
  induction choices generalizing s with
  | nil => simp [processChoices]; exact Extends.refl s
  | cons x choices ih =>
    cases x with
    | none => simp [processChoices]; exact Extends.refl s
    | some c =>
      have h1 : Extends s (performToolCalls go l c.ToolCalls (logContent c.Content s)).2 :=
        Extends.trans (logContent_extends _ _) (performToolCalls_extends go l _ _)
      unfold processChoices
      rcases hr : performToolCalls go l c.ToolCalls (logContent c.Content s) with ⟨r, s2⟩
      rw [hr] at h1
      cases r with
      | nil =>
        simp only
        split
        · exact h1
        · split
          · have h2 := promptUser_extends l c.Content s2
            rcases hq : promptUser l c.Content s2 with ⟨r2, s3⟩
            rw [hq] at h2
            cases r2 with
            | nil => exact Extends.trans h1 (Extends.trans h2 (ih s3))
            | err e => exact Extends.trans h1 h2
            | fault => exact Extends.trans h1 h2
          · exact Extends.trans h1 (ih s2)
      | err e => exact h1
      | fault => exact h1

theorem processResponse_extends (r : Option ContentResponse) (s : State) :
    Extends s (processResponse go l r s).2 := by
  unfold processResponse
  cases r with
  | none => exact Extends.refl s
  | some r =>
    simp only
    split
    · exact Extends.refl s
    · exact processChoices_extends go l _ _

theorem emit_extends (e : Event) (s : State) : Extends s (emit e s) :=
  ⟨⟨[], by simp [emit]⟩, ⟨[e], rfl⟩⟩

theorem runLoop_extends (ctx : Context) (fuel : Nat) (s : State) :
    Extends s (runLoop go l ctx fuel s).2 := by
  induction fuel generalizing s with
  | zero => simp [runLoop]; exact Extends.refl s
  | succ n ih =>
    unfold runLoop
    split
    · exact Extends.refl s
    · simp only
      split
      · exact emit_extends _ _
      · have h1 := Extends.trans (emit_extends (.GenerateContent s.history advertisedTools) s)
          (processResponse_extends go l
            (l.model.GenerateContent s.trace s.history advertisedTools).1 _)
        rcases hr : processResponse go l
            (l.model.GenerateContent s.trace s.history advertisedTools).1
            (emit (.GenerateContent s.history advertisedTools) s) with ⟨r, s2⟩
        rw [hr] at h1
        cases r with
        | nil => exact Extends.trans h1 (Extends.trans (emit_extends _ _) (ih _))
        | err e => exact h1
        | fault => exact h1

end Steps

/-! ## The claims -/

theorem runLoop_first_event (go : GoLib) (l : LLMWrapper) (ctx : Context) (fuel : Nat)
    (s : State) (hctx : ctx.Done s.trace = false) :
    ∃ later, (runLoop go l ctx (fuel + 1) s).2.trace =
      s.trace ++ .GenerateContent s.history advertisedTools :: later := by
  have key : Extends (emit (.GenerateContent s.history advertisedTools) s)
      (runLoop go l ctx (fuel + 1) s).2 := by
    unfold runLoop
    simp only [hctx]
    simp only [Bool.false_eq_true, if_false]
    split
    · exact Extends.refl _
    · have h1 := processResponse_extends go l
        (l.model.GenerateContent s.trace s.history advertisedTools).1
        (emit (.GenerateContent s.history advertisedTools) s)
      rcases hr : processResponse go l
          (l.model.GenerateContent s.trace s.history advertisedTools).1
          (emit (.GenerateContent s.history advertisedTools) s) with ⟨r, s2⟩
      rw [hr] at h1
      cases r with
      | nil => exact Extends.trans h1 (Extends.trans (emit_extends _ _) (runLoop_extends go l ctx _ _))
      | err e => exact h1
      | fault => exact h1
  obtain ⟨_, ⟨t, ht⟩⟩ := key
  exact ⟨t, by rw [ht]; simp [emit]⟩

/-- C1: whenever `Run` makes a generation request, the first one is given exactly the two
seeded turns, in this order: a System turn whose single part is the text `persona`, then a
Human turn whose single part is the text `prompt`.  `Run` makes no call at all when the
context is already cancelled (or no cycle is run); otherwise the first call it makes is
that generation request. -/
theorem C1_first_request_is_seeded (go : GoLib) (l : LLMWrapper) (ctx : Context) (fuel : Nat)
    (s : State) :
    (ctx.Done s.trace = true ∨ fuel = 0 → (Run go l ctx fuel s).2.trace = s.trace) ∧
    (ctx.Done s.trace = false → 0 < fuel →
      ∃ later, (Run go l ctx fuel s).2.trace =
        s.trace ++
          .GenerateContent
            [{ Role := .System, Parts := [.TextContent l.persona] },
             { Role := .Human, Parts := [.TextContent l.prompt] }]
            [executeCommandTool, writeFileTool] :: later) := by
  constructor
  · intro h
    cases fuel with
    | zero => simp [Run, runLoop]
    | succ n =>
      rcases h with h | h
      · simp [Run, runLoop, h]
      · simp at h
  · intro hctx hfuel
    obtain ⟨n, rfl⟩ := Nat.exists_eq_succ_of_ne_zero (Nat.pos_iff_ne_zero.mp hfuel)
    exact runLoop_first_event go l ctx n _ hctx

/-- C1, on the wrapper of the tests: the first call of `Run` is the generation request on the
two seeded turns. -/
theorem C1_first_request_is_seeded_witness :
    neverDone.Done ({} : State).trace = false ∧ 0 < 3 ∧
    ∃ later, (Run fakeGo (fakeWrapper {} ("", none) none ("", none)) neverDone 3 {}).2.trace =
      ({} : State).trace ++
        .GenerateContent
          [{ Role := .System, Parts := [.TextContent "You are a Software Engineer"] },
           { Role := .Human, Parts := [.TextContent "Please develop a simple calculator"] }]
          [executeCommandTool, writeFileTool] :: later :=
  ⟨rfl, by decide,
    (C1_first_request_is_seeded fakeGo (fakeWrapper {} ("", none) none ("", none))
      neverDone 3 {}).2 rfl (by decide)⟩

theorem processChoices_after_toolBearing (go : GoLib) (l : LLMWrapper)
    (pre : List (Option ContentChoice)) (c : ContentChoice) (post : List (Option ContentChoice))
    (s : State) (h : c.ToolCalls ≠ []) :
    processChoices go l (pre ++ some c :: post) s = processChoices go l (pre ++ [some c]) s := by
  induction pre generalizing s with
  | nil =>
    simp only [List.nil_append]
    rw [processChoices_toolBearing go l c post s h, processChoices_toolBearing go l c [] s h]
  | cons x pre ih =>
    cases x with
    | none => simp [processChoices]
    | some c1 =>
      simp only [List.cons_append, processChoices, List.append_eq, ih]

/-- C2: once a candidate with at least one tool call has been processed, the candidates
after it have no effect: the outcome, the history and the trace of calls on the
collaborators are those of the response cut after that candidate.  In particular, when the
first candidate has tool calls, `processResponse` is exactly the dispatch of the tool calls
of the first candidate, so that nothing of any other candidate is recorded or dispatched
and the prompter is not called. -/
theorem C2_later_candidates_discarded (go : GoLib) (l : LLMWrapper)
    (pre : List (Option ContentChoice)) (c : ContentChoice) (post : List (Option ContentChoice))
    (s : State) (h : c.ToolCalls ≠ []) :
    processResponse go l (some ⟨pre ++ some c :: post⟩) s =
        processResponse go l (some ⟨pre ++ [some c]⟩) s ∧
    processResponse go l (some ⟨some c :: post⟩) s =
        performToolCalls go l c.ToolCalls (logContent c.Content s) := by
  constructor
  · have e1 : processResponse go l (some ⟨pre ++ some c :: post⟩) s =
        processChoices go l (pre ++ some c :: post) s := by
      cases pre <;> simp [processResponse]
    have e2 : processResponse go l (some ⟨pre ++ [some c]⟩) s =
        processChoices go l (pre ++ [some c]) s := by
      cases pre <;> simp [processResponse]
    rw [e1, e2]
    exact processChoices_after_toolBearing go l pre c post s h
  · rw [processResponse_cons]
    exact processChoices_toolBearing go l c post s h

/-- C2, on the test with two choices that both invoke `writeFile`: only the first call is
recorded and reaches the file writer. -/
theorem C2_later_candidates_discarded_witness :
    ({ ToolCalls := [writeFileCall] } : ContentChoice).ToolCalls ≠ [] ∧
    processResponse fakeGo (fakeWrapper {} ("", none) none ("", none))
        (some ⟨[some { ToolCalls := [writeFileCall] },
                some { ToolCalls := [otherWriteFileCall] }]⟩) {} =
      (.nil,
       { history :=
           [requestTurn "abc123" "function" "writeFile" writeFileArguments,
            resultTurn "abc123" "writeFile" "ok"],
         trace := [.WriteFile "/path/to/some/file" "content for the file"] }) :=
  ⟨by decide,
    ((C2_later_candidates_discarded fakeGo (fakeWrapper {} ("", none) none ("", none)) []
        { ToolCalls := [writeFileCall] } [some { ToolCalls := [otherWriteFileCall] }] {}
        (by decide)).2).trans rfl⟩

/-- C3: for a response with two candidates, the first with only text and stop reason
`end_turn`, the second with one valid tool call, and a prompter that succeeds,
`processResponse` calls the prompter once with the text of the first candidate and then
dispatches the tool call of the second candidate once; the history gains, in order, the
Assistant question turn, the Human reply turn, the tool-request turn and the tool-result
turn (first part for `writeFile`, second part for `executeCommand`).  More generally a
candidate without tool calls is passed over and the candidates after it are processed
next: directly when its stop reason is not `end_turn` (third part), after the exchange
with the prompter when it is `end_turn` and the prompter succeeds (fourth part). -/
theorem C3_text_candidate_then_tool_candidate (go : GoLib) (l : LLMWrapper) (s : State) :
    (∀ (q reply t2 sr2 id typ args : String) (a : WriteFileArgs),
      l.prompter.Prompt (s.trace ++ logEvents q) q = (reply, none) →
      go.UnmarshalWriteFile args = .ok a →
      l.fileWriter.WriteFile (s.trace ++ logEvents q ++ [.Prompt q] ++ logEvents t2)
        a.Path a.Content = none →
      processResponse go l
          (some ⟨[some ⟨q, "end_turn", []⟩,
                  some ⟨t2, sr2, [⟨id, typ, some ⟨"writeFile", args⟩⟩]⟩]⟩) s =
        (.nil,
         { history := s.history ++
             [textTurn .AI q, textTurn .Human reply,
              requestTurn id typ "writeFile" args, resultTurn id "writeFile" "ok"],
           trace := s.trace ++ logEvents q ++ [.Prompt q] ++ logEvents t2 ++
             [.WriteFile a.Path a.Content] })) ∧
    (∀ (q reply t2 sr2 id typ args output : String) (a : ExecuteCommandArgs),
      l.prompter.Prompt (s.trace ++ logEvents q) q = (reply, none) →
      go.UnmarshalExecuteCommand args = .ok a →
      l.commandExecutor.Execute (s.trace ++ logEvents q ++ [.Prompt q] ++ logEvents t2)
        a.Command = (output, none) →
      processResponse go l
          (some ⟨[some ⟨q, "end_turn", []⟩,
                  some ⟨t2, sr2, [⟨id, typ, some ⟨"executeCommand", args⟩⟩]⟩]⟩) s =
        (.nil,
         { history := s.history ++
             [textTurn .AI q, textTurn .Human reply,
              requestTurn id typ "executeCommand" args,
              resultTurn id "executeCommand"
                ("The command ran successfully with the output:\n" ++ output)],
           trace := s.trace ++ logEvents q ++ [.Prompt q] ++ logEvents t2 ++
             [.Execute a.Command] })) ∧
    (∀ (c : ContentChoice) (x : Option ContentChoice) (rest : List (Option ContentChoice)),
      c.ToolCalls = [] → c.StopReason ≠ "end_turn" →
      processResponse go l (some ⟨some c :: x :: rest⟩) s =
        processResponse go l (some ⟨x :: rest⟩)
          { history := s.history, trace := s.trace ++ logEvents c.Content }) ∧
    (∀ (c : ContentChoice) (x : Option ContentChoice) (rest : List (Option ContentChoice))
      (reply : String),
      c.ToolCalls = [] → c.StopReason = "end_turn" →
      l.prompter.Prompt (s.trace ++ logEvents c.Content) c.Content = (reply, none) →
      processResponse go l (some ⟨some c :: x :: rest⟩) s =
        processResponse go l (some ⟨x :: rest⟩)
          { history := s.history ++ [textTurn .AI c.Content, textTurn .Human reply],
            trace := s.trace ++ logEvents c.Content ++ [.Prompt c.Content] }) := by
  refine ⟨?_, ?_, ?_, ?_⟩
  · intro q reply t2 sr2 id typ args a hp hd hw
    rw [processResponse_cons,
      processChoices_escalate go l ⟨q, "end_turn", []⟩ _ s reply rfl rfl hp,
      processChoices_toolBearing go l _ _ _ (by simp), logContent_eq]
    have hw2 : l.fileWriter.WriteFile
        ({ history := s.history ++ [textTurn .AI q, textTurn .Human reply],
           trace := s.trace ++ logEvents q ++ [.Prompt q] ++ logEvents t2 } : State).trace
        a.Path a.Content = none := hw
    rw [performToolCalls_writeFile go l id typ args [] _ a hd hw2, performToolCalls_nil]
    simp
  · intro q reply t2 sr2 id typ args output a hp hd hx
    rw [processResponse_cons,
      processChoices_escalate go l ⟨q, "end_turn", []⟩ _ s reply rfl rfl hp,
      processChoices_toolBearing go l _ _ _ (by simp), logContent_eq]
    have hx2 : l.commandExecutor.Execute
        ({ history := s.history ++ [textTurn .AI q, textTurn .Human reply],
           trace := s.trace ++ logEvents q ++ [.Prompt q] ++ logEvents t2 } : State).trace
        a.Command = (output, none) := hx
    rw [performToolCalls_execute go l id typ args [] _ a hd, performToolCalls_nil, hx2]
    simp
  · intro c x rest h hsr
    rw [processResponse_cons, processChoices_skip go l c _ s h hsr, logContent_eq,
      processResponse_cons]
  · intro c x rest reply h hsr hp
    rw [processResponse_cons, processChoices_escalate go l c _ s reply h hsr hp,
      processResponse_cons]

/-- C3, on a response like the one of the test with a text choice followed by a choice that
invokes `writeFile`, the first choice asking for help. -/
theorem C3_text_candidate_then_tool_candidate_witness :
    (fakeWrapper {} ("", none) none ("Please make it yellow.", none)).prompter.Prompt
        (({} : State).trace ++ logEvents "What do you think?") "What do you think?" =
      ("Please make it yellow.", none) ∧
    fakeGo.UnmarshalWriteFile writeFileArguments =
      .ok ⟨"/path/to/some/file", "content for the file"⟩ ∧
    processResponse fakeGo (fakeWrapper {} ("", none) none ("Please make it yellow.", none))
        (some ⟨[some ⟨"What do you think?", "end_turn", []⟩,
                some ⟨"", "", [⟨"abc123", "function", some ⟨"writeFile", writeFileArguments⟩⟩]⟩]⟩)
        {} =
      (.nil,
       { history := ({} : State).history ++
           [textTurn .AI "What do you think?", textTurn .Human "Please make it yellow.",
            requestTurn "abc123" "function" "writeFile" writeFileArguments,
            resultTurn "abc123" "writeFile" "ok"],
         trace := ({} : State).trace ++ logEvents "What do you think?" ++
           [.Prompt "What do you think?"] ++ logEvents "" ++
           [.WriteFile "/path/to/some/file" "content for the file"] }) :=
  ⟨rfl, rfl,
    (C3_text_candidate_then_tool_candidate fakeGo
      (fakeWrapper {} ("", none) none ("Please make it yellow.", none)) {}).1
      "What do you think?" "Please make it yellow." "" "" "abc123" "function"
      writeFileArguments ⟨"/path/to/some/file", "content for the file"⟩ rfl rfl rfl⟩

/-- C4: a tool call whose name is neither `executeCommand` nor `writeFile`, reached after the
tool calls before it were dispatched, makes `performToolCalls` fail with the error
`unrecognised tool call from model: ` followed by the quoted name.  The request turn is the
last turn appended: there is no result turn for the call, and no call is made on the
command executor or the file writer (the trace is unchanged).  Every cycle of `Run`
that reaches the call returns that error, whatever the position of the candidate. -/
theorem C4_unrecognised_tool_call (go : GoLib) (l : LLMWrapper) (pre post : List ToolCall)
    (id typ name args : String) (s s1 : State)
    (hpre : performToolCalls go l pre s = (.nil, s1))
    (h1 : name ≠ "executeCommand") (h2 : name ≠ "writeFile") :
    performToolCalls go l (pre ++ ⟨id, typ, some ⟨name, args⟩⟩ :: post) s =
      (.err (.errorString ("unrecognised tool call from model: " ++ Quote go name)),
       { history := s1.history ++ [requestTurn id typ name args], trace := s1.trace }) ∧
    ∀ (ctx : Context) (fuel : Nat) (st : State) (c : ContentChoice),
      CycleReaches go l ctx st c s →
      c.ToolCalls = pre ++ ⟨id, typ, some ⟨name, args⟩⟩ :: post →
      runLoop go l ctx (fuel + 1) st =
        (some (.err (.errorString ("unrecognised tool call from model: " ++ Quote go name))),
         { history := s1.history ++ [requestTurn id typ name args], trace := s1.trace }) := by
  have key := (performToolCalls_append go l pre (⟨id, typ, some ⟨name, args⟩⟩ :: post) s s1
    hpre).trans (performToolCalls_unknown go l id typ name args post s1 h1 h2)
  refine ⟨key, ?_⟩
  intro ctx fuel st c hc hcalls
  rw [← hcalls] at key
  exact runLoop_toolError go l ctx fuel st s _ c _ hc key

/-- C4, on the test where the model invokes the tool `accelerate`: `Run` returns the error
`unrecognised tool call from model: "accelerate"`, the executor and the file writer are not
called, and the last turn is the request. -/
theorem C4_unrecognised_tool_call_witness :
    "accelerate" ≠ "executeCommand" ∧ "accelerate" ≠ "writeFile" ∧
    Run fakeGo (fakeWrapper accelerateResponse ("", none) none ("", none)) neverDone 3 {} =
      (some (.err (.errorString "unrecognised tool call from model: \"accelerate\"")),
       { history :=
           [textTurn .System "You are a Software Engineer",
            textTurn .Human "Please develop a simple calculator",
            requestTurn "" "function" "accelerate" "\x7b\"warp_factor\":5\x7d"],
         trace :=
           [.GenerateContent
             [textTurn .System "You are a Software Engineer",
              textTurn .Human "Please develop a simple calculator"]
             advertisedTools] }) :=
  ⟨by decide, by decide,
    (C4_unrecognised_tool_call fakeGo
      (fakeWrapper accelerateResponse ("", none) none ("", none)) [] [] "" "function"
      "accelerate" "\x7b\"warp_factor\":5\x7d" _ _ rfl (by decide) (by decide)).2 neverDone 2
      { history :=
          [textTurn .System "You are a Software Engineer",
           textTurn .Human "Please develop a simple calculator"] }
      { ToolCalls := [⟨"", "function", some ⟨"accelerate", "\x7b\"warp_factor\":5\x7d"⟩⟩] }
      ⟨rfl, [], [], _, rfl, by simp, rfl, rfl⟩ rfl⟩

/-- C5: an `executeCommand` or `writeFile` tool call whose argument string fails to decode
with error `cause`, reached after the tool calls before it were dispatched, makes
`performToolCalls` fail with an error that wraps `cause` and whose message is
`could not parse tool call arguments: "<tool name>": ` followed by the message of `cause`.
The request turn is the last turn appended (no result turn) and the collaborator is not
called (the trace is unchanged).  Every cycle of `Run` that reaches the call returns
that error, whatever the position of the candidate. -/
theorem C5_argument_decode_failure (go : GoLib) (l : LLMWrapper) (pre post : List ToolCall)
    (id typ args : String) (cause : GoError) (s s1 : State)
    (hpre : performToolCalls go l pre s = (.nil, s1)) :
    (go.UnmarshalExecuteCommand args = .error cause →
      performToolCalls go l (pre ++ ⟨id, typ, some ⟨"executeCommand", args⟩⟩ :: post) s =
        (.err (.wrapError
          ("could not parse tool call arguments: \"executeCommand\": " ++ cause.Error) cause),
         { history := s1.history ++ [requestTurn id typ "executeCommand" args],
           trace := s1.trace }) ∧
      ∀ (ctx : Context) (fuel : Nat) (st : State) (c : ContentChoice),
        CycleReaches go l ctx st c s →
        c.ToolCalls = pre ++ ⟨id, typ, some ⟨"executeCommand", args⟩⟩ :: post →
        runLoop go l ctx (fuel + 1) st =
          (some (.err (.wrapError
            ("could not parse tool call arguments: \"executeCommand\": " ++ cause.Error)
            cause)),
           { history := s1.history ++ [requestTurn id typ "executeCommand" args],
             trace := s1.trace })) ∧
    (go.UnmarshalWriteFile args = .error cause →
      performToolCalls go l (pre ++ ⟨id, typ, some ⟨"writeFile", args⟩⟩ :: post) s =
        (.err (.wrapError
          ("could not parse tool call arguments: \"writeFile\": " ++ cause.Error) cause),
         { history := s1.history ++ [requestTurn id typ "writeFile" args],
           trace := s1.trace }) ∧
      ∀ (ctx : Context) (fuel : Nat) (st : State) (c : ContentChoice),
        CycleReaches go l ctx st c s →
        c.ToolCalls = pre ++ ⟨id, typ, some ⟨"writeFile", args⟩⟩ :: post →
        runLoop go l ctx (fuel + 1) st =
          (some (.err (.wrapError
            ("could not parse tool call arguments: \"writeFile\": " ++ cause.Error) cause)),
           { history := s1.history ++ [requestTurn id typ "writeFile" args],
             trace := s1.trace })) := by
  constructor
  · intro hd
    have key := (performToolCalls_append go l pre
      (⟨id, typ, some ⟨"executeCommand", args⟩⟩ :: post) s s1 hpre).trans
      (performToolCalls_execute_decodeError go l id typ args post s1 cause hd)
    refine ⟨key, ?_⟩
    intro ctx fuel st c hc hcalls
    rw [← hcalls] at key
    exact runLoop_toolError go l ctx fuel st s _ c _ hc key
  · intro hd
    have key := (performToolCalls_append go l pre
      (⟨id, typ, some ⟨"writeFile", args⟩⟩ :: post) s s1 hpre).trans
      (performToolCalls_writeFile_decodeError go l id typ args post s1 cause hd)
    refine ⟨key, ?_⟩
    intro ctx fuel st c hc hcalls
    rw [← hcalls] at key
    exact runLoop_toolError go l ctx fuel st s _ c _ hc key

/-- C5, on the test where the arguments of a `writeFile` call are `{"not json"`. -/
theorem C5_argument_decode_failure_witness :
    performToolCalls fakeGo (fakeWrapper {} ("", none) none ("", none)) [] {} = (.nil, {}) ∧
    fakeGo.UnmarshalWriteFile notJSON = .error (.errorString "unexpected end of JSON input") ∧
    performToolCalls fakeGo (fakeWrapper {} ("", none) none ("", none))
        ([] ++ ⟨"", "function", some ⟨"writeFile", notJSON⟩⟩ :: []) {} =
      (.err (.wrapError
        ("could not parse tool call arguments: \"writeFile\": " ++
          (GoError.errorString "unexpected end of JSON input").Error)
        (.errorString "unexpected end of JSON input")),
       { history := ({} : State).history ++ [requestTurn "" "function" "writeFile" notJSON],
         trace := ({} : State).trace }) :=
  ⟨rfl, rfl,
    ((C5_argument_decode_failure fakeGo (fakeWrapper {} ("", none) none ("", none)) [] []
      "" "function" notJSON (.errorString "unexpected end of JSON input") {} {} rfl).2 rfl).1⟩

/-- C6: for a candidate with a single `writeFile` tool call whose arguments decode to
`(path, content)` and for which the file writer succeeds, the file writer is called exactly
once, with exactly the decoded path and content, and the history gains the request turn and
then a turn of role Tool whose single part carries the call id of the request, the name
`writeFile` and the content `ok`.  Stated for `performToolCalls` on the single call and for
`processResponse` on a response that starts with such a candidate. -/
theorem C6_writeFile_success (go : GoLib) (l : LLMWrapper) (id typ args : String)
    (a : WriteFileArgs) (s : State) (hd : go.UnmarshalWriteFile args = .ok a) :
    (l.fileWriter.WriteFile s.trace a.Path a.Content = none →
      performToolCalls go l [⟨id, typ, some ⟨"writeFile", args⟩⟩] s =
        (.nil,
         { history := s.history ++
             [requestTurn id typ "writeFile" args,
              { Role := .Tool,
                Parts := [.ToolCallResponse
                  { ToolCallID := id, Name := "writeFile", Content := "ok" }] }],
           trace := s.trace ++ [.WriteFile a.Path a.Content] })) ∧
    (∀ (text sr : String) (choices : List (Option ContentChoice)),
      l.fileWriter.WriteFile (s.trace ++ logEvents text) a.Path a.Content = none →
      processResponse go l
          (some ⟨some ⟨text, sr, [⟨id, typ, some ⟨"writeFile", args⟩⟩]⟩ :: choices⟩) s =
        (.nil,
         { history := s.history ++
             [requestTurn id typ "writeFile" args,
              { Role := .Tool,
                Parts := [.ToolCallResponse
                  { ToolCallID := id, Name := "writeFile", Content := "ok" }] }],
           trace := s.trace ++ logEvents text ++ [.WriteFile a.Path a.Content] })) := by
  constructor
  · intro hw
    rw [performToolCalls_writeFile go l id typ args [] s a hd hw, performToolCalls_nil]
    rfl
  · intro text sr choices hw
    rw [processResponse_cons, processChoices_toolBearing go l _ _ _ (by simp), logContent_eq]
    have hw2 : l.fileWriter.WriteFile
        ({ history := s.history, trace := s.trace ++ logEvents text } : State).trace
        a.Path a.Content = none := hw
    rw [performToolCalls_writeFile go l id typ args [] _ a hd hw2, performToolCalls_nil]
    rfl

/-- C6, on the test where the model invokes `writeFile`. -/
theorem C6_writeFile_success_witness :
    fakeGo.UnmarshalWriteFile writeFileArguments =
      .ok ⟨"/path/to/some/file", "content for the file"⟩ ∧
    processResponse fakeGo (fakeWrapper {} ("", none) none ("", none))
        (some ⟨[some { ToolCalls := [writeFileCall] }]⟩) {} =
      (.nil,
       { history :=
           [requestTurn "abc123" "function" "writeFile" writeFileArguments,
            { Role := .Tool,
              Parts := [.ToolCallResponse
                { ToolCallID := "abc123", Name := "writeFile", Content := "ok" }] }],
         trace := [.WriteFile "/path/to/some/file" "content for the file"] }) :=
  ⟨rfl,
    (C6_writeFile_success fakeGo (fakeWrapper {} ("", none) none ("", none)) "abc123"
      "function" writeFileArguments ⟨"/path/to/some/file", "content for the file"⟩ {} rfl).2
      "" "" [] rfl⟩

/-- C7: a `writeFile` tool call whose arguments decode and for which the file writer returns
the error `cause`, reached after the tool calls before it were dispatched, makes
`performToolCalls` fail with an error that wraps `cause` and whose message is
`tool call failed: "writeFile": ` followed by the message of `cause`.  The file writer has
been called once, the request turn is the last turn appended: no result turn is recorded
for the call.  Every cycle of `Run` that reaches the call returns that error, whatever
the position of the candidate. -/
theorem C7_writeFile_failure_is_fatal (go : GoLib) (l : LLMWrapper) (pre post : List ToolCall)
    (id typ args : String) (a : WriteFileArgs) (cause : GoError) (s s1 : State)
    (hpre : performToolCalls go l pre s = (.nil, s1))
    (hd : go.UnmarshalWriteFile args = .ok a)
    (hw : l.fileWriter.WriteFile s1.trace a.Path a.Content = some cause) :
    performToolCalls go l (pre ++ ⟨id, typ, some ⟨"writeFile", args⟩⟩ :: post) s =
      (.err (.wrapError ("tool call failed: \"writeFile\": " ++ cause.Error) cause),
       { history := s1.history ++ [requestTurn id typ "writeFile" args],
         trace := s1.trace ++ [.WriteFile a.Path a.Content] }) ∧
    (GoError.wrapError ("tool call failed: \"writeFile\": " ++ cause.Error) cause).Unwrap =
      some cause ∧
    ∀ (ctx : Context) (fuel : Nat) (st : State) (c : ContentChoice),
      CycleReaches go l ctx st c s →
      c.ToolCalls = pre ++ ⟨id, typ, some ⟨"writeFile", args⟩⟩ :: post →
      runLoop go l ctx (fuel + 1) st =
        (some (.err (.wrapError ("tool call failed: \"writeFile\": " ++ cause.Error) cause)),
         { history := s1.history ++ [requestTurn id typ "writeFile" args],
           trace := s1.trace ++ [.WriteFile a.Path a.Content] }) := by
  have key := (performToolCalls_append go l pre
    (⟨id, typ, some ⟨"writeFile", args⟩⟩ :: post) s s1 hpre).trans
    (performToolCalls_writeFile_fails go l id typ args post s1 a cause hd hw)
  refine ⟨key, rfl, ?_⟩
  intro ctx fuel st c hc hcalls
  rw [← hcalls] at key
  exact runLoop_toolError go l ctx fuel st s _ c _ hc key

/-- C7, on the test where the file cannot be written to: `Run` returns the error
`tool call failed: "writeFile": some-error`. -/
theorem C7_writeFile_failure_is_fatal_witness :
    fakeGo.UnmarshalWriteFile writeFileArguments =
      .ok ⟨"/path/to/some/file", "content for the file"⟩ ∧
    Run fakeGo
        (fakeWrapper ⟨[some { ToolCalls := [writeFileCall] }]⟩ ("", none)
          (some (.errorString "some-error")) ("", none)) neverDone 3 {} =
      (some (.err (.wrapError "tool call failed: \"writeFile\": some-error"
        (.errorString "some-error"))),
       { history :=
           [textTurn .System "You are a Software Engineer",
            textTurn .Human "Please develop a simple calculator",
            requestTurn "abc123" "function" "writeFile" writeFileArguments],
         trace :=
           [.GenerateContent
             [textTurn .System "You are a Software Engineer",
              textTurn .Human "Please develop a simple calculator"]
             advertisedTools,
            .WriteFile "/path/to/some/file" "content for the file"] }) :=
  ⟨rfl,
    (C7_writeFile_failure_is_fatal fakeGo
      (fakeWrapper ⟨[some { ToolCalls := [writeFileCall] }]⟩ ("", none)
        (some (.errorString "some-error")) ("", none)) [] [] "abc123" "function"
      writeFileArguments ⟨"/path/to/some/file", "content for the file"⟩
      (.errorString "some-error") _ _ rfl rfl rfl).2.2 neverDone 2
      { history :=
          [textTurn .System "You are a Software Engineer",
           textTurn .Human "Please develop a simple calculator"] }
      { ToolCalls := [writeFileCall] } ⟨rfl, [], [], _, rfl, by simp, rfl, rfl⟩ rfl⟩

/-- C8: an `executeCommand` tool call whose arguments decode and for which the command
executor returns `(output, e)` with a non-nil error `e` is not an error of
`performToolCalls`: the request turn and then a result turn whose content is
`The command failed with the output:` followed by a newline and `output` unaltered are
appended, and processing continues with the tool calls after it (first part); on its own
the call returns nil (second part); and a cycle of `Run` that reaches a candidate carrying only
this call goes on to the next cycle (third part). -/
theorem C8_command_failure_is_reported (go : GoLib) (l : LLMWrapper) (id typ args : String)
    (a : ExecuteCommandArgs) (output : String) (e : GoError) (s : State)
    (hd : go.UnmarshalExecuteCommand args = .ok a)
    (hx : l.commandExecutor.Execute s.trace a.Command = (output, some e)) :
    (∀ calls : List ToolCall,
      performToolCalls go l (⟨id, typ, some ⟨"executeCommand", args⟩⟩ :: calls) s =
        performToolCalls go l calls
          { history := s.history ++
              [requestTurn id typ "executeCommand" args,
               { Role := .Tool,
                 Parts := [.ToolCallResponse
                   { ToolCallID := id, Name := "executeCommand",
                     Content := "The command failed with the output:\n" ++ output }] }],
            trace := s.trace ++ [.Execute a.Command] }) ∧
    performToolCalls go l [⟨id, typ, some ⟨"executeCommand", args⟩⟩] s =
      (.nil,
       { history := s.history ++
           [requestTurn id typ "executeCommand" args,
            { Role := .Tool,
              Parts := [.ToolCallResponse
                { ToolCallID := id, Name := "executeCommand",
                  Content := "The command failed with the output:\n" ++ output }] }],
         trace := s.trace ++ [.Execute a.Command] }) ∧
    ∀ (ctx : Context) (fuel : Nat) (st : State) (c : ContentChoice),
      CycleReaches go l ctx st c s →
      c.ToolCalls = [⟨id, typ, some ⟨"executeCommand", args⟩⟩] →
      runLoop go l ctx (fuel + 1) st =
        runLoop go l ctx fuel
          { history := s.history ++
              [requestTurn id typ "executeCommand" args,
               { Role := .Tool,
                 Parts := [.ToolCallResponse
                   { ToolCallID := id, Name := "executeCommand",
                     Content := "The command failed with the output:\n" ++ output }] }],
            trace := s.trace ++ [.Execute a.Command, .Sleep 5] } := by
  have step : ∀ calls : List ToolCall,
      performToolCalls go l (⟨id, typ, some ⟨"executeCommand", args⟩⟩ :: calls) s =
        performToolCalls go l calls
          { history := s.history ++
              [requestTurn id typ "executeCommand" args,
               { Role := .Tool,
                 Parts := [.ToolCallResponse
                   { ToolCallID := id, Name := "executeCommand",
                     Content := "The command failed with the output:\n" ++ output }] }],
            trace := s.trace ++ [.Execute a.Command] } := by
    intro calls
    rw [performToolCalls_execute go l id typ args calls s a hd, hx]
    simp [resultTurn]
  refine ⟨step, by rw [step, performToolCalls_nil], ?_⟩
  intro ctx fuel st c hc hcalls
  have hne : c.ToolCalls ≠ [] := by simp [hcalls]
  have hp : performToolCalls go l c.ToolCalls s = _ :=
    (congrArg (fun calls => performToolCalls go l calls s) hcalls).trans
      ((step []).trans (performToolCalls_nil go l _))
  rw [runLoop_toolsDone go l ctx fuel st s _ c hc hne hp]
  simp [emit]

/-- C8, on the test where the command fails with output `user unknown`. -/
theorem C8_command_failure_is_reported_witness :
    fakeGo.UnmarshalExecuteCommand whoamiArguments = .ok ⟨"whoami"⟩ ∧
    (fakeWrapper {} ("user unknown", some (.errorString "some-error")) none
        ("", none)).commandExecutor.Execute ({} : State).trace "whoami" =
      ("user unknown", some (.errorString "some-error")) ∧
    performToolCalls fakeGo
        (fakeWrapper {} ("user unknown", some (.errorString "some-error")) none ("", none))
        [⟨"abc123", "function", some ⟨"executeCommand", whoamiArguments⟩⟩] {} =
      (.nil,
       { history := ({} : State).history ++
           [requestTurn "abc123" "function" "executeCommand" whoamiArguments,
            { Role := .Tool,
              Parts := [.ToolCallResponse
                { ToolCallID := "abc123", Name := "executeCommand",
                  Content := "The command failed with the output:\n" ++ "user unknown" }] }],
         trace := ({} : State).trace ++ [.Execute "whoami"] }) :=
  ⟨rfl, rfl,
    (C8_command_failure_is_reported fakeGo
      (fakeWrapper {} ("user unknown", some (.errorString "some-error")) none ("", none))
      "abc123" "function" whoamiArguments ⟨"whoami"⟩ "user unknown"
      (.errorString "some-error") {} rfl rfl).2.1⟩

/-- C9: for an `executeCommand` tool call whose arguments decode to a command and for which
the command executor returns `(output, nil)`, the executor is called exactly once, with
exactly the decoded command, and the turns appended are the request turn and then a result
turn with the call id of the request, the name `executeCommand` and the content
`The command ran successfully with the output:` followed by a newline and `output`
unaltered. -/
theorem C9_command_success (go : GoLib) (l : LLMWrapper) (id typ args : String)
    (a : ExecuteCommandArgs) (output : String) (s : State)
    (hd : go.UnmarshalExecuteCommand args = .ok a)
    (hx : l.commandExecutor.Execute s.trace a.Command = (output, none)) :
    (∀ calls : List ToolCall,
      performToolCalls go l (⟨id, typ, some ⟨"executeCommand", args⟩⟩ :: calls) s =
        performToolCalls go l calls
          { history := s.history ++
              [requestTurn id typ "executeCommand" args,
               { Role := .Tool,
                 Parts := [.ToolCallResponse
                   { ToolCallID := id, Name := "executeCommand",
                     Content :=
                       "The command ran successfully with the output:\n" ++ output }] }],
            trace := s.trace ++ [.Execute a.Command] }) ∧
    performToolCalls go l [⟨id, typ, some ⟨"executeCommand", args⟩⟩] s =
      (.nil,
       { history := s.history ++
           [requestTurn id typ "executeCommand" args,
            { Role := .Tool,
              Parts := [.ToolCallResponse
                { ToolCallID := id, Name := "executeCommand",
                  Content := "The command ran successfully with the output:\n" ++ output }] }],
         trace := s.trace ++ [.Execute a.Command] }) := by
  have step : ∀ calls : List ToolCall,
      performToolCalls go l (⟨id, typ, some ⟨"executeCommand", args⟩⟩ :: calls) s =
        performToolCalls go l calls
          { history := s.history ++
              [requestTurn id typ "executeCommand" args,
               { Role := .Tool,
                 Parts := [.ToolCallResponse
                   { ToolCallID := id, Name := "executeCommand",
                     Content :=
                       "The command ran successfully with the output:\n" ++ output }] }],
            trace := s.trace ++ [.Execute a.Command] } := by
    intro calls
    rw [performToolCalls_execute go l id typ args calls s a hd, hx]
    simp [resultTurn]
  exact ⟨step, by rw [step, performToolCalls_nil]⟩

/-- C9, on the test where the command `whoami` succeeds with output `engineer`. -/
theorem C9_command_success_witness :
    fakeGo.UnmarshalExecuteCommand whoamiArguments = .ok ⟨"whoami"⟩ ∧
    (fakeWrapper {} ("engineer", none) none ("", none)).commandExecutor.Execute
        ({} : State).trace "whoami" = ("engineer", none) ∧
    performToolCalls fakeGo (fakeWrapper {} ("engineer", none) none ("", none))
        [⟨"abc123", "function", some ⟨"executeCommand", whoamiArguments⟩⟩] {} =
      (.nil,
       { history := ({} : State).history ++
           [requestTurn "abc123" "function" "executeCommand" whoamiArguments,
            { Role := .Tool,
              Parts := [.ToolCallResponse
                { ToolCallID := "abc123", Name := "executeCommand",
                  Content :=
                    "The command ran successfully with the output:\n" ++ "engineer" }] }],
         trace := ({} : State).trace ++ [.Execute "whoami"] }) :=
  ⟨rfl, rfl,
    (C9_command_success fakeGo (fakeWrapper {} ("engineer", none) none ("", none))
      "abc123" "function" whoamiArguments ⟨"whoami"⟩ "engineer" {} rfl rfl).2⟩

theorem history_after_pair {s2 : State} (h0 : List MessageContent) (x y : MessageContent)
    (t : List Event) (h : Extends { history := h0 ++ [x, y], trace := t } s2) :
    ∃ later, s2.history = h0 ++ x :: later := by
  obtain ⟨⟨later, hl⟩, _⟩ := h
  exact ⟨y :: later, by rw [hl]; simp⟩

/-- C10: for every tool call that `performToolCalls` reaches (the tool calls before it were
dispatched), whatever its tool name and whatever happens to it afterwards, the turn
recorded for it is an Assistant turn with a single tool-call part whose call id, type, tool
name and argument string are those supplied by the model, unchanged. -/
theorem C10_request_recorded_verbatim (go : GoLib) (l : LLMWrapper) (pre post : List ToolCall)
    (id typ name args : String) (s s1 : State)
    (hpre : performToolCalls go l pre s = (.nil, s1)) :
    ∃ later,
      (performToolCalls go l (pre ++ ⟨id, typ, some ⟨name, args⟩⟩ :: post) s).2.history =
        s1.history ++
          { Role := .AI,
            Parts := [.ToolCall
              { ID := id, Typ := typ,
                FunctionCall := some { Name := name, Arguments := args } }] } :: later := by
  rw [performToolCalls_append go l pre _ s s1 hpre]
  by_cases h1 : name = "executeCommand"
  · subst h1
    cases h : go.UnmarshalExecuteCommand args with
    | error e =>
      rw [performToolCalls_execute_decodeError go l _ _ _ _ _ e h]
      exact ⟨[], rfl⟩
    | ok a =>
      rw [performToolCalls_execute go l id typ args post s1 a h]
      exact history_after_pair s1.history _ _ _ (performToolCalls_extends go l post _)
  · by_cases h2 : name = "writeFile"
    · subst h2
      cases h : go.UnmarshalWriteFile args with
      | error e =>
        rw [performToolCalls_writeFile_decodeError go l _ _ _ _ _ e h]
        exact ⟨[], rfl⟩
      | ok a =>
        cases hw : l.fileWriter.WriteFile s1.trace a.Path a.Content with
        | some e =>
          rw [performToolCalls_writeFile_fails go l _ _ _ _ _ a e h hw]
          exact ⟨[], rfl⟩
        | none =>
          rw [performToolCalls_writeFile go l id typ args post s1 a h hw]
          exact history_after_pair s1.history _ _ _ (performToolCalls_extends go l post _)
    · rw [performToolCalls_unknown go l _ _ _ _ _ _ h1 h2]
      exact ⟨[], rfl⟩

/-- C10, on a tool call whose argument string has spaces around it and is not valid JSON:
the string is recorded as it is. -/
theorem C10_request_recorded_verbatim_witness :
    performToolCalls fakeGo (fakeWrapper {} ("", none) none ("", none)) [] {} = (.nil, {}) ∧
    ∃ later,
      (performToolCalls fakeGo (fakeWrapper {} ("", none) none ("", none))
        ([] ++ ⟨"id 1", "function", some ⟨"writeFile", "  \x7b \"not json\"  "⟩⟩ :: []) {}).2.history =
        ({} : State).history ++
          { Role := .AI,
            Parts := [.ToolCall
              { ID := "id 1", Typ := "function",
                FunctionCall :=
                  some { Name := "writeFile", Arguments := "  \x7b \"not json\"  " } }] } ::
            later :=
  ⟨rfl,
    C10_request_recorded_verbatim fakeGo (fakeWrapper {} ("", none) none ("", none)) [] []
      "id 1" "function" "writeFile" "  \x7b \"not json\"  " {} {} rfl⟩


/-! ## Escalation, gateway failure and cancellation -/

theorem processChoices_escalate_fails (go : GoLib) (l : LLMWrapper) (c : ContentChoice)
    (choices : List (Option ContentChoice)) (s : State) (reply : String) (e : GoError)
    (h : c.ToolCalls = []) (hsr : c.StopReason = "end_turn")
    (hp : l.prompter.Prompt (s.trace ++ logEvents c.Content) c.Content = (reply, some e)) :
    processChoices go l (some c :: choices) s =
      (.err e,
       { history := s.history ++ [textTurn .AI c.Content],
         trace := s.trace ++ logEvents c.Content ++ [.Prompt c.Content] }) := by
  have hp2 := promptUser_fails l c.Content reply e
    { history := s.history, trace := s.trace ++ logEvents c.Content } hp
  simp [processChoices, h, hsr, performToolCalls, logContent_eq, hp2]

theorem processResponse_append (go : GoLib) (l : LLMWrapper)
    (before rest : List (Option ContentChoice)) (x : Option ContentChoice) (s mid : State)
    (hno : ∀ y ∈ before, ∃ c1 : ContentChoice, y = some c1 ∧ c1.ToolCalls = [])
    (h : processChoices go l before s = (.nil, mid)) :
    processResponse go l (some ⟨before ++ x :: rest⟩) s =
      processChoices go l (x :: rest) mid := by
  have e1 : processResponse go l (some ⟨before ++ x :: rest⟩) s =
      processChoices go l (before ++ x :: rest) s := by
    cases before <;> simp [processResponse]
  rw [e1, processChoices_append go l before _ s mid hno h]

/-- C11: when the prompter returns the reply `r` without error, `promptUser` returns nil and
appends to the history exactly two turns, in order: an Assistant turn whose single part is
the text `q`, then a Human turn whose single part is the text `r` as returned; the prompter
is called exactly once, with `q`. -/
theorem C11_promptUser_records_exchange (l : LLMWrapper) (q r : String) (s : State)
    (hp : l.prompter.Prompt s.trace q = (r, none)) :
    promptUser l q s =
      (.nil,
       { history := s.history ++
           [{ Role := .AI, Parts := [.TextContent q] },
            { Role := .Human, Parts := [.TextContent r] }],
         trace := s.trace ++ [.Prompt q] }) :=
  promptUser_ok l q r s hp

/-- C11, on the question of the test and a reply with blanks around it: the reply is recorded
as it is. -/
theorem C11_promptUser_records_exchange_witness :
    (fakeWrapper {} ("", none) none ("  Please make it yellow.\n", none)).prompter.Prompt
        ({} : State).trace "What do you think?" = ("  Please make it yellow.\n", none) ∧
    promptUser (fakeWrapper {} ("", none) none ("  Please make it yellow.\n", none))
        "What do you think?" {} =
      (.nil,
       { history := ({} : State).history ++
           [{ Role := .AI, Parts := [.TextContent "What do you think?"] },
            { Role := .Human, Parts := [.TextContent "  Please make it yellow.\n"] }],
         trace := ({} : State).trace ++ [.Prompt "What do you think?"] }) :=
  ⟨rfl,
    C11_promptUser_records_exchange
      (fakeWrapper {} ("", none) none ("  Please make it yellow.\n", none))
      "What do you think?" "  Please make it yellow.\n" {} rfl⟩

/-- C12: when a candidate `c` without tool calls and with stop reason `end_turn` is reached
and the prompter returns the error `e`, `processResponse` returns `e` itself; the Assistant
turn with the question is the last turn appended (no Human turn), the call on the prompter
is the last call made, so that no candidate after `c` is processed (first part).  A cycle
of `Run` in which this happens returns `e` itself, and its last call is the call on the
prompter: no further generation request is made (second part). -/
theorem C12_prompter_error_is_fatal (go : GoLib) (l : LLMWrapper) (c : ContentChoice)
    (reply : String) (e : GoError) (htools : c.ToolCalls = [])
    (hsr : c.StopReason = "end_turn") :
    (∀ (before after : List (Option ContentChoice)) (s mid : State),
      (∀ x ∈ before, ∃ c1 : ContentChoice, x = some c1 ∧ c1.ToolCalls = []) →
      processChoices go l before s = (.nil, mid) →
      l.prompter.Prompt (mid.trace ++ logEvents c.Content) c.Content = (reply, some e) →
      processResponse go l (some ⟨before ++ some c :: after⟩) s =
        (.err e,
         { history := mid.history ++ [textTurn .AI c.Content],
           trace := mid.trace ++ logEvents c.Content ++ [.Prompt c.Content] })) ∧
    (∀ (ctx : Context) (fuel : Nat) (st s : State),
      CycleReaches go l ctx st c s →
      l.prompter.Prompt s.trace c.Content = (reply, some e) →
      runLoop go l ctx (fuel + 1) st =
        (some (.err e),
         { history := s.history ++ [textTurn .AI c.Content],
           trace := s.trace ++ [.Prompt c.Content] })) := by
  constructor
  · intro before after s mid hno hb hp
    rw [processResponse_append go l before after (some c) s mid hno hb]
    exact processChoices_escalate_fails go l c after mid reply e htools hsr hp
  · intro ctx fuel st s hc hp
    obtain ⟨hctx, before, after, mid, hm, hno, hb, rfl⟩ := hc
    rw [logContent_eq] at hp
    have h1 := (processResponse_append go l before after (some c) _ mid hno hb).trans
      (processChoices_escalate_fails go l c after mid reply e htools hsr hp)
    rw [runLoop_error go l ctx fuel st _ _ e hctx hm h1, logContent_eq]

/-- C12, on the test where the model asks for help and prompting errors: `Run` returns the
error `prompt error` and the last turn is the Assistant question. -/
theorem C12_prompter_error_is_fatal_witness :
    ({ Content := "What do you think?", StopReason := "end_turn" } : ContentChoice).ToolCalls
      = [] ∧
    ({ Content := "What do you think?", StopReason := "end_turn" } : ContentChoice).StopReason
      = "end_turn" ∧
    Run fakeGo
        (fakeWrapper ⟨[some { Content := "What do you think?", StopReason := "end_turn" }]⟩
          ("", none) none ("", some (.errorString "prompt error"))) neverDone 3 {} =
      (some (.err (.errorString "prompt error")),
       { history :=
           [textTurn .System "You are a Software Engineer",
            textTurn .Human "Please develop a simple calculator",
            textTurn .AI "What do you think?"],
         trace :=
           [.GenerateContent
             [textTurn .System "You are a Software Engineer",
              textTurn .Human "Please develop a simple calculator"]
             advertisedTools,
            .Info "AI says" "content" "What do you think?",
            .Prompt "What do you think?"] }) :=
  ⟨rfl, rfl,
    (C12_prompter_error_is_fatal fakeGo
      (fakeWrapper ⟨[some { Content := "What do you think?", StopReason := "end_turn" }]⟩
        ("", none) none ("", some (.errorString "prompt error")))
      { Content := "What do you think?", StopReason := "end_turn" } ""
      (.errorString "prompt error") rfl rfl).2 neverDone 2
      { history :=
          [textTurn .System "You are a Software Engineer",
           textTurn .Human "Please develop a simple calculator"] }
      _ ⟨rfl, [], [], _, rfl, by simp, rfl, rfl⟩ rfl⟩

/-- C13: when the model returns an error `e` in a cycle of `Run`, `Run` returns `e` itself;
the generation request is the last call made (no retry, no tool dispatch, no call on the
prompter) and the history is the one given to the failed request.  Stated for a cycle that
starts in any state, and for the first cycle of `Run`. -/
theorem C13_gateway_error_is_fatal (go : GoLib) (l : LLMWrapper) (ctx : Context) (fuel : Nat)
    (r : Option ContentResponse) (e : GoError) :
    (∀ st : State, ctx.Done st.trace = false →
      l.model.GenerateContent st.trace st.history advertisedTools = (r, some e) →
      runLoop go l ctx (fuel + 1) st =
        (some (.err e),
         { history := st.history,
           trace := st.trace ++ [.GenerateContent st.history advertisedTools] })) ∧
    (∀ s : State, ctx.Done s.trace = false →
      l.model.GenerateContent s.trace
          [{ Role := .System, Parts := [.TextContent l.persona] },
           { Role := .Human, Parts := [.TextContent l.prompt] }] advertisedTools =
        (r, some e) →
      Run go l ctx (fuel + 1) s =
        (some (.err e),
         { history :=
             [{ Role := .System, Parts := [.TextContent l.persona] },
              { Role := .Human, Parts := [.TextContent l.prompt] }],
           trace := s.trace ++
             [.GenerateContent
               [{ Role := .System, Parts := [.TextContent l.persona] },
                { Role := .Human, Parts := [.TextContent l.prompt] }] advertisedTools] })) := by
  have key : ∀ st : State, ctx.Done st.trace = false →
      l.model.GenerateContent st.trace st.history advertisedTools = (r, some e) →
      runLoop go l ctx (fuel + 1) st =
        (some (.err e),
         { history := st.history,
           trace := st.trace ++ [.GenerateContent st.history advertisedTools] }) := by
    intro st hctx hm
    simp [runLoop, hctx, hm, emit]
  refine ⟨key, ?_⟩
  intro s hctx hm
  exact key
    { s with history :=
        [{ Role := .System, Parts := [TextPart l.persona] },
         { Role := .Human, Parts := [TextPart l.prompt] }] } hctx hm

/-- C13, on the test with an error talking to the model: `Run` returns the error
`some error` after one generation request. -/
theorem C13_gateway_error_is_fatal_witness :
    neverDone.Done ({} : State).trace = false ∧
    Run fakeGo
        (NewLLMWrapper "You are a Software Engineer" "Please develop a simple calculator"
          ⟨fun _ _ _ => (none, some (.errorString "some error"))⟩
          ⟨fun _ _ => ("", none)⟩ ⟨fun _ _ _ => none⟩ ⟨fun _ _ => ("", none)⟩)
        neverDone (2 + 1) {} =
      (some (.err (.errorString "some error")),
       { history :=
           [{ Role := .System, Parts := [.TextContent "You are a Software Engineer"] },
            { Role := .Human, Parts := [.TextContent "Please develop a simple calculator"] }],
         trace := ({} : State).trace ++
           [.GenerateContent
             [{ Role := .System, Parts := [.TextContent "You are a Software Engineer"] },
              { Role := .Human, Parts := [.TextContent "Please develop a simple calculator"] }]
             advertisedTools] }) :=
  ⟨rfl,
    (C13_gateway_error_is_fatal fakeGo
      (NewLLMWrapper "You are a Software Engineer" "Please develop a simple calculator"
        ⟨fun _ _ _ => (none, some (.errorString "some error"))⟩
        ⟨fun _ _ => ("", none)⟩ ⟨fun _ _ _ => none⟩ ⟨fun _ _ => ("", none)⟩)
      neverDone 2 none (.errorString "some error")).2 {} rfl rfl⟩

/-- C14: when the context is cancelled at the start of a cycle, `Run` returns nil and the
cycle makes no call at all: the state is unchanged (first part).  In particular `Run`
started with a cancelled context returns nil, with the seeded history and without any
call (second part). -/
theorem C14_cancellation_is_clean (go : GoLib) (l : LLMWrapper) (ctx : Context) (fuel : Nat) :
    (∀ st : State, ctx.Done st.trace = true →
      runLoop go l ctx (fuel + 1) st = (some .nil, st)) ∧
    (∀ s : State, ctx.Done s.trace = true →
      Run go l ctx (fuel + 1) s =
        (some .nil,
         { history :=
             [{ Role := .System, Parts := [.TextContent l.persona] },
              { Role := .Human, Parts := [.TextContent l.prompt] }],
           trace := s.trace })) := by
  constructor
  · intro st h
    simp [runLoop, h]
  · intro s h
    simp [Run, runLoop, h, TextPart]

/-- C14, on a context that is already cancelled: `Run` returns nil without any call. -/
theorem C14_cancellation_is_clean_witness :
    (⟨fun _ => true⟩ : Context).Done ({} : State).trace = true ∧
    Run fakeGo (fakeWrapper accelerateResponse ("", none) none ("", none)) ⟨fun _ => true⟩
        (0 + 1) {} =
      (some .nil,
       { history :=
           [{ Role := .System, Parts := [.TextContent "You are a Software Engineer"] },
            { Role := .Human, Parts := [.TextContent "Please develop a simple calculator"] }],
         trace := ({} : State).trace }) :=
  ⟨rfl,
    (C14_cancellation_is_clean fakeGo
      (fakeWrapper accelerateResponse ("", none) none ("", none)) ⟨fun _ => true⟩ 0).2 {} rfl⟩

/-! ## Candidates without tool calls -/

theorem processChoices_quiet (go : GoLib) (l : LLMWrapper) (choices : List ContentChoice)
    (s : State) (h : ∀ c ∈ choices, c.ToolCalls = [] ∧ c.StopReason ≠ "end_turn") :
    processChoices go l (choices.map some) s =
      (.nil,
       { history := s.history,
         trace := s.trace ++ choices.flatMap (fun c => logEvents c.Content) }) := by
  induction choices generalizing s with
  | nil => simp [processChoices]
  | cons c choices ih =>
    have hc := h c (List.mem_cons_self _ _)
    rw [List.map_cons, processChoices_skip go l c _ s hc.1 hc.2,
      ih _ (fun c1 h1 => h c1 (List.mem_cons_of_mem _ h1)), logContent_eq]
    simp

theorem processResponse_map (go : GoLib) (l : LLMWrapper) (choices : List ContentChoice)
    (s : State) :
    processResponse go l (some ⟨choices.map some⟩) s =
      processChoices go l (choices.map some) s := by
  cases choices <;> simp [processResponse, processChoices]

/-- C16: for a response in which every candidate has no tool calls and a stop reason other
than `end_turn` (a response without candidates and a candidate with empty text included),
`processResponse` returns nil, leaves the history unchanged and makes no call on the
command executor, the file writer or the prompter: the trace gains only one log record for
each candidate whose text is not empty. -/
theorem C16_quiet_response_is_a_no_op (go : GoLib) (l : LLMWrapper)
    (choices : List ContentChoice) (s : State)
    (h : ∀ c ∈ choices, c.ToolCalls = [] ∧ c.StopReason ≠ "end_turn") :
    processResponse go l (some ⟨choices.map some⟩) s =
      (.nil,
       { history := s.history,
         trace := s.trace ++
           choices.flatMap (fun c =>
             if c.Content.utf8ByteSize > 0 then [.Info "AI says" "content" c.Content]
             else []) }) := by
  rw [processResponse_map]
  exact processChoices_quiet go l choices s h

/-- C16, on a response with an empty candidate and the candidate of the test where the model
describes what it is doing. -/
theorem C16_quiet_response_is_a_no_op_witness :
    (∀ c ∈ [({} : ContentChoice), { Content := "Checking wheel alignment" }],
      c.ToolCalls = [] ∧ c.StopReason ≠ "end_turn") ∧
    processResponse fakeGo (fakeWrapper {} ("", none) none ("", none))
        (some ⟨[({} : ContentChoice), { Content := "Checking wheel alignment" }].map some⟩)
        { history := [textTurn .Human "hello"] } =
      (.nil,
       { history := [textTurn .Human "hello"],
         trace := [.Info "AI says" "content" "Checking wheel alignment"] }) :=
  ⟨by decide,
    (C16_quiet_response_is_a_no_op fakeGo (fakeWrapper {} ("", none) none ("", none))
      [({} : ContentChoice), { Content := "Checking wheel alignment" }]
      { history := [textTurn .Human "hello"] } (by decide)).trans rfl⟩

/-- C17: for a response whose candidates all have no tool calls and a prompter that never
fails, `processResponse` returns nil and the calls it makes are, candidate by candidate in
the order of the response: the log record of the candidate when its text is not empty, then
one call on the prompter with the text of the candidate (empty or not) when its stop
reason is exactly `end_turn`, and no call on the prompter otherwise.  In particular the
calls on the prompter are exactly the texts of the `end_turn` candidates, in order. -/
theorem C17_one_escalation_per_end_turn (go : GoLib) (l : LLMWrapper)
    (choices : List ContentChoice) (s : State)
    (hno : ∀ c ∈ choices, c.ToolCalls = [])
    (hp : ∀ (tr : List Event) (q : String), (l.prompter.Prompt tr q).2 = none) :
    (processResponse go l (some ⟨choices.map some⟩) s).1 = .nil ∧
    (processResponse go l (some ⟨choices.map some⟩) s).2.trace =
      s.trace ++
        choices.flatMap (fun c =>
          logEvents c.Content ++
            if c.StopReason = "end_turn" then [.Prompt c.Content] else []) ∧
    ((processResponse go l (some ⟨choices.map some⟩) s).2.trace.drop s.trace.length).filter
        Event.isPrompt =
      (choices.filter (fun c => c.StopReason = "end_turn")).map (fun c => .Prompt c.Content) := by
  have key : (processChoices go l (choices.map some) s).1 = .nil ∧
      (processChoices go l (choices.map some) s).2.trace =
        s.trace ++
          choices.flatMap (fun c =>
            logEvents c.Content ++
              if c.StopReason = "end_turn" then [.Prompt c.Content] else []) := by
    induction choices generalizing s with
    | nil => simp [processChoices]
    | cons c choices ih =>
      have hc := hno c (List.mem_cons_self _ _)
      have hno2 : ∀ c1 ∈ choices, c1.ToolCalls = [] :=
        fun c1 h1 => hno c1 (List.mem_cons_of_mem _ h1)
      by_cases hsr : c.StopReason = "end_turn"
      · have hq : l.prompter.Prompt (s.trace ++ logEvents c.Content) c.Content =
            ((l.prompter.Prompt (s.trace ++ logEvents c.Content) c.Content).1, none) :=
          Prod.ext rfl (hp _ _)
        rw [List.map_cons, processChoices_escalate go l c _ s _ hc hsr hq]
        obtain ⟨h1, h2⟩ := ih _ hno2
        refine ⟨h1, ?_⟩
        rw [h2]
        simp [hsr]
      · rw [List.map_cons, processChoices_skip go l c _ s hc hsr, logContent_eq]
        obtain ⟨h1, h2⟩ := ih _ hno2
        refine ⟨h1, ?_⟩
        rw [h2]
        simp [hsr]
  rw [processResponse_map]
  refine ⟨key.1, key.2, ?_⟩
  rw [key.2, List.drop_left]
  clear key
  induction choices with
  | nil => simp
  | cons c choices ih =>
    have hno2 : ∀ c1 ∈ choices, c1.ToolCalls = [] :=
      fun c1 h1 => hno c1 (List.mem_cons_of_mem _ h1)
    have hlog : (logEvents c.Content).filter Event.isPrompt = [] := by
      unfold logEvents
      split <;> simp [Event.isPrompt]
    by_cases hsr : c.StopReason = "end_turn"
    · simp [List.filter_cons, hsr, hlog, Event.isPrompt, ih hno2]
    · simp [List.filter_cons, hsr, hlog, ih hno2]

/-- C17, on a response with three candidates without tool calls: an `end_turn` candidate with
empty text, a candidate with another stop reason, and the `end_turn` candidate of the test
where the model asks for help. -/
theorem C17_one_escalation_per_end_turn_witness :
    (∀ c ∈ [({ StopReason := "end_turn" } : ContentChoice),
        { Content := "Sure", StopReason := "stop" },
        { Content := "What do you think?", StopReason := "end_turn" }], c.ToolCalls = []) ∧
    (∀ (tr : List Event) (q : String),
      ((fakeWrapper {} ("", none) none ("Please make it yellow.", none)).prompter.Prompt
        tr q).2 = none) ∧
    (processResponse fakeGo (fakeWrapper {} ("", none) none ("Please make it yellow.", none))
        (some ⟨[({ StopReason := "end_turn" } : ContentChoice),
          { Content := "Sure", StopReason := "stop" },
          { Content := "What do you think?", StopReason := "end_turn" }].map some⟩)
        {}).2.trace =
      [.Prompt "", .Info "AI says" "content" "Sure",
       .Info "AI says" "content" "What do you think?", .Prompt "What do you think?"] :=
  ⟨by decide, fun _ _ => rfl,
    ((C17_one_escalation_per_end_turn fakeGo
      (fakeWrapper {} ("", none) none ("Please make it yellow.", none))
      [({ StopReason := "end_turn" } : ContentChoice),
        { Content := "Sure", StopReason := "stop" },
        { Content := "What do you think?", StopReason := "end_turn" }] {}
      (by decide) (fun _ _ => rfl)).2.1).trans rfl⟩

/-- C20: the history is append-only: after `processResponse`, `performToolCalls` and
`promptUser`, and after any number of cycles of `Run`'s loop, whatever the outcome (nil, an
error or a fault), the resulting history is the history before followed by the turns
appended; no turn of the history before is modified, reordered or removed.  The same holds
of the trace of calls. -/
theorem C20_history_is_append_only (go : GoLib) (l : LLMWrapper) (s : State) :
    (∀ r : Option ContentResponse,
      ∃ t, (processResponse go l r s).2.history = s.history ++ t) ∧
    (∀ calls : List ToolCall,
      ∃ t, (performToolCalls go l calls s).2.history = s.history ++ t) ∧
    (∀ q : String, ∃ t, (promptUser l q s).2.history = s.history ++ t) ∧
    (∀ (ctx : Context) (fuel : Nat),
      ∃ t, (runLoop go l ctx fuel s).2.history = s.history ++ t) ∧
    (∀ r : Option ContentResponse,
      ∃ t, (processResponse go l r s).2.trace = s.trace ++ t) :=
  ⟨fun r => (processResponse_extends go l r s).1,
   fun calls => (performToolCalls_extends go l calls s).1,
   fun q => (promptUser_extends l q s).1,
   fun ctx fuel => (runLoop_extends go l ctx fuel s).1,
   fun r => (processResponse_extends go l r s).2⟩

/-! ## Cycles without tool calls and without `end_turn` -/

theorem runLoop_quiet_cycle (go : GoLib) (l : LLMWrapper) (ctx : Context) (fuel : Nat)
    (st : State) (choices : List ContentChoice) (hctx : ctx.Done st.trace = false)
    (hm : l.model.GenerateContent st.trace st.history advertisedTools =
      (some ⟨choices.map some⟩, none))
    (hq : ∀ c ∈ choices, c.ToolCalls = [] ∧ c.StopReason ≠ "end_turn") :
    runLoop go l ctx (fuel + 1) st =
      runLoop go l ctx fuel
        { history := st.history,
          trace := st.trace ++ [.GenerateContent st.history advertisedTools] ++
            choices.flatMap (fun c => logEvents c.Content) ++ [.Sleep 5] } := by
  have hp : processResponse go l (some ⟨choices.map some⟩)
      (emit (.GenerateContent st.history advertisedTools) st) = _ :=
    (processResponse_map go l choices _).trans (processChoices_quiet go l choices _ hq)
  rw [runLoop_continue go l ctx fuel st _ _ hctx hm hp]
  simp [emit]

theorem filter_isGenerateContent_logEvents (choices : List ContentChoice) :
    (choices.flatMap (fun c => logEvents c.Content)).filter Event.isGenerateContent = [] := by
  induction choices with
  | nil => simp
  | cons c choices ih =>
    have hlog : (logEvents c.Content).filter Event.isGenerateContent = [] := by
      unfold logEvents
      split <;> simp [Event.isGenerateContent]
    simp [hlog, ih]

theorem filter_isPrompt_logEvents (choices : List ContentChoice) :
    (choices.flatMap (fun c => logEvents c.Content)).filter Event.isPrompt = [] := by
  induction choices with
  | nil => simp
  | cons c choices ih =>
    have hlog : (logEvents c.Content).filter Event.isPrompt = [] := by
      unfold logEvents
      split <;> simp [Event.isPrompt]
    simp [hlog, ih]

theorem runLoop_quiet (go : GoLib) (l : LLMWrapper) (ctx : Context) (n : Nat) (st : State)
    (hctx : ∀ tr, ctx.Done tr = false)
    (hquiet : ∀ (tr : List Event) (h : List MessageContent),
      ∃ choices : List ContentChoice,
        l.model.GenerateContent tr h advertisedTools = (some ⟨choices.map some⟩, none) ∧
        ∀ c ∈ choices, c.ToolCalls = [] ∧ c.StopReason ≠ "end_turn") :
    (runLoop go l ctx n st).1 = none ∧
    (runLoop go l ctx n st).2.history = st.history ∧
    ((runLoop go l ctx n st).2.trace.filter Event.isGenerateContent).length =
      (st.trace.filter Event.isGenerateContent).length + n ∧
    (runLoop go l ctx n st).2.trace.filter Event.isPrompt =
      st.trace.filter Event.isPrompt := by
  induction n generalizing st with
  | zero => simp [runLoop]
  | succ n ih =>
    obtain ⟨choices, hm, hq⟩ := hquiet st.trace st.history
    rw [runLoop_quiet_cycle go l ctx n st choices (hctx _) hm hq]
    obtain ⟨h1, h2, h3, h4⟩ := ih
      { history := st.history,
        trace := st.trace ++ [.GenerateContent st.history advertisedTools] ++
          choices.flatMap (fun c => logEvents c.Content) ++ [.Sleep 5] }
    refine ⟨h1, h2, ?_, ?_⟩
    · rw [h3]
      simp [List.filter_append, filter_isGenerateContent_logEvents, Event.isGenerateContent]
      omega
    · rw [h4]
      simp [List.filter_append, filter_isPrompt_logEvents, Event.isPrompt]

/-- C15, as stated, fails.  With a model that always answers one candidate with the text
`Checking wheel alignment`, no tool call and no stop reason, `Run` is still running after
three cycles and the history still holds the two seed turns only, not the two seed turns
plus three turns. -/
theorem C15_history_growth_counterexample :
    Run fakeGo chattyWrapper neverDone 3 {} =
      (none,
       { history :=
           [textTurn .System "You are a Software Engineer",
            textTurn .Human "Please develop a simple calculator"],
         trace :=
           [.GenerateContent
              [textTurn .System "You are a Software Engineer",
               textTurn .Human "Please develop a simple calculator"] advertisedTools,
            .Info "AI says" "content" "Checking wheel alignment", .Sleep 5,
            .GenerateContent
              [textTurn .System "You are a Software Engineer",
               textTurn .Human "Please develop a simple calculator"] advertisedTools,
            .Info "AI says" "content" "Checking wheel alignment", .Sleep 5,
            .GenerateContent
              [textTurn .System "You are a Software Engineer",
               textTurn .Human "Please develop a simple calculator"] advertisedTools,
            .Info "AI says" "content" "Checking wheel alignment", .Sleep 5] }) ∧
    (Run fakeGo chattyWrapper neverDone 3 {}).2.history.length ≠ 2 + 3 :=
  ⟨rfl, by decide⟩

/-- C15, amended: in a cycle of `Run` in which the response of the model has no tool calls
and no `end_turn` stop reason, the history does not grow: the cycle only makes the
generation request, logs the non-empty texts and sleeps (first part).  So when the context
is never cancelled and every response of the model is of that kind, after `n` cycles `Run`
is still running, `n` generation requests were made, the prompter was never called and the
history holds exactly the two seed turns (second part). -/
theorem C15_quiet_cycles_leave_history (go : GoLib) (l : LLMWrapper) (ctx : Context) :
    (∀ (fuel : Nat) (st : State) (choices : List ContentChoice),
      ctx.Done st.trace = false →
      l.model.GenerateContent st.trace st.history advertisedTools =
        (some ⟨choices.map some⟩, none) →
      (∀ c ∈ choices, c.ToolCalls = [] ∧ c.StopReason ≠ "end_turn") →
      runLoop go l ctx (fuel + 1) st =
        runLoop go l ctx fuel
          { history := st.history,
            trace := st.trace ++ [.GenerateContent st.history advertisedTools] ++
              choices.flatMap (fun c => logEvents c.Content) ++ [.Sleep 5] }) ∧
    ((∀ tr, ctx.Done tr = false) →
      (∀ (tr : List Event) (h : List MessageContent),
        ∃ choices : List ContentChoice,
          l.model.GenerateContent tr h advertisedTools = (some ⟨choices.map some⟩, none) ∧
          ∀ c ∈ choices, c.ToolCalls = [] ∧ c.StopReason ≠ "end_turn") →
      ∀ (n : Nat) (s : State),
        (Run go l ctx n s).1 = none ∧
        (Run go l ctx n s).2.history =
          [{ Role := .System, Parts := [.TextContent l.persona] },
           { Role := .Human, Parts := [.TextContent l.prompt] }] ∧
        ((Run go l ctx n s).2.trace.filter Event.isGenerateContent).length =
          (s.trace.filter Event.isGenerateContent).length + n ∧
        (Run go l ctx n s).2.trace.filter Event.isPrompt =
          s.trace.filter Event.isPrompt) := by
  constructor
  · intro fuel st choices hctx hm hq
    exact runLoop_quiet_cycle go l ctx fuel st choices hctx hm hq
  · intro hctx hquiet n s
    exact runLoop_quiet go l ctx n
      { s with history :=
          [{ Role := .System, Parts := [TextPart l.persona] },
           { Role := .Human, Parts := [TextPart l.prompt] }] } hctx hquiet

/-- C15, amended, on the model that always describes what it is doing: after five cycles the
history holds the two seed turns and five generation requests were made. -/
theorem C15_quiet_cycles_leave_history_witness :
    (∀ tr, neverDone.Done tr = false) ∧
    (∀ (tr : List Event) (h : List MessageContent),
      ∃ choices : List ContentChoice,
        chattyWrapper.model.GenerateContent tr h advertisedTools =
          (some ⟨choices.map some⟩, none) ∧
        ∀ c ∈ choices, c.ToolCalls = [] ∧ c.StopReason ≠ "end_turn") ∧
    (Run fakeGo chattyWrapper neverDone 5 {}).1 = none ∧
    (Run fakeGo chattyWrapper neverDone 5 {}).2.history =
      [{ Role := .System, Parts := [.TextContent chattyWrapper.persona] },
       { Role := .Human, Parts := [.TextContent chattyWrapper.prompt] }] ∧
    ((Run fakeGo chattyWrapper neverDone 5 {}).2.trace.filter Event.isGenerateContent).length =
      (({} : State).trace.filter Event.isGenerateContent).length + 5 ∧
    (Run fakeGo chattyWrapper neverDone 5 {}).2.trace.filter Event.isPrompt =
      ({} : State).trace.filter Event.isPrompt :=
  ⟨fun _ => rfl,
   fun _ _ => ⟨[{ Content := "Checking wheel alignment" }], rfl, by decide⟩,
   (C15_quiet_cycles_leave_history fakeGo chattyWrapper neverDone).2 (fun _ => rfl)
     (fun _ _ => ⟨[{ Content := "Checking wheel alignment" }], rfl, by decide⟩) 5 {}⟩

/-! ## The shape of the turns appended to the history -/

theorem Complete.append {a b : List MessageContent} (ha : Complete a) (hb : Complete b) :
    Complete (a ++ b) := by
  induction ha with
  | nil => simpa using hb
  | text role text rest hrole _ ih => exact Complete.text role text _ hrole ih
  | pair id typ name args content rest _ ih => exact Complete.pair id typ name args content _ ih

theorem Appended.of_complete {t : List MessageContent} (h : Complete t) : Appended t :=
  Or.inl h

theorem Appended.append_left {a t : List MessageContent} (ha : Complete a) (ht : Appended t) :
    Appended (a ++ t) := by
  rcases ht with ht | ⟨b, id, typ, name, args, hb, rfl⟩
  · exact Or.inl (ha.append ht)
  · exact Or.inr ⟨a ++ b, id, typ, name, args, ha.append hb, by simp⟩

theorem Grows.of_history_eq (done : Prop) {s1 s2 : State} (h : s2.history = s1.history) :
    Grows done s1 s2 :=
  ⟨[], by simp [h], Or.inl Complete.nil, fun _ => Complete.nil⟩

theorem Grows_trans {done : Prop} {s1 s2 s3 : State} (h12 : Grows True s1 s2)
    (h23 : Grows done s2 s3) : Grows done s1 s3 := by
  obtain ⟨a, ha, _, hca⟩ := h12
  obtain ⟨t, ht, hat, hct⟩ := h23
  exact ⟨a ++ t, by rw [ht, ha, List.append_assoc], Appended.append_left (hca trivial) hat,
    fun hd => (hca trivial).append (hct hd)⟩

theorem Grows.weaken {d1 d2 : Prop} {s1 s2 : State} (h : Grows d1 s1 s2) (hd : d2 → d1) :
    Grows d2 s1 s2 := by
  obtain ⟨t, ht, hat, hct⟩ := h
  exact ⟨t, ht, hat, fun h2 => hct (hd h2)⟩

theorem Grows.complete (done : Prop) (s : State) (t : List MessageContent) (tr : List Event)
    (h : Complete t) : Grows done s { history := s.history ++ t, trace := tr } :=
  ⟨t, rfl, Or.inl h, fun _ => h⟩

theorem Grows.dangling (s : State) (id typ name args : String) (tr : List Event) (e : GoError) :
    Grows (Result.err e = Result.nil) s
      { history := s.history ++ [requestTurn id typ name args], trace := tr } :=
  ⟨_, rfl, Or.inr ⟨[], id, typ, name, args, Complete.nil, rfl⟩, fun h => by simp at h⟩

theorem performToolCalls_single_grows (go : GoLib) (l : LLMWrapper) (tc : ToolCall)
    (s : State) :
    Grows ((performToolCalls go l [tc] s).1 = .nil) s (performToolCalls go l [tc] s).2 := by
  rcases tc with ⟨id, typ, _ | ⟨name, args⟩⟩
  · rw [performToolCalls_nilFunctionCall]; exact Grows.of_history_eq _ rfl
  · by_cases h1 : name = "executeCommand"
    · subst h1
      cases h : go.UnmarshalExecuteCommand args with
      | error e =>
        rw [performToolCalls_execute_decodeError go l _ _ _ _ _ e h]
        exact Grows.dangling _ _ _ _ _ _ _
      | ok a =>
        rw [performToolCalls_execute go l id typ args [] s a h, performToolCalls_nil]
        exact Grows.complete _ _ _ _ (Complete.pair _ _ _ _ _ _ Complete.nil)
    · by_cases h2 : name = "writeFile"
      · subst h2
        cases h : go.UnmarshalWriteFile args with
        | error e =>
          rw [performToolCalls_writeFile_decodeError go l _ _ _ _ _ e h]
          exact Grows.dangling _ _ _ _ _ _ _
        | ok a =>
          cases hw : l.fileWriter.WriteFile s.trace a.Path a.Content with
          | some e =>
            rw [performToolCalls_writeFile_fails go l _ _ _ _ _ a e h hw]
            exact Grows.dangling _ _ _ _ _ _ _
          | none =>
            rw [performToolCalls_writeFile go l id typ args [] s a h hw, performToolCalls_nil]
            exact Grows.complete _ _ _ _ (Complete.pair _ _ _ _ _ _ Complete.nil)
      · rw [performToolCalls_unknown go l _ _ _ _ _ _ h1 h2]
        exact Grows.dangling _ _ _ _ _ _ _

theorem performToolCalls_grows (go : GoLib) (l : LLMWrapper) (calls : List ToolCall)
    (s : State) :
    Grows ((performToolCalls go l calls s).1 = .nil) s (performToolCalls go l calls s).2 := by
  induction calls generalizing s with
  | nil => rw [performToolCalls_nil]; exact Grows.of_history_eq _ rfl
  | cons tc calls ih =>
    rw [performToolCalls_cons]
    have h1 := performToolCalls_single_grows go l tc s
    rcases hr : performToolCalls go l [tc] s with ⟨r, s2⟩
    rw [hr] at h1
    cases r with
    | nil => exact Grows_trans (h1.weaken fun _ => rfl) (ih s2)
    | err e => exact h1
    | fault => exact h1

theorem promptUser_grows (l : LLMWrapper) (q : String) (s : State) :
    Grows True s (promptUser l q s).2 := by
  rcases hp : l.prompter.Prompt s.trace q with ⟨reply, _ | e⟩
  · rw [promptUser_ok l q reply s hp]
    exact Grows.complete _ _ _ _
      (Complete.text _ _ _ (Or.inl rfl) (Complete.text _ _ _ (Or.inr rfl) Complete.nil))
  · rw [promptUser_fails l q reply e s hp]
    exact Grows.complete _ _ _ _ (Complete.text _ _ _ (Or.inl rfl) Complete.nil)

theorem processChoices_grows (go : GoLib) (l : LLMWrapper)
    (choices : List (Option ContentChoice)) (s : State) :
    Grows ((processChoices go l choices s).1 = .nil) s (processChoices go l choices s).2 := by
  induction choices generalizing s with
  | nil => simp only [processChoices]; exact Grows.of_history_eq _ rfl
  | cons x choices ih =>
    cases x with
    | none => simp only [processChoices]; exact Grows.of_history_eq _ rfl
    | some c =>
      have h0 : Grows True s (logContent c.Content s) :=
        Grows.of_history_eq _ (by rw [logContent_eq])
      have h1 := performToolCalls_grows go l c.ToolCalls (logContent c.Content s)
      unfold processChoices
      rcases hr : performToolCalls go l c.ToolCalls (logContent c.Content s) with ⟨r, s2⟩
      rw [hr] at h1
      cases r with
      | nil =>
        have h2 : Grows True s s2 := Grows_trans h0 (h1.weaken fun _ => rfl)
        simp only
        split
        · exact h2.weaken fun _ => trivial
        · split
          · have h3 := promptUser_grows l c.Content s2
            rcases hq : promptUser l c.Content s2 with ⟨r2, s3⟩
            rw [hq] at h3
            cases r2 with
            | nil => exact Grows_trans (Grows_trans h2 h3) (ih s3)
            | err e => exact (Grows_trans h2 h3).weaken fun _ => trivial
            | fault => exact (Grows_trans h2 h3).weaken fun _ => trivial
          · exact Grows_trans h2 (ih s2)
      | err e => exact Grows_trans h0 h1
      | fault => exact Grows_trans h0 h1

theorem processResponse_grows (go : GoLib) (l : LLMWrapper) (r : Option ContentResponse)
    (s : State) :
    Grows ((processResponse go l r s).1 = .nil) s (processResponse go l r s).2 := by
  unfold processResponse
  cases r with
  | none => exact Grows.of_history_eq _ rfl
  | some r =>
    simp only
    split
    · exact Grows.of_history_eq _ rfl
    · exact processChoices_grows go l _ _

theorem runLoop_grows (go : GoLib) (l : LLMWrapper) (ctx : Context) (fuel : Nat) (s : State) :
    Grows ((runLoop go l ctx fuel s).1 = none ∨ (runLoop go l ctx fuel s).1 = some .nil) s
      (runLoop go l ctx fuel s).2 := by
  induction fuel generalizing s with
  | zero => simp only [runLoop]; exact Grows.of_history_eq _ rfl
  | succ n ih =>
    unfold runLoop
    split
    · exact Grows.of_history_eq _ rfl
    · simp only
      split
      · exact Grows.of_history_eq _ rfl
      · have h0 : Grows True s (emit (.GenerateContent s.history advertisedTools) s) :=
          Grows.of_history_eq _ rfl
        have h1 := processResponse_grows go l
            (l.model.GenerateContent s.trace s.history advertisedTools).1
            (emit (.GenerateContent s.history advertisedTools) s)
        rcases hr : processResponse go l
            (l.model.GenerateContent s.trace s.history advertisedTools).1
            (emit (.GenerateContent s.history advertisedTools) s) with ⟨r, s2⟩
        rw [hr] at h1
        cases r with
        | nil =>
          have h2 : Grows True s2 (emit (.Sleep 5) s2) := Grows.of_history_eq _ rfl
          exact Grows_trans (Grows_trans (Grows_trans h0 (h1.weaken fun _ => rfl)) h2) (ih _)
        | err e => exact (Grows_trans h0 h1).weaken fun h => by simp at h
        | fault => exact (Grows_trans h0 h1).weaken fun h => by simp at h

/-! ## The two invariants of the history -/

theorem isToolRequest_textTurn (role : ChatMessageType) (text : String) :
    isToolRequest (textTurn role text) = false := by
  simp [isToolRequest, textTurn]

theorem isToolRequest_resultTurn (id name content : String) :
    isToolRequest (resultTurn id name content) = false := by
  simp [isToolRequest, resultTurn]

theorem isToolResult_textTurn (role : ChatMessageType) (text : String)
    (h : role = .AI ∨ role = .Human) : isToolResult (textTurn role text) = false := by
  rcases h with h | h <;> simp [isToolResult, textTurn, h]

theorem isToolResult_requestTurn (id typ name args : String) :
    isToolResult (requestTurn id typ name args) = false := by
  simp [isToolResult, requestTurn]

theorem answers_requestTurn_resultTurn (id typ name args content : String) :
    answers (requestTurn id typ name args) (resultTurn id name content) = true := by
  simp [answers, requestTurn, resultTurn]

theorem RequestsAnswered_complete {t : List MessageContent} (h : Complete t) :
    RequestsAnswered t = true := by
  induction h with
  | nil => rfl
  | text role text rest _ _ ih => simp [RequestsAnswered, isToolRequest_textTurn, ih]
  | pair id typ name args content rest _ ih =>
    simp [RequestsAnswered, answers_requestTurn_resultTurn, isToolRequest_resultTurn, ih]

theorem RequestsAnswered_append {h t : List MessageContent} (hh : RequestsAnswered h = true)
    (ht : RequestsAnswered t = true) : RequestsAnswered (h ++ t) = true := by
  induction h with
  | nil => simpa using ht
  | cons m rest ih =>
    simp only [RequestsAnswered, Bool.and_eq_true] at hh
    simp only [List.cons_append, RequestsAnswered, Bool.and_eq_true]
    refine ⟨?_, ih hh.2⟩
    cases rest with
    | nil =>
      have hm : (!isToolRequest m) = true := by simpa using hh.1
      simp [hm]
    | cons r rest => simpa using hh.1

theorem ResultsPrecededFrom_mono (p : Option MessageContent) {t : List MessageContent}
    (h : ResultsPrecededFrom none t = true) : ResultsPrecededFrom p t = true := by
  cases t with
  | nil => rfl
  | cons m rest =>
    simp only [ResultsPrecededFrom, Bool.and_eq_true, Bool.or_false] at h
    simp only [ResultsPrecededFrom, Bool.and_eq_true]
    exact ⟨by simp [h.1], h.2⟩

theorem ResultsPrecededFrom_append (p : Option MessageContent) {h t : List MessageContent}
    (hh : ResultsPrecededFrom p h = true) (ht : ResultsPrecededFrom none t = true) :
    ResultsPrecededFrom p (h ++ t) = true := by
  induction h generalizing p with
  | nil => simpa using ResultsPrecededFrom_mono p ht
  | cons m rest ih =>
    simp only [ResultsPrecededFrom, Bool.and_eq_true] at hh
    simp only [List.cons_append, ResultsPrecededFrom, Bool.and_eq_true]
    exact ⟨hh.1, ih (some m) hh.2⟩

theorem ResultsPrecededFrom_complete {t : List MessageContent} (h : Complete t) :
    ResultsPrecededFrom none t = true := by
  induction h with
  | nil => rfl
  | text role text rest hrole _ ih =>
    simp [ResultsPrecededFrom, isToolResult_textTurn role text hrole,
      ResultsPrecededFrom_mono _ ih]
  | pair id typ name args content rest _ ih =>
    simp [ResultsPrecededFrom, isToolResult_requestTurn, answers_requestTurn_resultTurn,
      ResultsPrecededFrom_mono _ ih]

theorem ResultsPrecededFrom_appended {t : List MessageContent} (h : Appended t) :
    ResultsPrecededFrom none t = true := by
  rcases h with h | ⟨a, id, typ, name, args, ha, rfl⟩
  · exact ResultsPrecededFrom_complete h
  · exact ResultsPrecededFrom_append none (ResultsPrecededFrom_complete ha)
      (by simp [ResultsPrecededFrom, isToolResult_requestTurn])

theorem ResultsPrecededFrom_take (p : Option MessageContent) (h : List MessageContent)
    (n : Nat) (hh : ResultsPrecededFrom p h = true) :
    ResultsPrecededFrom p (h.take n) = true := by
  induction h generalizing p n with
  | nil => simp [ResultsPrecededFrom]
  | cons m rest ih =>
    cases n with
    | zero => simp [ResultsPrecededFrom]
    | succ n =>
      simp only [ResultsPrecededFrom, Bool.and_eq_true] at hh
      simp only [List.take_succ_cons, ResultsPrecededFrom, Bool.and_eq_true]
      exact ⟨hh.1, ih (some m) n hh.2⟩

/-- C18: at every cycle boundary of `Run` each tool-request turn of the history is
immediately followed by a turn of role Tool that carries the same call id and the same tool
name.  The property holds of the seeded history (first part), it is preserved by every
call of `processResponse` that returns nil (second part), and so it holds of the history
whenever `Run` terminates cleanly and at the boundary reached after any number of cycles,
which is the state returned when the fuel runs out (third part). -/
theorem C18_requests_answered_at_cycle_boundaries (go : GoLib) (l : LLMWrapper) :
    RequestsAnswered
        [{ Role := .System, Parts := [.TextContent l.persona] },
         { Role := .Human, Parts := [.TextContent l.prompt] }] = true ∧
    (∀ (r : Option ContentResponse) (s s2 : State),
      RequestsAnswered s.history = true →
      processResponse go l r s = (.nil, s2) →
      RequestsAnswered s2.history = true) ∧
    (∀ (ctx : Context) (fuel : Nat) (s : State),
      (Run go l ctx fuel s).1 = none ∨ (Run go l ctx fuel s).1 = some .nil →
      RequestsAnswered (Run go l ctx fuel s).2.history = true) := by
  have hseed : RequestsAnswered
      [{ Role := .System, Parts := [.TextContent l.persona] },
       { Role := .Human, Parts := [.TextContent l.prompt] }] = true := by
    simp [RequestsAnswered, isToolRequest]
  refine ⟨hseed, ?_, ?_⟩
  · intro r s s2 hs hr
    obtain ⟨t, ht, _, hc⟩ := processResponse_grows go l r s
    rw [hr] at ht hc
    rw [ht]
    exact RequestsAnswered_append hs (RequestsAnswered_complete (hc rfl))
  · intro ctx fuel s hout
    obtain ⟨t, ht, _, hc⟩ := runLoop_grows go l ctx fuel
      { s with history :=
          [{ Role := .System, Parts := [TextPart l.persona] },
           { Role := .Human, Parts := [TextPart l.prompt] }] }
    have ht2 : (Run go l ctx fuel s).2.history = _ := ht
    rw [ht2]
    exact RequestsAnswered_append hseed (RequestsAnswered_complete (hc hout))

/-- C18, on the test where the model invokes `writeFile`: after two cycles `Run` is still
running and, in its history, the request is followed by its result. -/
theorem C18_requests_answered_at_cycle_boundaries_witness :
    ((Run fakeGo (fakeWrapper ⟨[some { ToolCalls := [writeFileCall] }]⟩ ("", none) none
        ("", none)) neverDone 2 {}).1 = none ∨
      (Run fakeGo (fakeWrapper ⟨[some { ToolCalls := [writeFileCall] }]⟩ ("", none) none
        ("", none)) neverDone 2 {}).1 = some .nil) ∧
    (Run fakeGo (fakeWrapper ⟨[some { ToolCalls := [writeFileCall] }]⟩ ("", none) none
        ("", none)) neverDone 2 {}).2.history =
      [textTurn .System "You are a Software Engineer",
       textTurn .Human "Please develop a simple calculator",
       requestTurn "abc123" "function" "writeFile" writeFileArguments,
       resultTurn "abc123" "writeFile" "ok"] ∧
    RequestsAnswered
      (Run fakeGo (fakeWrapper ⟨[some { ToolCalls := [writeFileCall] }]⟩ ("", none) none
        ("", none)) neverDone 2 {}).2.history = true :=
  ⟨Or.inl rfl, rfl,
    (C18_requests_answered_at_cycle_boundaries fakeGo
      (fakeWrapper ⟨[some { ToolCalls := [writeFileCall] }]⟩ ("", none) none
        ("", none))).2.2 neverDone 2 {} (Or.inl rfl)⟩

/-- C19: in every state of a run, reached with or without a fatal error, every ToolResult
turn of the history is immediately preceded by an Assistant tool-request turn with the same
call id and the same tool name.  The property is preserved by `processResponse` whatever
its outcome (first part); it holds of the history returned by `Run` after any number of
cycles and whatever the outcome, and of every initial segment of that history, hence of
the history at every point of the run, since the history only grows (second part). -/
theorem C19_results_preceded_by_their_request (go : GoLib) (l : LLMWrapper) :
    (∀ (r : Option ContentResponse) (s : State),
      ResultsPreceded s.history = true →
      ResultsPreceded (processResponse go l r s).2.history = true) ∧
    (∀ (ctx : Context) (fuel : Nat) (s : State) (n : Nat),
      ResultsPreceded ((Run go l ctx fuel s).2.history.take n) = true) := by
  constructor
  · intro r s hs
    obtain ⟨t, ht, ha, _⟩ := processResponse_grows go l r s
    rw [ht]
    exact ResultsPrecededFrom_append none hs (ResultsPrecededFrom_appended ha)
  · intro ctx fuel s n
    obtain ⟨t, ht, ha, _⟩ := runLoop_grows go l ctx fuel
      { s with history :=
          [{ Role := .System, Parts := [TextPart l.persona] },
           { Role := .Human, Parts := [TextPart l.prompt] }] }
    have ht2 : (Run go l ctx fuel s).2.history = _ := ht
    rw [ht2]
    apply ResultsPrecededFrom_take
    refine ResultsPrecededFrom_append none ?_ (ResultsPrecededFrom_appended ha)
    simp [ResultsPrecededFrom, isToolResult, TextPart]

/-- C19, on a history with a request and its result, processed with the response of the test
where the file cannot be written to: the run stops on the fatal error with a request
without result as last turn, and every result is still preceded by its request. -/
theorem C19_results_preceded_by_their_request_witness :
    ResultsPreceded
      ({ history :=
          [textTurn .Human "hello",
           requestTurn "abc123" "function" "executeCommand" whoamiArguments,
           resultTurn "abc123" "executeCommand" "engineer"] } : State).history = true ∧
    (processResponse fakeGo
        (fakeWrapper {} ("", none) (some (.errorString "some-error")) ("", none))
        (some ⟨[some { ToolCalls := [writeFileCall] }]⟩)
        { history :=
            [textTurn .Human "hello",
             requestTurn "abc123" "function" "executeCommand" whoamiArguments,
             resultTurn "abc123" "executeCommand" "engineer"] }).2.history =
      [textTurn .Human "hello",
       requestTurn "abc123" "function" "executeCommand" whoamiArguments,
       resultTurn "abc123" "executeCommand" "engineer",
       requestTurn "abc123" "function" "writeFile" writeFileArguments] ∧
    ResultsPreceded
      (processResponse fakeGo
        (fakeWrapper {} ("", none) (some (.errorString "some-error")) ("", none))
        (some ⟨[some { ToolCalls := [writeFileCall] }]⟩)
        { history :=
            [textTurn .Human "hello",
             requestTurn "abc123" "function" "executeCommand" whoamiArguments,
             resultTurn "abc123" "executeCommand" "engineer"] }).2.history = true :=
  ⟨by decide, rfl,
    (C19_results_preceded_by_their_request fakeGo
      (fakeWrapper {} ("", none) (some (.errorString "some-error")) ("", none))).1
      (some ⟨[some { ToolCalls := [writeFileCall] }]⟩)
      { history :=
          [textTurn .Human "hello",
           requestTurn "abc123" "function" "executeCommand" whoamiArguments,
           resultTurn "abc123" "executeCommand" "engineer"] } (by decide)⟩


/-! ## What one tool call does -/

theorem performToolCalls_single_cases (go : GoLib) (l : LLMWrapper) (tc : ToolCall)
    (s : State) :
    (tc.FunctionCall = none ∧ performToolCalls go l [tc] s = (.fault, s)) ∨
    (∃ (e : GoError) (last : List Event),
      tc.FunctionCall ≠ none ∧ IsFatalDispatchError go e ∧
      (last = [] ∨ ∃ p c, last = [Event.WriteFile p c]) ∧
      performToolCalls go l [tc] s =
        (.err e, { history := s.history ++ [requestOf tc], trace := s.trace ++ last })) ∨
    (∃ (ev : Event) (content : String),
      tc.FunctionCall ≠ none ∧ dispatchOf go tc = some ev ∧ ev.isDispatch = true ∧
      performToolCalls go l [tc] s =
        (.nil,
         { history := s.history ++ [requestOf tc, resultOf tc content],
           trace := s.trace ++ [ev] })) := by
  rcases tc with ⟨id, typ, _ | ⟨name, args⟩⟩
  · exact Or.inl ⟨rfl, performToolCalls_nilFunctionCall go l id typ [] s⟩
  · by_cases h1 : name = "executeCommand"
    · subst h1
      cases h : go.UnmarshalExecuteCommand args with
      | error e =>
        refine Or.inr (Or.inl ⟨_, [], by simp, Or.inr (Or.inl ⟨"executeCommand", e, rfl⟩),
          Or.inl rfl, ?_⟩)
        rw [performToolCalls_execute_decodeError go l _ _ _ _ _ e h]
        simp [requestOf, requestTurn, Quote_executeCommand]
      | ok a =>
        refine Or.inr (Or.inr ⟨.Execute a.Command,
          (if (l.commandExecutor.Execute s.trace a.Command).2.isSome
              then "The command failed with the output"
              else "The command ran successfully with the output")
            ++ ":\n" ++ (l.commandExecutor.Execute s.trace a.Command).1,
          by simp, by simp [dispatchOf, h], rfl, ?_⟩)
        rw [performToolCalls_execute go l id typ args [] s a h, performToolCalls_nil]
        rfl
    · by_cases h2 : name = "writeFile"
      · subst h2
        cases h : go.UnmarshalWriteFile args with
        | error e =>
          refine Or.inr (Or.inl ⟨_, [], by simp, Or.inr (Or.inl ⟨"writeFile", e, rfl⟩),
            Or.inl rfl, ?_⟩)
          rw [performToolCalls_writeFile_decodeError go l _ _ _ _ _ e h]
          simp [requestOf, requestTurn, Quote_writeFile]
        | ok a =>
          cases hw : l.fileWriter.WriteFile s.trace a.Path a.Content with
          | some e =>
            refine Or.inr (Or.inl ⟨_, [.WriteFile a.Path a.Content], by simp,
              Or.inr (Or.inr ⟨"writeFile", e, rfl⟩), Or.inr ⟨_, _, rfl⟩, ?_⟩)
            rw [performToolCalls_writeFile_fails go l _ _ _ _ _ a e h hw]
            simp [requestOf, requestTurn, Quote_writeFile]
          | none =>
            refine Or.inr (Or.inr ⟨.WriteFile a.Path a.Content, "ok", by simp,
              by simp [dispatchOf, h], rfl, ?_⟩)
            rw [performToolCalls_writeFile go l id typ args [] s a h hw, performToolCalls_nil]
            rfl
      · refine Or.inr (Or.inl ⟨_, [], by simp, Or.inl ⟨name, rfl⟩, Or.inl rfl, ?_⟩)
        rw [performToolCalls_unknown go l _ _ _ _ _ _ h1 h2]
        simp [requestOf, requestTurn]

theorem TraceGrows.same (P : Event → Prop) {s1 s2 : State} (h : s2.trace = s1.trace) :
    TraceGrows P s1 s2 := ⟨[], by simp [h], by simp⟩

theorem TraceGrows.step {P : Event → Prop} {s1 s2 s3 : State} (h12 : TraceGrows P s1 s2)
    (h23 : TraceGrows P s2 s3) : TraceGrows P s1 s3 := by
  obtain ⟨a, ha, hpa⟩ := h12
  obtain ⟨b, hb, hpb⟩ := h23
  refine ⟨a ++ b, by rw [hb, ha, List.append_assoc], ?_⟩
  intro e he
  rcases List.mem_append.mp he with h | h
  · exact hpa e h
  · exact hpb e h

theorem TraceGrows.one {P : Event → Prop} (s : State) (e : Event) (h : P e) :
    TraceGrows P s (emit e s) :=
  ⟨[e], rfl, by simpa using h⟩

theorem TraceGrows.mono {P Q : Event → Prop} {s1 s2 : State} (h : TraceGrows P s1 s2)
    (hpq : ∀ e, P e → Q e) : TraceGrows Q s1 s2 := by
  obtain ⟨t, ht, hp⟩ := h
  exact ⟨t, ht, fun e he => hpq e (hp e he)⟩

theorem performToolCalls_traceGrows (go : GoLib) (l : LLMWrapper) (calls : List ToolCall)
    (s : State) :
    TraceGrows (fun e => e.isDispatch = true) s (performToolCalls go l calls s).2 := by
  induction calls generalizing s with
  | nil => rw [performToolCalls_nil]; exact TraceGrows.same _ rfl
  | cons tc calls ih =>
    rw [performToolCalls_cons]
    rcases performToolCalls_single_cases go l tc s with
      ⟨_, h⟩ | ⟨e, last, _, _, hlast, h⟩ | ⟨ev, content, _, _, hev, h⟩
    · rw [h]; exact TraceGrows.same _ rfl
    · rw [h]
      refine ⟨last, rfl, ?_⟩
      rcases hlast with rfl | ⟨p, c, rfl⟩ <;> simp [Event.isDispatch]
    · rw [h]
      exact TraceGrows.step ⟨[ev], rfl, by simpa using hev⟩ (ih _)

theorem promptUser_traceGrows (l : LLMWrapper) (q : String) (s : State) :
    TraceGrows (fun e => e = .Prompt q) s (promptUser l q s).2 := by
  rcases hp : l.prompter.Prompt s.trace q with ⟨reply, _ | e⟩
  · rw [promptUser_ok l q reply s hp]; exact ⟨[.Prompt q], rfl, by simp⟩
  · rw [promptUser_fails l q reply e s hp]; exact ⟨[.Prompt q], rfl, by simp⟩

theorem logContent_traceGrows (content : String) (s : State) :
    TraceGrows (fun e => e = .Info "AI says" "content" content) s (logContent content s) := by
  rw [logContent_eq]
  refine ⟨logEvents content, rfl, ?_⟩
  unfold logEvents
  split <;> simp

theorem processChoices_traceGrows (go : GoLib) (l : LLMWrapper)
    (choices : List (Option ContentChoice)) (s : State) :
    TraceGrows (fun e => e.isGenerateContent = false) s (processChoices go l choices s).2 := by
  induction choices generalizing s with
  | nil => simp only [processChoices]; exact TraceGrows.same _ rfl
  | cons x choices ih =>
    cases x with
    | none => simp only [processChoices]; exact TraceGrows.same _ rfl
    | some c =>
      have h0 : TraceGrows (fun e => e.isGenerateContent = false) s (logContent c.Content s) :=
        (logContent_traceGrows c.Content s).mono fun e he => by rw [he]; rfl
      have h1 : TraceGrows (fun e => e.isGenerateContent = false) (logContent c.Content s)
          (performToolCalls go l c.ToolCalls (logContent c.Content s)).2 :=
        (performToolCalls_traceGrows go l c.ToolCalls _).mono fun e he => by
          cases e <;> simp_all [Event.isDispatch, Event.isGenerateContent]
      have h2 := TraceGrows.step h0 h1
      unfold processChoices
      rcases hr : performToolCalls go l c.ToolCalls (logContent c.Content s) with ⟨r, s2⟩
      rw [hr] at h2
      cases r with
      | nil =>
        simp only
        split
        · exact h2
        · split
          · have h3 : TraceGrows (fun e => e.isGenerateContent = false) s2
                (promptUser l c.Content s2).2 :=
              (promptUser_traceGrows l c.Content s2).mono fun e he => by rw [he]; rfl
            rcases hq : promptUser l c.Content s2 with ⟨r2, s3⟩
            rw [hq] at h3
            cases r2 with
            | nil => exact TraceGrows.step (TraceGrows.step h2 h3) (ih s3)
            | err e => exact TraceGrows.step h2 h3
            | fault => exact TraceGrows.step h2 h3
          · exact TraceGrows.step h2 (ih s2)
      | err e => exact h2
      | fault => exact h2

theorem processResponse_traceGrows (go : GoLib) (l : LLMWrapper) (r : Option ContentResponse)
    (s : State) :
    TraceGrows (fun e => e.isGenerateContent = false) s (processResponse go l r s).2 := by
  unfold processResponse
  cases r with
  | none => exact TraceGrows.same _ rfl
  | some r =>
    simp only
    split
    · exact TraceGrows.same _ rfl
    · exact processChoices_traceGrows go l _ _

theorem runLoop_traceGrows (go : GoLib) (l : LLMWrapper) (ctx : Context) (fuel : Nat)
    (s : State) :
    TraceGrows
      (fun e => ∀ msgs tools, e = .GenerateContent msgs tools →
        tools = [executeCommandTool, writeFileTool])
      s (runLoop go l ctx fuel s).2 := by
  have hin : ∀ e : Event, e.isGenerateContent = false →
      ∀ msgs tools, e = .GenerateContent msgs tools →
        tools = [executeCommandTool, writeFileTool] := by
    intro e he msgs tools h
    rw [h] at he
    simp [Event.isGenerateContent] at he
  induction fuel generalizing s with
  | zero => simp only [runLoop]; exact TraceGrows.same _ rfl
  | succ n ih =>
    have h0 : TraceGrows
        (fun e => ∀ msgs tools, e = .GenerateContent msgs tools →
          tools = [executeCommandTool, writeFileTool])
        s (emit (.GenerateContent s.history advertisedTools) s) :=
      TraceGrows.one s _ (by
        intro msgs tools h
        cases h
        rfl)
    unfold runLoop
    split
    · exact TraceGrows.same _ rfl
    · simp only
      split
      · exact h0
      · have h1 := (processResponse_traceGrows go l
            (l.model.GenerateContent s.trace s.history advertisedTools).1
            (emit (.GenerateContent s.history advertisedTools) s)).mono hin
        rcases hr : processResponse go l
            (l.model.GenerateContent s.trace s.history advertisedTools).1
            (emit (.GenerateContent s.history advertisedTools) s) with ⟨r, s2⟩
        rw [hr] at h1
        cases r with
        | nil =>
          exact TraceGrows.step (TraceGrows.step (TraceGrows.step h0 h1)
            (TraceGrows.one s2 (.Sleep 5) (by intro msgs tools h; cases h))) (ih _)
        | err e => exact TraceGrows.step h0 h1
        | fault => exact TraceGrows.step h0 h1

/-! ## The System turn, the advertised tools and the failed escalation -/

theorem Complete.noSystem {t : List MessageContent} (h : Complete t) :
    ∀ m ∈ t, m.Role ≠ .System := by
  induction h with
  | nil => simp
  | text role text rest hrole _ ih =>
    intro m hm
    rcases List.mem_cons.mp hm with rfl | hm
    · rcases hrole with h | h <;> simp [textTurn, h]
    · exact ih m hm
  | pair id typ name args content rest _ ih =>
    intro m hm
    rcases List.mem_cons.mp hm with rfl | hm
    · simp [requestTurn]
    · rcases List.mem_cons.mp hm with rfl | hm
      · simp [resultTurn]
      · exact ih m hm

theorem Appended.noSystemTurn {t : List MessageContent} (h : Appended t) :
    ∀ m ∈ t, m.Role ≠ .System := by
  rcases h with h | ⟨a, id, typ, name, args, ha, rfl⟩
  · exact h.noSystem
  · intro m hm
    rcases List.mem_append.mp hm with hm | hm
    · exact ha.noSystem m hm
    · simp only [List.mem_singleton] at hm
      simp [hm, requestTurn]

theorem SystemFirstOnly_append {h t : List MessageContent} (hh : SystemFirstOnly h = true)
    (ht : ∀ m ∈ t, m.Role ≠ .System) : SystemFirstOnly (h ++ t) = true := by
  cases h with
  | nil => simp [SystemFirstOnly] at hh
  | cons m rest =>
    simp only [SystemFirstOnly, Bool.and_eq_true, decide_eq_true_eq, List.all_eq_true] at hh
    simp only [List.cons_append, SystemFirstOnly, Bool.and_eq_true, decide_eq_true_eq,
      List.all_eq_true]
    refine ⟨hh.1, ?_⟩
    intro x hx
    rcases List.mem_append.mp hx with hx | hx
    · exact hh.2 x hx
    · exact ht x hx

theorem SystemFirstOnly_take {h : List MessageContent} (n : Nat)
    (hh : SystemFirstOnly h = true) : SystemFirstOnly (h.take (n + 1)) = true := by
  cases h with
  | nil => simp [SystemFirstOnly] at hh
  | cons m rest =>
    simp only [SystemFirstOnly, Bool.and_eq_true, decide_eq_true_eq, List.all_eq_true] at hh
    simp only [List.take_succ_cons, SystemFirstOnly, Bool.and_eq_true, decide_eq_true_eq,
      List.all_eq_true]
    exact ⟨hh.1, fun x hx => hh.2 x (List.mem_of_mem_take hx)⟩

/-- C21: no operation of the loop appends a turn of role System: the turns appended by
`processResponse`, `performToolCalls` and `promptUser` have another role, whatever the
response and the replies of the collaborators (first three parts).  So the history that
`Run` returns after any number of cycles, whatever the outcome, starts with the System
turn of the persona, and in each of its non-empty initial segments, hence at every point
of the run after the seeding, the first turn has role System and no other turn has
(fourth part). -/
theorem C21_system_turn_first_and_only (go : GoLib) (l : LLMWrapper) :
    (∀ (r : Option ContentResponse) (s : State),
      ∃ t, (processResponse go l r s).2.history = s.history ++ t ∧
        ∀ m ∈ t, m.Role ≠ .System) ∧
    (∀ (calls : List ToolCall) (s : State),
      ∃ t, (performToolCalls go l calls s).2.history = s.history ++ t ∧
        ∀ m ∈ t, m.Role ≠ .System) ∧
    (∀ (q : String) (s : State),
      ∃ t, (promptUser l q s).2.history = s.history ++ t ∧ ∀ m ∈ t, m.Role ≠ .System) ∧
    (∀ (ctx : Context) (fuel : Nat) (s : State),
      (Run go l ctx fuel s).2.history.head? =
        some { Role := .System, Parts := [.TextContent l.persona] } ∧
      ∀ n : Nat, SystemFirstOnly ((Run go l ctx fuel s).2.history.take (n + 1)) = true) := by
  refine ⟨?_, ?_, ?_, ?_⟩
  · intro r s
    obtain ⟨t, ht, ha, _⟩ := processResponse_grows go l r s
    exact ⟨t, ht, ha.noSystemTurn⟩
  · intro calls s
    obtain ⟨t, ht, ha, _⟩ := performToolCalls_grows go l calls s
    exact ⟨t, ht, ha.noSystemTurn⟩
  · intro q s
    obtain ⟨t, ht, ha, _⟩ := promptUser_grows l q s
    exact ⟨t, ht, ha.noSystemTurn⟩
  · intro ctx fuel s
    obtain ⟨t, ht, ha, _⟩ := runLoop_grows go l ctx fuel
      { s with history :=
          [{ Role := .System, Parts := [TextPart l.persona] },
           { Role := .Human, Parts := [TextPart l.prompt] }] }
    have ht2 : (Run go l ctx fuel s).2.history = _ := ht
    rw [ht2]
    refine ⟨by simp [TextPart], fun n => SystemFirstOnly_take n ?_⟩
    exact SystemFirstOnly_append (by simp [SystemFirstOnly]) ha.noSystemTurn

/-- C22: every generation request that `Run` makes, in every cycle, carries the same list
of exactly two tools of type `function`, `executeCommand` and then `writeFile` (first
part); the list is the fixed value spelled out in the second part, with the descriptions,
the string properties and the required arguments of each tool. -/
theorem C22_tools_advertised_on_every_request (go : GoLib) (l : LLMWrapper) (ctx : Context)
    (fuel : Nat) (s : State) :
    (∀ e ∈ (Run go l ctx fuel s).2.trace.drop s.trace.length,
      ∀ (msgs : List MessageContent) (tools : List Tool),
        e = .GenerateContent msgs tools → tools = [executeCommandTool, writeFileTool]) ∧
    [executeCommandTool, writeFileTool] =
      [{ Typ := "function",
         Function := some
           { Name := "executeCommand",
             Description := "Execute an operating system bash command",
             Parameters := .map
               [("type", .string "object"),
                ("properties", .map
                  [("command", .map
                    [("type", .string "string"),
                     ("description", .string "The command to execute")])]),
                ("required", .strings ["command"])] } },
       { Typ := "function",
         Function := some
           { Name := "writeFile",
             Description := "Write a file to the filesystem",
             Parameters := .map
               [("type", .string "object"),
                ("properties", .map
                  [("content", .map
                    [("type", .string "string"),
                     ("description", .string "The content of the file as a string")]),
                   ("path", .map
                    [("type", .string "string"),
                     ("description",
                       .string "The relative path of the file within the project")])]),
                ("required", .strings ["content", "path"])] } }] := by
  refine ⟨?_, rfl⟩
  obtain ⟨t, ht, hp⟩ := runLoop_traceGrows go l ctx fuel
    { s with history :=
        [{ Role := .System, Parts := [TextPart l.persona] },
         { Role := .Human, Parts := [TextPart l.prompt] }] }
  have ht2 : (Run go l ctx fuel s).2.trace = s.trace ++ t := ht
  rw [ht2, List.drop_left]
  exact hp

/-- C27: when the prompter returns an error `e`, `promptUser` returns `e` and the history on
exit is the history before followed by exactly one turn, the Assistant turn with the text
`q`: the question is recorded before the prompter is called and there is no Human turn. -/
theorem C27_failed_escalation_keeps_question (l : LLMWrapper) (q reply : String)
    (e : GoError) (s : State) (hp : l.prompter.Prompt s.trace q = (reply, some e)) :
    promptUser l q s =
      (.err e,
       { history := s.history ++ [{ Role := .AI, Parts := [.TextContent q] }],
         trace := s.trace ++ [.Prompt q] }) :=
  promptUser_fails l q reply e s hp

/-- C27, on the test where prompting errors. -/
theorem C27_failed_escalation_keeps_question_witness :
    (fakeWrapper {} ("", none) none ("", some (.errorString "prompt error"))).prompter.Prompt
        ({} : State).trace "What do you think?" = ("", some (.errorString "prompt error")) ∧
    promptUser (fakeWrapper {} ("", none) none ("", some (.errorString "prompt error")))
        "What do you think?" {} =
      (.err (.errorString "prompt error"),
       { history := ({} : State).history ++
           [{ Role := .AI, Parts := [.TextContent "What do you think?"] }],
         trace := ({} : State).trace ++ [.Prompt "What do you think?"] }) :=
  ⟨rfl,
    C27_failed_escalation_keeps_question
      (fakeWrapper {} ("", none) none ("", some (.errorString "prompt error")))
      "What do you think?" "" (.errorString "prompt error") {} rfl⟩

/-! ## Several tool calls, and the fatal failure of one of them -/

theorem exchanges_cons (tc : ToolCall) (calls : List ToolCall) (content : String)
    (contents : List String) :
    exchanges (tc :: calls) (content :: contents) =
      requestOf tc :: resultOf tc content :: exchanges calls contents := by
  simp [exchanges]

theorem exchanges_length (calls : List ToolCall) (contents : List String)
    (h : contents.length = calls.length) :
    (exchanges calls contents).length = 2 * calls.length := by
  induction calls generalizing contents with
  | nil => simp [exchanges]
  | cons tc calls ih =>
    cases contents with
    | nil => simp at h
    | cons content contents =>
      rw [exchanges_cons]
      simp only [List.length_cons] at h ⊢
      rw [ih contents (by omega)]
      omega

theorem performToolCalls_nil_shape (go : GoLib) (l : LLMWrapper) (calls : List ToolCall)
    (s s2 : State) (h : performToolCalls go l calls s = (.nil, s2)) :
    ∃ (contents : List String) (events : List Event),
      contents.length = calls.length ∧
      s2.history = s.history ++ exchanges calls contents ∧
      s2.trace = s.trace ++ events ∧
      events.map some = calls.map (dispatchOf go) := by
  induction calls generalizing s with
  | nil =>
    rw [performToolCalls_nil] at h
    simp only [Prod.mk.injEq, true_and] at h
    exact ⟨[], [], rfl, by simp [exchanges, h], by simp [h], rfl⟩
  | cons tc calls ih =>
    rw [performToolCalls_cons] at h
    rcases performToolCalls_single_cases go l tc s with
      ⟨_, h1⟩ | ⟨e, last, _, _, _, h1⟩ | ⟨ev, content, _, hev, _, h1⟩
    · rw [h1] at h; simp at h
    · rw [h1] at h; simp at h
    · rw [h1] at h
      obtain ⟨contents, events, hlen, hh, ht, hmap⟩ := ih _ h
      refine ⟨content :: contents, ev :: events, by simp [hlen], ?_, ?_, ?_⟩
      · rw [hh, exchanges_cons]; simp
      · rw [ht]; simp
      · simp [hmap, hev]

theorem performToolCalls_append_nil (go : GoLib) (l : LLMWrapper) (pre rest : List ToolCall)
    (s s2 : State) (h : performToolCalls go l (pre ++ rest) s = (.nil, s2)) :
    ∃ s1, performToolCalls go l pre s = (.nil, s1) ∧
      performToolCalls go l rest s1 = (.nil, s2) := by
  induction pre generalizing s with
  | nil => exact ⟨s, performToolCalls_nil go l s, by simpa using h⟩
  | cons tc pre ih =>
    rw [List.cons_append, performToolCalls_cons] at h
    rw [performToolCalls_cons]
    rcases hr : performToolCalls go l [tc] s with ⟨r, s0⟩
    rw [hr] at h
    cases r with
    | nil => exact ih s0 h
    | err e => simp at h
    | fault => simp at h

/-- C24: when all the tool calls of a candidate dispatch without fatal error, that is when
`performToolCalls` returns nil, the history gains exactly two turns for each tool call, in
the order request 1, result 1, request 2, result 2 and so on, each request being the call
as the model gave it and each result carrying the call id and the tool name of its
request; the calls made on the collaborators are exactly one for each tool call, in the
order of the tool calls, each with the decoded arguments of its tool call; and when a
tool call is begun, the requests and the results of all the tool calls before it, and
nothing else, have been appended (last part). -/
theorem C24_tool_calls_dispatched_in_order (go : GoLib) (l : LLMWrapper)
    (calls : List ToolCall) (s s2 : State)
    (h : performToolCalls go l calls s = (.nil, s2)) :
    s2.history.length = s.history.length + 2 * calls.length ∧
    (∃ contents : List String,
      contents.length = calls.length ∧
      s2.history =
        s.history ++
          (calls.zip contents).flatMap fun p =>
            [{ Role := .AI, Parts := [.ToolCall p.1] },
             { Role := .Tool,
               Parts := [.ToolCallResponse
                 { ToolCallID := p.1.ID, Name := toolName p.1, Content := p.2 }] }]) ∧
    (∃ events : List Event,
      s2.trace = s.trace ++ events ∧ events.map some = calls.map (dispatchOf go)) ∧
    (∀ (pre post : List ToolCall) (tc : ToolCall), calls = pre ++ tc :: post →
      ∃ (s1 : State) (contents : List String),
        performToolCalls go l pre s = (.nil, s1) ∧
        contents.length = pre.length ∧
        s1.history = s.history ++ exchanges pre contents ∧
        performToolCalls go l (tc :: post) s1 = (.nil, s2)) := by
  obtain ⟨contents, events, hlen, hh, ht, hmap⟩ := performToolCalls_nil_shape go l calls s s2 h
  refine ⟨?_, ⟨contents, hlen, hh⟩, ⟨events, ht, hmap⟩, ?_⟩
  · rw [hh, List.length_append, exchanges_length calls contents hlen]
  · intro pre post tc hcalls
    subst hcalls
    obtain ⟨s1, h1, h2⟩ := performToolCalls_append_nil go l pre (tc :: post) s s2 h
    obtain ⟨contents1, _, hlen1, hh1, _, _⟩ := performToolCalls_nil_shape go l pre s s1 h1
    exact ⟨s1, contents1, h1, hlen1, hh1, h2⟩

/-- C24, on a candidate with two tool calls, the `executeCommand` call and the `writeFile`
call of the tests. -/
theorem C24_tool_calls_dispatched_in_order_witness :
    performToolCalls fakeGo (fakeWrapper {} ("engineer", none) none ("", none))
        [⟨"abc123", "function", some ⟨"executeCommand", whoamiArguments⟩⟩, writeFileCall] {} =
      (.nil,
       { history :=
           [requestTurn "abc123" "function" "executeCommand" whoamiArguments,
            resultTurn "abc123" "executeCommand"
              "The command ran successfully with the output:\nengineer",
            requestTurn "abc123" "function" "writeFile" writeFileArguments,
            resultTurn "abc123" "writeFile" "ok"],
         trace := [.Execute "whoami", .WriteFile "/path/to/some/file" "content for the file"] }) ∧
    ({ history :=
         [requestTurn "abc123" "function" "executeCommand" whoamiArguments,
          resultTurn "abc123" "executeCommand"
            "The command ran successfully with the output:\nengineer",
          requestTurn "abc123" "function" "writeFile" writeFileArguments,
          resultTurn "abc123" "writeFile" "ok"],
       trace := [.Execute "whoami", .WriteFile "/path/to/some/file" "content for the file"] }
      : State).history.length =
      ({} : State).history.length + 2 *
        [⟨"abc123", "function", some ⟨"executeCommand", whoamiArguments⟩⟩, writeFileCall].length :=
  ⟨rfl,
    (C24_tool_calls_dispatched_in_order fakeGo
      (fakeWrapper {} ("engineer", none) none ("", none))
      [⟨"abc123", "function", some ⟨"executeCommand", whoamiArguments⟩⟩, writeFileCall] {} _
      rfl).1⟩

/-- C25: for a candidate `c` with at least one tool call, `processResponse` is the dispatch
of the tool calls of `c` and nothing else, whatever the stop reason and the text of `c`:
processing `c` and the candidates after it is `performToolCalls` on the tool calls of `c`
(first part, and third part for `c` at any position in the response), none of the calls
then made is a call on the prompter (second part), and the stop reason of `c` has no
effect on the outcome (fourth part). -/
theorem C25_no_escalation_for_tool_candidate (go : GoLib) (l : LLMWrapper) (c : ContentChoice)
    (h : c.ToolCalls ≠ []) :
    (∀ (after : List (Option ContentChoice)) (s : State),
      processChoices go l (some c :: after) s =
        performToolCalls go l c.ToolCalls (logContent c.Content s)) ∧
    (∀ (after : List (Option ContentChoice)) (s : State),
      ∀ e ∈ (processChoices go l (some c :: after) s).2.trace.drop s.trace.length,
        e.isPrompt = false) ∧
    (∀ (before after : List (Option ContentChoice)) (s mid : State),
      (∀ x ∈ before, ∃ c1 : ContentChoice, x = some c1 ∧ c1.ToolCalls = []) →
      processChoices go l before s = (.nil, mid) →
      processResponse go l (some ⟨before ++ some c :: after⟩) s =
        performToolCalls go l c.ToolCalls (logContent c.Content mid)) ∧
    (∀ (sr : String) (after : List (Option ContentChoice)) (s : State),
      processResponse go l (some ⟨some { c with StopReason := sr } :: after⟩) s =
        processResponse go l (some ⟨some c :: after⟩) s) := by
  refine ⟨fun after s => processChoices_toolBearing go l c after s h, ?_, ?_, ?_⟩
  · intro after s
    rw [processChoices_toolBearing go l c after s h]
    obtain ⟨t0, ht0, hp0⟩ := logContent_traceGrows c.Content s
    obtain ⟨t1, ht1, hp1⟩ := performToolCalls_traceGrows go l c.ToolCalls (logContent c.Content s)
    rw [ht1, ht0, List.append_assoc, List.drop_left]
    intro e he
    rcases List.mem_append.mp he with he | he
    · rw [hp0 e he]; rfl
    · have := hp1 e he
      cases e <;> simp_all [Event.isDispatch, Event.isPrompt]
  · intro before after s mid hno hb
    rw [processResponse_append go l before after (some c) s mid hno hb]
    exact processChoices_toolBearing go l c after mid h
  · intro sr after s
    rw [processResponse_cons, processResponse_cons,
      processChoices_toolBearing go l c after s h,
      processChoices_toolBearing go l { c with StopReason := sr } after s h]

/-- C25, on a candidate that carries text, the stop reason `end_turn` and the `writeFile`
call of the tests: the file is written and the prompter is not called. -/
theorem C25_no_escalation_for_tool_candidate_witness :
    ({ Content := "What do you think?", StopReason := "end_turn",
       ToolCalls := [writeFileCall] } : ContentChoice).ToolCalls ≠ [] ∧
    processChoices fakeGo (fakeWrapper {} ("", none) none ("Please make it yellow.", none))
        (some { Content := "What do you think?", StopReason := "end_turn",
                ToolCalls := [writeFileCall] } :: []) {} =
      (.nil,
       { history :=
           [requestTurn "abc123" "function" "writeFile" writeFileArguments,
            resultTurn "abc123" "writeFile" "ok"],
         trace :=
           [.Info "AI says" "content" "What do you think?",
            .WriteFile "/path/to/some/file" "content for the file"] }) :=
  ⟨by decide,
    ((C25_no_escalation_for_tool_candidate fakeGo
      (fakeWrapper {} ("", none) none ("Please make it yellow.", none))
      { Content := "What do you think?", StopReason := "end_turn",
        ToolCalls := [writeFileCall] } (by decide)).1 [] {}).trans rfl⟩

/-- C26: when the tool calls `pre` of a candidate dispatch without fatal error and the
tool call `tc` after them fails with the fatal error `e`, `performToolCalls` returns `e`
whatever the tool calls `post` after `tc`; `e` is one of the three fatal dispatch errors;
the history is the history before, followed by the request and the result of each call of
`pre` and then by the request of `tc`, with nothing after it; the calls made are the
dispatches of `pre` and, when the file writer failed, the call on the file writer, so that
nothing of `post` is recorded or dispatched and the prompter is not called.
`processResponse` returns `e` whatever the candidates after this one, and a cycle of `Run`
that reaches the candidate returns `e` in that same state: no further generation request
is made. -/
theorem C26_fatal_tool_call_aborts_cycle (go : GoLib) (l : LLMWrapper)
    (pre post : List ToolCall) (tc : ToolCall) (e : GoError) (s s1 s2 : State)
    (hpre : performToolCalls go l pre s = (.nil, s1))
    (hj : performToolCalls go l [tc] s1 = (.err e, s2)) :
    performToolCalls go l (pre ++ tc :: post) s = (.err e, s2) ∧
    IsFatalDispatchError go e ∧
    (∃ contents : List String,
      contents.length = pre.length ∧
      s2.history =
        s.history ++
          ((pre.zip contents).flatMap fun p =>
            [{ Role := .AI, Parts := [.ToolCall p.1] },
             { Role := .Tool,
               Parts := [.ToolCallResponse
                 { ToolCallID := p.1.ID, Name := toolName p.1, Content := p.2 }] }]) ++
          [{ Role := .AI, Parts := [.ToolCall tc] }]) ∧
    (∃ events last : List Event,
      s2.trace = s.trace ++ events ++ last ∧
      events.map some = pre.map (dispatchOf go) ∧
      (last = [] ∨ ∃ p c, last = [Event.WriteFile p c])) ∧
    (∀ (c : ContentChoice) (after : List (Option ContentChoice)) (s0 : State),
      c.ToolCalls = pre ++ tc :: post → s = logContent c.Content s0 →
      processChoices go l (some c :: after) s0 = (.err e, s2)) ∧
    (∀ (ctx : Context) (fuel : Nat) (st : State) (c : ContentChoice),
      CycleReaches go l ctx st c s → c.ToolCalls = pre ++ tc :: post →
      runLoop go l ctx (fuel + 1) st = (some (.err e), s2)) := by
  have key : performToolCalls go l (pre ++ tc :: post) s = (.err e, s2) := by
    rw [performToolCalls_append go l pre _ s s1 hpre, performToolCalls_cons, hj]
  obtain ⟨contents, events, hlen, hh, ht, hmap⟩ := performToolCalls_nil_shape go l pre s s1 hpre
  have hcases := performToolCalls_single_cases go l tc s1
  rw [hj] at hcases
  rcases hcases with ⟨_, h1⟩ | ⟨e1, last, _, hfatal, hlast, h1⟩ | ⟨ev, content, _, _, _, h1⟩
  · simp at h1
  · simp only [Prod.mk.injEq, Result.err.injEq] at h1
    obtain ⟨he, hs⟩ := h1
    subst he
    refine ⟨key, hfatal, ⟨contents, hlen, ?_⟩, ⟨events, last, ?_, hmap, hlast⟩, ?_, ?_⟩
    · rw [hs, hh]; rfl
    · rw [hs, ht]
    · intro c after s0 hc hs0
      subst hs0
      have hne : c.ToolCalls ≠ [] := by simp [hc]
      rw [processChoices_toolBearing go l c after s0 hne, hc]
      exact key
    · intro ctx fuel st c hc hcalls
      rw [← hcalls] at key
      exact runLoop_toolError go l ctx fuel st s s2 c e hc key
  · simp at h1

/-- C26, on a candidate whose first tool call is the `executeCommand` call of the tests and
whose second tool call names an unknown tool, followed by a third tool call and by another
candidate. -/
theorem C26_fatal_tool_call_aborts_cycle_witness :
    performToolCalls fakeGo (fakeWrapper {} ("engineer", none) none ("", none))
        [⟨"abc123", "function", some ⟨"executeCommand", whoamiArguments⟩⟩] {} =
      (.nil,
       { history :=
           [requestTurn "abc123" "function" "executeCommand" whoamiArguments,
            resultTurn "abc123" "executeCommand"
              "The command ran successfully with the output:\nengineer"],
         trace := [.Execute "whoami"] }) ∧
    performToolCalls fakeGo (fakeWrapper {} ("engineer", none) none ("", none))
        [⟨"x1", "function", some ⟨"accelerate", "5"⟩⟩]
        { history :=
            [requestTurn "abc123" "function" "executeCommand" whoamiArguments,
             resultTurn "abc123" "executeCommand"
               "The command ran successfully with the output:\nengineer"],
          trace := [.Execute "whoami"] } =
      (.err (.errorString "unrecognised tool call from model: \"accelerate\""),
       { history :=
           [requestTurn "abc123" "function" "executeCommand" whoamiArguments,
            resultTurn "abc123" "executeCommand"
              "The command ran successfully with the output:\nengineer",
            requestTurn "x1" "function" "accelerate" "5"],
         trace := [.Execute "whoami"] }) ∧
    performToolCalls fakeGo (fakeWrapper {} ("engineer", none) none ("", none))
        ([⟨"abc123", "function", some ⟨"executeCommand", whoamiArguments⟩⟩] ++
          ⟨"x1", "function", some ⟨"accelerate", "5"⟩⟩ :: [writeFileCall]) {} =
      (.err (.errorString "unrecognised tool call from model: \"accelerate\""),
       { history :=
           [requestTurn "abc123" "function" "executeCommand" whoamiArguments,
            resultTurn "abc123" "executeCommand"
              "The command ran successfully with the output:\nengineer",
            requestTurn "x1" "function" "accelerate" "5"],
         trace := [.Execute "whoami"] }) :=
  ⟨rfl, rfl,
    (C26_fatal_tool_call_aborts_cycle fakeGo
      (fakeWrapper {} ("engineer", none) none ("", none))
      [⟨"abc123", "function", some ⟨"executeCommand", whoamiArguments⟩⟩] [writeFileCall]
      ⟨"x1", "function", some ⟨"accelerate", "5"⟩⟩ _ {} _ _ rfl rfl).1⟩

/-! ## No fault on well-formed responses -/

theorem performToolCalls_noFault (go : GoLib) (l : LLMWrapper) (calls : List ToolCall)
    (s : State) (hfc : ∀ tc ∈ calls, tc.FunctionCall ≠ none) :
    (performToolCalls go l calls s).1 = .nil ∨
    ∃ e, (performToolCalls go l calls s).1 = .err e ∧ IsFatalDispatchError go e := by
  induction calls generalizing s with
  | nil => rw [performToolCalls_nil]; exact Or.inl rfl
  | cons tc calls ih =>
    rw [performToolCalls_cons]
    rcases performToolCalls_single_cases go l tc s with
      ⟨hnone, _⟩ | ⟨e, last, _, hfatal, _, h1⟩ | ⟨ev, content, _, _, _, h1⟩
    · exact absurd hnone (hfc tc (List.mem_cons_self _ _))
    · rw [h1]; exact Or.inr ⟨e, rfl, hfatal⟩
    · rw [h1]; exact ih _ (fun tc1 h => hfc tc1 (List.mem_cons_of_mem _ h))

theorem processChoices_noFault (go : GoLib) (l : LLMWrapper) (choices : List ContentChoice)
    (s : State) (hfc : ∀ c ∈ choices, ∀ tc ∈ c.ToolCalls, tc.FunctionCall ≠ none) :
    (processChoices go l (choices.map some) s).1 = .nil ∨
    ∃ e, (processChoices go l (choices.map some) s).1 = .err e ∧
      (IsFatalDispatchError go e ∨
        ∃ (tr : List Event) (q reply : String), l.prompter.Prompt tr q = (reply, some e)) := by
  induction choices generalizing s with
  | nil => simp [processChoices]
  | cons c choices ih =>
    have hrest : ∀ c1 ∈ choices, ∀ tc ∈ c1.ToolCalls, tc.FunctionCall ≠ none :=
      fun c1 h => hfc c1 (List.mem_cons_of_mem _ h)
    have h1 := performToolCalls_noFault go l c.ToolCalls (logContent c.Content s)
      (hfc c (List.mem_cons_self _ _))
    rw [List.map_cons]
    unfold processChoices
    rcases hr : performToolCalls go l c.ToolCalls (logContent c.Content s) with ⟨r, s2⟩
    rw [hr] at h1
    cases r with
    | nil =>
      simp only
      split
      · exact Or.inl rfl
      · split
        · rcases hp : l.prompter.Prompt s2.trace c.Content with ⟨reply, _ | e⟩
          · rw [promptUser_ok l c.Content reply s2 hp]
            exact ih _ hrest
          · rw [promptUser_fails l c.Content reply e s2 hp]
            exact Or.inr ⟨e, rfl, Or.inr ⟨_, _, _, hp⟩⟩
        · exact ih _ hrest
    | err e =>
      rcases h1 with h1 | ⟨e1, he1, hfatal⟩
      · simp at h1
      · simp only [Result.err.injEq] at he1
        subst he1
        exact Or.inr ⟨e, rfl, Or.inl hfatal⟩
    | fault =>
      rcases h1 with h1 | ⟨e1, he1, _⟩
      · simp at h1
      · simp at he1

/-- C28: for a response that is not nil, whose candidates are not nil and whose tool calls
all carry a function call, `processResponse` never faults: it returns nil, or one of the
three fatal dispatch errors, or an error returned by the prompter (first part).  Without
the precondition it faults: on a nil response, on a nil candidate, and on a tool call
with a nil function call, which `recordToolCall` dereferences before anything is recorded
or checked (last three parts). -/
theorem C28_no_fault_on_well_formed_response (go : GoLib) (l : LLMWrapper) :
    (∀ (choices : List ContentChoice) (s : State),
      (∀ c ∈ choices, ∀ tc ∈ c.ToolCalls, tc.FunctionCall ≠ none) →
      (processResponse go l (some ⟨choices.map some⟩) s).1 = .nil ∨
      ∃ e, (processResponse go l (some ⟨choices.map some⟩) s).1 = .err e ∧
        (IsFatalDispatchError go e ∨
          ∃ (tr : List Event) (q reply : String),
            l.prompter.Prompt tr q = (reply, some e))) ∧
    (∀ s : State, processResponse go l none s = (.fault, s)) ∧
    (∀ (rest : List (Option ContentChoice)) (s : State),
      processResponse go l (some ⟨none :: rest⟩) s = (.fault, s)) ∧
    (∀ (id typ : String) (calls : List ToolCall) (s : State),
      recordToolCall ⟨id, typ, none⟩ s = none ∧
      performToolCalls go l (⟨id, typ, none⟩ :: calls) s = (.fault, s)) := by
  refine ⟨?_, ?_, ?_, ?_⟩
  · intro choices s hfc
    rw [processResponse_map]
    exact processChoices_noFault go l choices s hfc
  · intro s
    rfl
  · intro rest s
    simp [processResponse, processChoices]
  · intro id typ calls s
    exact ⟨rfl, performToolCalls_nilFunctionCall go l id typ calls s⟩

/-- C28, on the response of the test with two choices that both invoke `writeFile`. -/
theorem C28_no_fault_on_well_formed_response_witness :
    (∀ c ∈ [({ ToolCalls := [writeFileCall] } : ContentChoice),
        { ToolCalls := [otherWriteFileCall] }],
      ∀ tc ∈ c.ToolCalls, tc.FunctionCall ≠ none) ∧
    ((processResponse fakeGo (fakeWrapper {} ("", none) none ("", none))
        (some ⟨[({ ToolCalls := [writeFileCall] } : ContentChoice),
          { ToolCalls := [otherWriteFileCall] }].map some⟩) {}).1 = .nil ∨
      ∃ e, (processResponse fakeGo (fakeWrapper {} ("", none) none ("", none))
        (some ⟨[({ ToolCalls := [writeFileCall] } : ContentChoice),
          { ToolCalls := [otherWriteFileCall] }].map some⟩) {}).1 = .err e ∧
        (IsFatalDispatchError fakeGo e ∨
          ∃ (tr : List Event) (q reply : String),
            (fakeWrapper {} ("", none) none ("", none)).prompter.Prompt tr q =
              (reply, some e))) :=
  ⟨by decide,
    (C28_no_fault_on_well_formed_response fakeGo
      (fakeWrapper {} ("", none) none ("", none))).1
      [({ ToolCalls := [writeFileCall] } : ContentChoice), { ToolCalls := [otherWriteFileCall] }]
      {} (by decide)⟩

/-! ## The file writer -/

/-- C23: for a path that is not local and any content, `SimpleFileWriter.WriteFile` returns
the error `path is not a local path: ` followed by the quoted path, and the only call it
makes is the log record: no directory is created and no file is written. -/
theorem C23_non_local_path_is_rejected (go : GoLib) (fs : FileSystem) (fw : SimpleFileWriter)
    (path content : String) (calls : List FileCall) (h : fs.IsLocal path = false) :
    fw.WriteFile go fs path content calls =
      (some (.errorString ("path is not a local path: " ++ Quote go path)),
       calls ++ [.Info "writing file" "path" path]) ∧
    ((fw.WriteFile go fs path content calls).2.drop calls.length).filter
      FileCall.isSystemCall = [] := by
  have key : fw.WriteFile go fs path content calls =
      (some (.errorString ("path is not a local path: " ++ Quote go path)),
       calls ++ [.Info "writing file" "path" path]) := by
    simp [SimpleFileWriter.WriteFile, h]
  refine ⟨key, ?_⟩
  rw [key]
  simp [FileCall.isSystemCall]

/-- C23, on the test where the path is not a local path. -/
theorem C23_non_local_path_is_rejected_witness :
    fakeFileSystem.IsLocal "../../traversal" = false ∧
    (NewSimpleFileWriter "/tmp/fw").WriteFile fakeGo fakeFileSystem "../../traversal"
        "some content" [] =
      (some (.errorString "path is not a local path: \"../../traversal\""),
       [.Info "writing file" "path" "../../traversal"]) :=
  ⟨rfl,
    ((C23_non_local_path_is_rejected fakeGo fakeFileSystem (NewSimpleFileWriter "/tmp/fw")
      "../../traversal" "some content" [] rfl).1).trans rfl⟩

/-! ## Arguments that the model left out -/

theorem decodeExecuteCommandMembers_noKey (members : List (String × JSON))
    (acc : ExecuteCommandArgs × Bool)
    (h : ∀ m ∈ members, matchesField "Command" m.1 = false) :
    decodeExecuteCommandMembers members acc = acc := by
  induction members generalizing acc with
  | nil => rfl
  | cons m members ih =>
    obtain ⟨k, v⟩ := m
    obtain ⟨args, bad⟩ := acc
    have hk : matchesField "Command" k = false := h (k, v) (List.mem_cons_self _ _)
    simp only [decodeExecuteCommandMembers, hk, Bool.false_eq_true, if_false]
    exact ih _ (fun m1 h1 => h m1 (List.mem_cons_of_mem _ h1))

theorem decodeWriteFileMembers_noPath (members : List (String × JSON))
    (acc : WriteFileArgs × Bool) (h : ∀ m ∈ members, matchesField "Path" m.1 = false) :
    (decodeWriteFileMembers members acc).1.Path = acc.1.Path := by
  induction members generalizing acc with
  | nil => rfl
  | cons m members ih =>
    obtain ⟨k, v⟩ := m
    obtain ⟨args, bad⟩ := acc
    have hk : matchesField "Path" k = false := h (k, v) (List.mem_cons_self _ _)
    have hrest : ∀ m1 ∈ members, matchesField "Path" m1.1 = false :=
      fun m1 h1 => h m1 (List.mem_cons_of_mem _ h1)
    simp only [decodeWriteFileMembers, hk, Bool.false_eq_true, if_false]
    split
    · rw [ih _ hrest]
    · rw [ih _ hrest]

theorem decodeWriteFileMembers_noContent (members : List (String × JSON))
    (acc : WriteFileArgs × Bool) (h : ∀ m ∈ members, matchesField "Content" m.1 = false) :
    (decodeWriteFileMembers members acc).1.Content = acc.1.Content := by
  induction members generalizing acc with
  | nil => rfl
  | cons m members ih =>
    obtain ⟨k, v⟩ := m
    obtain ⟨args, bad⟩ := acc
    have hk : matchesField "Content" k = false := h (k, v) (List.mem_cons_self _ _)
    have hrest : ∀ m1 ∈ members, matchesField "Content" m1.1 = false :=
      fun m1 h1 => h m1 (List.mem_cons_of_mem _ h1)
    simp only [decodeWriteFileMembers, hk, Bool.false_eq_true, if_false]
    split
    · rw [ih _ hrest]
    · rw [ih _ hrest]

theorem decodeWriteFileMembers_noTypeError (members : List (String × JSON))
    (acc : WriteFileArgs × Bool) (hacc : acc.2 = false)
    (h : ∀ m ∈ members, m.2 = .null ∨ ∃ s, m.2 = .string s) :
    (decodeWriteFileMembers members acc).2 = false := by
  induction members generalizing acc with
  | nil => exact hacc
  | cons m members ih =>
    obtain ⟨k, v⟩ := m
    obtain ⟨args, bad⟩ := acc
    simp only at hacc
    subst hacc
    have hv : ∀ old : String, (storeString v old).2 = false := by
      intro old
      rcases h (k, v) (List.mem_cons_self _ _) with hv | ⟨s, hv⟩
      · simp only at hv; subst hv; rfl
      · simp only at hv; subst hv; rfl
    have hrest : ∀ m1 ∈ members, m1.2 = .null ∨ ∃ s, m1.2 = .string s :=
      fun m1 h1 => h m1 (List.mem_cons_of_mem _ h1)
    simp only [decodeWriteFileMembers]
    split
    · exact ih _ (by simp [hv]) hrest
    · split
      · exact ih _ (by simp [hv]) hrest
      · exact ih _ rfl hrest

/-- C29: with `json.Unmarshal` as modelled by `withJSON`, required arguments are not
enforced when the arguments are decoded.  For an `executeCommand` tool call whose
arguments are a JSON object without a key for `Command`, decoding succeeds with the empty
command, the command executor is called with the empty string and the result turn is
appended (first part); `{}` and `{"warp_factor":5}` are such objects (second and third
parts).  For a `writeFile` tool call whose arguments are a JSON object that decodes, a
field without key is the empty string and the file writer is called with it (fourth
part); an object without key for `Path`, or without key for `Content`, decodes as soon as
its values are strings or `null` (last two parts). -/
theorem C29_required_arguments_not_enforced (go : GoLib) (l : LLMWrapper) :
    (∀ (id typ args : String) (members : List (String × JSON)) (calls : List ToolCall)
      (s : State),
      parseJSON args = some (.object members) →
      (∀ m ∈ members, matchesField "Command" m.1 = false) →
      (withJSON go).UnmarshalExecuteCommand args = .ok { Command := "" } ∧
      performToolCalls (withJSON go) l
          (⟨id, typ, some ⟨"executeCommand", args⟩⟩ :: calls) s =
        performToolCalls (withJSON go) l calls
          { history := s.history ++
              [requestTurn id typ "executeCommand" args,
               resultTurn id "executeCommand"
                 ((if (l.commandExecutor.Execute s.trace "").2.isSome
                     then "The command failed with the output"
                     else "The command ran successfully with the output")
                   ++ ":\n" ++ (l.commandExecutor.Execute s.trace "").1)],
            trace := s.trace ++ [.Execute ""] }) ∧
    parseJSON "\x7b\x7d" = some (.object []) ∧
    parseJSON "\x7b\"warp_factor\":5\x7d" = some (.object [("warp_factor", .number "5")]) ∧
    (∀ (id typ args : String) (members : List (String × JSON)) (a : WriteFileArgs)
      (calls : List ToolCall) (s : State),
      parseJSON args = some (.object members) →
      decodeWriteFile (.object members) = .ok a →
      l.fileWriter.WriteFile s.trace a.Path a.Content = none →
      ((∀ m ∈ members, matchesField "Path" m.1 = false) → a.Path = "") ∧
      ((∀ m ∈ members, matchesField "Content" m.1 = false) → a.Content = "") ∧
      performToolCalls (withJSON go) l (⟨id, typ, some ⟨"writeFile", args⟩⟩ :: calls) s =
        performToolCalls (withJSON go) l calls
          { history := s.history ++
              [requestTurn id typ "writeFile" args, resultTurn id "writeFile" "ok"],
            trace := s.trace ++ [.WriteFile a.Path a.Content] }) ∧
    (∀ members : List (String × JSON),
      (∀ m ∈ members, matchesField "Path" m.1 = false) →
      (∀ m ∈ members, m.2 = .null ∨ ∃ s, m.2 = .string s) →
      ∃ content, decodeWriteFile (.object members) = .ok { Path := "", Content := content }) ∧
    (∀ members : List (String × JSON),
      (∀ m ∈ members, matchesField "Content" m.1 = false) →
      (∀ m ∈ members, m.2 = .null ∨ ∃ s, m.2 = .string s) →
      ∃ path, decodeWriteFile (.object members) = .ok { Path := path, Content := "" }) := by
  refine ⟨?_, rfl, rfl, ?_, ?_, ?_⟩
  · intro id typ args members calls s hparse hno
    have hd : (withJSON go).UnmarshalExecuteCommand args = .ok { Command := "" } := by
      simp [withJSON, jsonUnmarshalExecuteCommand, hparse, decodeExecuteCommand,
        decodeExecuteCommandMembers_noKey members _ hno]
    exact ⟨hd, performToolCalls_execute (withJSON go) l id typ args calls s _ hd⟩
  · intro id typ args members a calls s hparse hdec hw
    have hd : (withJSON go).UnmarshalWriteFile args = .ok a := by
      simp [withJSON, jsonUnmarshalWriteFile, hparse, hdec]
    have ha : a = (decodeWriteFileMembers members ({ Path := "", Content := "" }, false)).1 := by
      simp only [decodeWriteFile] at hdec
      split at hdec
      · simp at hdec
      · simp only [Except.ok.injEq] at hdec
        exact hdec.symm
    refine ⟨?_, ?_, performToolCalls_writeFile (withJSON go) l id typ args calls s a hd hw⟩
    · intro hno
      rw [ha, decodeWriteFileMembers_noPath members _ hno]
    · intro hno
      rw [ha, decodeWriteFileMembers_noContent members _ hno]
  · intro members hno hty
    have hp := decodeWriteFileMembers_noPath members ({ Path := "", Content := "" }, false) hno
    have hbad := decodeWriteFileMembers_noTypeError members
      ({ Path := "", Content := "" }, false) rfl hty
    generalize hD : decodeWriteFileMembers members ({ Path := "", Content := "" }, false) = D
      at hp hbad
    obtain ⟨⟨p, c⟩, b⟩ := D
    simp only at hp hbad
    subst hp
    subst hbad
    exact ⟨c, by simp [decodeWriteFile, hD]⟩
  · intro members hno hty
    have hp := decodeWriteFileMembers_noContent members ({ Path := "", Content := "" }, false)
      hno
    have hbad := decodeWriteFileMembers_noTypeError members
      ({ Path := "", Content := "" }, false) rfl hty
    generalize hD : decodeWriteFileMembers members ({ Path := "", Content := "" }, false) = D
      at hp hbad
    obtain ⟨⟨p, c⟩, b⟩ := D
    simp only at hp hbad
    subst hp
    subst hbad
    exact ⟨p, by simp [decodeWriteFile, hD]⟩

/-- C29, on an `executeCommand` tool call with the arguments of the test where the model
invokes a tool that does not exist: the command executor is called with the empty
string. -/
theorem C29_required_arguments_not_enforced_witness :
    parseJSON "\x7b\"warp_factor\":5\x7d" = some (.object [("warp_factor", .number "5")]) ∧
    (∀ m ∈ [("warp_factor", JSON.number "5")], matchesField "Command" m.1 = false) ∧
    performToolCalls (withJSON fakeGo) (fakeWrapper {} ("engineer", none) none ("", none))
        (⟨"abc123", "function", some ⟨"executeCommand", "\x7b\"warp_factor\":5\x7d"⟩⟩ :: []) {} =
      (.nil,
       { history :=
           [requestTurn "abc123" "function" "executeCommand" "\x7b\"warp_factor\":5\x7d",
            resultTurn "abc123" "executeCommand"
              "The command ran successfully with the output:\nengineer"],
         trace := [.Execute ""] }) :=
  ⟨rfl, by simp [matchesField, lowerASCII],
    (((C29_required_arguments_not_enforced fakeGo
      (fakeWrapper {} ("engineer", none) none ("", none))).1 "abc123" "function"
      "\x7b\"warp_factor\":5\x7d" [("warp_factor", .number "5")] [] {} rfl
      (by simp [matchesField, lowerASCII])).2).trans rfl⟩

end Agent
